import Mathlib

/-!
Verification of the apns push-notification client library (Go) against its
natural-language specification.

Modelling conventions, used throughout:

* Go `string` values are byte sequences; they are modelled as `List Nat`
  (each entry a byte value < 256, though the definitions only ever inspect
  bytes by comparison, so no bound is carried).
* Go `float64` values are modelled as rationals (`Rat`).  The library never
  does float arithmetic: floats are only compared against the literals
  `0.0`/`1.0` and formatted with `strconv.AppendFloat(.., 'f', -1, 64)`
  (shortest round-trippable decimal).  On non-NaN, non-infinite values the
  comparisons agree with the rational order, and the shortest round-trip
  formatting of a float denotes exactly the rational value the float holds,
  which is how formatting is modelled (`renderNum` below).  NaN, infinities
  and negative zero have no counterpart in the model.
* Go `int` / `int64` are modelled as `Int`.  The library never does integer
  arithmetic on them (only comparisons and decimal formatting), so two's
  complement wrap-around can not be observed and no `% 2^64` is needed.
* Go interface values (`any`) are modelled by the closed inductive `AnyVal`
  whose constructors are exactly the runtime types the library's type
  switches distinguish, plus `vOther` for every other runtime type (the
  `default` branches).  Go treats `Alert` and `*Alert` (and `Sound` /
  `*Sound`, `EpochTime` / `*EpochTime`) identically in every switch, so each
  pair is modelled by a single constructor.
* Go maps (`map[string]any`) are modelled as association lists
  `List (GoStr × AnyVal)`; a `nil` map and an empty map both become `[]`.
  Go guarantees distinct keys; where a theorem needs that fact it carries an
  explicit `Nodup` hypothesis.  Go's map iteration order is unspecified; the
  model iterates in list order.
* Go errors are `Option`-shaped: `none` is `nil`, `some e` carries a
  constructor identifying which `errors.New` / `fmt.Errorf` site produced it
  together with the formatted arguments.
-/

namespace Apns

/-- A Go string: a sequence of bytes. -/
abbrev GoStr := List Nat

/-- ASCII bytes of a Lean string literal, used to write concrete Go strings. -/
def bytes (s : String) : GoStr := s.data.map Char.toNat

/-- Validation errors, one constructor per error site in the source
(`payload/ratio.go`, `payload/sound.go`, `payload/aps.go`). -/
inductive VErr where
  /-- ratio.go:14 `fmt.Errorf("ratio out of range: %f", r)` -/
  | ratioOutOfRange (r : Rat)
  /-- sound.go:35 `fmt.Errorf("invalid critical flag: %d", s.Critical)` -/
  | invalidCriticalFlag (c : Int)
  /-- sound.go:38 `fmt.Errorf("volume field error: %w", err)` (wraps the ratio error) -/
  | volumeFieldError (e : VErr)
  /-- aps.go:105 `errors.New("aps dictionary must not be empty")` -/
  | apsEmpty
  /-- aps.go:114 invalid type for aps.Alert -/
  | invalidAlertType
  /-- aps.go:121 invalid type for aps.Badge -/
  | invalidBadgeType
  /-- aps.go:139 invalid type for aps.Sound -/
  | invalidSoundType
  /-- aps.go:147 invalid value for aps.ContentAvailable -/
  | invalidContentAvailable
  /-- aps.go:155 invalid value for aps.MutableContent -/
  | invalidMutableContent
  /-- aps.go:165 invalid value for aps.InterruptionLevel -/
  | invalidInterruptionLevel (s : GoStr)
  /-- aps.go:177 invalid value for aps.Event -/
  | invalidEvent (s : GoStr)
  /-- aps.go:189 invalid type for aps.RelevanceScore -/
  | invalidRelevanceType
  /-- aps.go:195 relevance-score must be between 0.0 and 1.0, citing the value -/
  | relevanceOutOfRange (r : Rat)
deriving DecidableEq, Repr

/-- payload/ratio.go: `type Ratio float64`, a value meant to lie in [0.0, 1.0]. -/
abbrev Ratio := Rat

/-- payload/ratio.go `Ratio.Validate`: fails iff the value is outside [0.0, 1.0]. -/
def Ratio.Validate (r : Ratio) : Option VErr :=
  if r < 0 ∨ r > 1 then some (.ratioOutOfRange r) else none

/-- payload/sound/alert_flag.go: `AlertFlag int` with `None = 0`, `Critical = 1`. -/
abbrev AlertFlag := Int

/-- payload/sound.go: the `sound` dictionary. -/
structure Sound where
  name : GoStr
  critical : AlertFlag
  volume : Ratio
deriving DecidableEq, Repr

/-- payload/sound.go `Sound.Validate`: the critical flag must be 0 or 1 (checked
first), then the volume is validated as a `Ratio` and its error is wrapped in a
"volume field error". -/
def Sound.Validate (s : Sound) : Option VErr :=
  if s.critical ≠ 0 ∧ s.critical ≠ 1 then some (.invalidCriticalFlag s.critical)
  else match Ratio.Validate s.volume with
    | some e => some (.volumeFieldError e)
    | none => none

/-- payload/alert.go: the `alert` dictionary (11 optional fields, no validator). -/
structure Alert where
  title : GoStr := []
  subtitle : GoStr := []
  body : GoStr := []
  launchImage : GoStr := []
  locKey : GoStr := []
  locArgs : List GoStr := []
  titleLocKey : GoStr := []
  titleLocArgs : List GoStr := []
  subtitleLocKey : GoStr := []
  subtitleLocArgs : List GoStr := []
  actionLocKey : GoStr := []
deriving DecidableEq, Repr

/-- A Go dynamic (`any`) value, with one constructor per runtime type the
library's type switches distinguish (see `EncodeValue` and the `APS` field
switches), plus `vOther` for every other runtime type.  `vMarshaler` models a
value implementing `json.Marshaler`: it carries the bytes its `MarshalJSON`
returns, or `none` when that call errors. -/
inductive AnyVal where
  | vString (s : GoStr)
  | vInt (n : Int)
  | vInt64 (n : Int)
  | vFloat (q : Rat)
  | vBool (b : Bool)
  | vNull
  | vBytes (bs : GoStr)
  | vEpochTime (t : Int)
  | vStrList (xs : List GoStr)
  | vIntList (xs : List Int)
  | vInt64List (xs : List Int)
  | vFloatList (xs : List Rat)
  | vMarshaler (out : Option GoStr)
  | vMap (entries : List (GoStr × AnyVal))
  | vArr (xs : List AnyVal)
  | vAlert (a : Alert)
  | vSound (s : Sound)
  | vOther
deriving Repr

/-- notification (expiration_time.go): `EpochTime int64`. -/
abbrev EpochTime := Int

/-- payload/aps.go: the `aps` dictionary.  Fields of Go type `any` become
`Option AnyVal` (a `nil` interface is `none`); `*EpochTime` fields become
`Option EpochTime`; plain strings (`Category`, `ThreadID`, the
`InterruptionLevel` string type, `FilterCriteria`, `TargetContentID`, `Event`,
`AttributesType`) become `GoStr`; the two `map[string]any` fields become
association lists. -/
structure APS where
  alert : Option AnyVal := none
  badge : Option AnyVal := none
  sound : Option AnyVal := none
  contentAvailable : Option AnyVal := none
  mutableContent : Option AnyVal := none
  category : GoStr := []
  threadID : GoStr := []
  interruptionLevel : GoStr := []
  relevanceScore : Option AnyVal := none
  staleDate : Option EpochTime := none
  filterCriteria : GoStr := []
  timestamp : Option EpochTime := none
  targetContentID : GoStr := []
  contentState : List (GoStr × AnyVal) := []
  event : GoStr := []
  dismissalDate : Int := 0
  attributesType : GoStr := []
  attributes : List (GoStr × AnyVal) := []

/-- aps.go:92: any of alert, badge, sound, contentAvailable, mutableContent present. -/
def APS.isNotification (aps : APS) : Bool :=
  aps.alert.isSome || aps.badge.isSome || aps.sound.isSome ||
    aps.contentAvailable.isSome || aps.mutableContent.isSome

/-- aps.go:99: contentState or attributes non-empty. -/
def APS.isLiveActivity (aps : APS) : Bool :=
  !aps.contentState.isEmpty || !aps.attributes.isEmpty

/-- aps.go:109-116: Alert must be a string, `Alert` or `*Alert` when present. -/
def APS.checkAlert (aps : APS) : Option VErr :=
  match aps.alert with
  | none => none
  | some (.vString _) => none
  | some (.vAlert _) => none
  | some _ => some .invalidAlertType

/-- aps.go:119-123: Badge must be an `int` when present. -/
def APS.checkBadge (aps : APS) : Option VErr :=
  match aps.badge with
  | none => none
  | some (.vInt _) => none
  | some _ => some .invalidBadgeType

/-- aps.go:126-141: Sound must be a string, `Sound` or `*Sound` when present; a
structured sound is validated by `Sound.Validate` and its error propagated
unchanged. -/
def APS.checkSound (aps : APS) : Option VErr :=
  match aps.sound with
  | none => none
  | some (.vString _) => none
  | some (.vSound s) => s.Validate
  | some _ => some .invalidSoundType

/-- aps.go:144-149: ContentAvailable must be the integer 1 when present. -/
def APS.checkContentAvailable (aps : APS) : Option VErr :=
  match aps.contentAvailable with
  | none => none
  | some (.vInt 1) => none
  | some _ => some .invalidContentAvailable

/-- aps.go:152-157: MutableContent must be the integer 1 when present. -/
def APS.checkMutableContent (aps : APS) : Option VErr :=
  match aps.mutableContent with
  | none => none
  | some (.vInt 1) => none
  | some _ => some .invalidMutableContent

/-- aps.go:160-167: InterruptionLevel, when non-empty, must be one of the four
enum literals from payload/interruptionlevel. -/
def APS.checkInterruptionLevel (aps : APS) : Option VErr :=
  if aps.interruptionLevel = [] then none
  else if aps.interruptionLevel = bytes "passive" ∨
      aps.interruptionLevel = bytes "active" ∨
      aps.interruptionLevel = bytes "time-sensitive" ∨
      aps.interruptionLevel = bytes "critical" then none
  else some (.invalidInterruptionLevel aps.interruptionLevel)

/-- aps.go:170-179: Event, when non-empty, must be "start", "update" or "end". -/
def APS.checkEvent (aps : APS) : Option VErr :=
  if aps.event = [] then none
  else if aps.event = bytes "start" ∨ aps.event = bytes "update" ∨
      aps.event = bytes "end" then none
  else some (.invalidEvent aps.event)

/-- aps.go:183-191: the numeric coercion applied to RelevanceScore: a `float64`
is taken as is, an `int` is converted to `float64`; anything else fails. -/
def AnyVal.numValue : AnyVal → Option Rat
  | .vFloat q => some q
  | .vInt n => some (n : Rat)
  | _ => none

/-- aps.go:182-198: RelevanceScore, when present, must coerce to a number; if
the dictionary is not a live activity the value must lie in [0.0, 1.0]. -/
def APS.checkRelevance (isLiveActivity : Bool) (aps : APS) : Option VErr :=
  match aps.relevanceScore with
  | none => none
  | some v =>
    match v.numValue with
    | none => some .invalidRelevanceType
    | some score =>
      if !isLiveActivity then
        if score < 0 ∨ score > 1 then some (.relevanceOutOfRange score) else none
      else none

/-- aps.go:91-201 `APS.Validate`: the emptiness check, then the field checks in
source order (alert, badge, sound, contentAvailable, mutableContent,
interruptionLevel, event, relevanceScore); the Go early returns become the
first-`some`-wins chain `<|>`. -/
def APS.Validate (aps : APS) : Option VErr :=
  if !aps.isNotification && !aps.isLiveActivity then some .apsEmpty
  else
    aps.checkAlert <|> aps.checkBadge <|> aps.checkSound <|>
      aps.checkContentAvailable <|> aps.checkMutableContent <|>
      aps.checkInterruptionLevel <|> aps.checkEvent <|>
      aps.checkRelevance aps.isLiveActivity

/-- None of the per-field checks can produce the "empty dictionary" error. -/
theorem Sound.Validate_ne_apsEmpty (s : Sound) : s.Validate ≠ some .apsEmpty := by
  unfold Sound.Validate Ratio.Validate
  split
  · simp
  · split <;> simp

theorem APS.checkAlert_ne_apsEmpty (aps : APS) : aps.checkAlert ≠ some .apsEmpty := by
  unfold APS.checkAlert; split <;> simp

theorem APS.checkBadge_ne_apsEmpty (aps : APS) : aps.checkBadge ≠ some .apsEmpty := by
  unfold APS.checkBadge; split <;> simp

theorem APS.checkSound_ne_apsEmpty (aps : APS) : aps.checkSound ≠ some .apsEmpty := by
  unfold APS.checkSound
  split
  · simp
  · simp
  · exact Sound.Validate_ne_apsEmpty _
  · simp

theorem APS.checkContentAvailable_ne_apsEmpty (aps : APS) :
    aps.checkContentAvailable ≠ some .apsEmpty := by
  unfold APS.checkContentAvailable; split <;> simp

theorem APS.checkMutableContent_ne_apsEmpty (aps : APS) :
    aps.checkMutableContent ≠ some .apsEmpty := by
  unfold APS.checkMutableContent; split <;> simp

theorem APS.checkInterruptionLevel_ne_apsEmpty (aps : APS) :
    aps.checkInterruptionLevel ≠ some .apsEmpty := by
  unfold APS.checkInterruptionLevel; split <;> [skip; split] <;> simp

theorem APS.checkEvent_ne_apsEmpty (aps : APS) : aps.checkEvent ≠ some .apsEmpty := by
  unfold APS.checkEvent; split <;> [skip; split] <;> simp

theorem APS.checkRelevance_ne_apsEmpty (b : Bool) (aps : APS) :
    aps.checkRelevance b ≠ some .apsEmpty := by
  unfold APS.checkRelevance
  split
  · simp
  · split
    · simp
    · split <;> [split; skip] <;> simp

/-- C5: `Sound.Validate` succeeds iff the critical flag is 0 or 1 and the volume
lies in [0.0, 1.0]; and the flag is checked first, so a descriptor whose flag is
invalid reports the flag error whatever its volume (first-error-wins). -/
theorem sound_validate_spec (s : Sound) :
    (s.Validate = none ↔
      ((s.critical = 0 ∨ s.critical = 1) ∧ 0 ≤ s.volume ∧ s.volume ≤ 1)) ∧
    (s.critical ≠ 0 ∧ s.critical ≠ 1 →
      s.Validate = some (.invalidCriticalFlag s.critical)) := by
  have hval : s.Validate =
      if s.critical ≠ 0 ∧ s.critical ≠ 1 then some (.invalidCriticalFlag s.critical)
      else if s.volume < 0 ∨ s.volume > 1 then
        some (.volumeFieldError (.ratioOutOfRange s.volume))
      else none := by
    rw [Sound.Validate, Ratio.Validate]
    by_cases hc : s.critical ≠ 0 ∧ s.critical ≠ 1
    · simp [hc]
    · by_cases hv : s.volume < 0 ∨ s.volume > 1 <;> simp [hc, hv]
  rw [hval]
  constructor
  · constructor
    · intro h
      split_ifs at h with hc hv
      push_neg at hv
      rcases not_and_or.mp hc with h0 | h0
      · exact ⟨Or.inl (not_not.mp h0), hv.1, hv.2⟩
      · exact ⟨Or.inr (not_not.mp h0), hv.1, hv.2⟩
    · rintro ⟨h01, h0, h1⟩
      rw [if_neg (by tauto), if_neg ?_]
      rintro (h | h)
      · exact absurd h (not_lt.mpr h0)
      · exact absurd h (not_lt.mpr h1)
  · intro hc
    rw [if_pos hc]

/-- Witness for `sound_validate_spec` at concrete descriptors: a flag of 2 with
volume 2.0 reports the flag error; flag 1 with volume 0.5 validates. -/
theorem sound_validate_spec_witness :
    Sound.Validate ⟨[], 2, 2⟩ = some (.invalidCriticalFlag 2) ∧
    Sound.Validate ⟨[], 1, 1/2⟩ = none := by
  constructor
  · exact (sound_validate_spec ⟨[], 2, 2⟩).2 (by norm_num)
  · exact (sound_validate_spec ⟨[], 1, 1/2⟩).1.mpr (by norm_num)

/-- C6: `APS.Validate` returns the "empty dictionary" error exactly when none of
alert, badge, sound, contentAvailable, mutableContent is present and both
contentState and attributes are empty; and a dictionary with only contentState
populated (all notification fields absent) validates successfully. -/
theorem aps_empty_spec :
    (∀ aps : APS, aps.Validate = some .apsEmpty ↔
      (aps.alert = none ∧ aps.badge = none ∧ aps.sound = none ∧
       aps.contentAvailable = none ∧ aps.mutableContent = none ∧
       aps.contentState = [] ∧ aps.attributes = [])) ∧
    (∀ cs : List (GoStr × AnyVal), cs ≠ [] →
      APS.Validate { contentState := cs } = none) := by
  constructor
  · intro aps
    have hcond : (!aps.isNotification && !aps.isLiveActivity) = true ↔
        (aps.alert = none ∧ aps.badge = none ∧ aps.sound = none ∧
         aps.contentAvailable = none ∧ aps.mutableContent = none ∧
         aps.contentState = [] ∧ aps.attributes = []) := by
      simp [APS.isNotification, APS.isLiveActivity, Option.not_isSome_iff_eq_none,
        List.isEmpty_iff, and_assoc]
    constructor
    · intro h
      rw [← hcond]
      by_contra hne
      rw [APS.Validate, if_neg hne] at h
      rcases h1 : aps.checkAlert with _ | e
      case some => rw [h1, Option.some_orElse] at h; exact aps.checkAlert_ne_apsEmpty (h1.trans h)
      rw [h1, Option.none_orElse] at h
      rcases h2 : aps.checkBadge with _ | e
      case some => rw [h2, Option.some_orElse] at h; exact aps.checkBadge_ne_apsEmpty (h2.trans h)
      rw [h2, Option.none_orElse] at h
      rcases h3 : aps.checkSound with _ | e
      case some => rw [h3, Option.some_orElse] at h; exact aps.checkSound_ne_apsEmpty (h3.trans h)
      rw [h3, Option.none_orElse] at h
      rcases h4 : aps.checkContentAvailable with _ | e
      case some =>
        rw [h4, Option.some_orElse] at h
        exact aps.checkContentAvailable_ne_apsEmpty (h4.trans h)
      rw [h4, Option.none_orElse] at h
      rcases h5 : aps.checkMutableContent with _ | e
      case some =>
        rw [h5, Option.some_orElse] at h
        exact aps.checkMutableContent_ne_apsEmpty (h5.trans h)
      rw [h5, Option.none_orElse] at h
      rcases h6 : aps.checkInterruptionLevel with _ | e
      case some =>
        rw [h6, Option.some_orElse] at h
        exact aps.checkInterruptionLevel_ne_apsEmpty (h6.trans h)
      rw [h6, Option.none_orElse] at h
      rcases h7 : aps.checkEvent with _ | e
      case some => rw [h7, Option.some_orElse] at h; exact aps.checkEvent_ne_apsEmpty (h7.trans h)
      rw [h7, Option.none_orElse] at h
      exact APS.checkRelevance_ne_apsEmpty _ aps h
    · intro h
      rw [APS.Validate, if_pos (hcond.mpr h)]
  · intro cs hcs
    have hne : cs.isEmpty = false := by
      cases cs
      · exact absurd rfl hcs
      · rfl
    simp [APS.Validate, APS.isNotification, APS.isLiveActivity, hne, APS.checkAlert,
      APS.checkBadge, APS.checkSound, APS.checkContentAvailable, APS.checkMutableContent,
      APS.checkInterruptionLevel, APS.checkEvent, APS.checkRelevance]

/-- Witness for `aps_empty_spec` at a concrete one-entry contentState. -/
theorem aps_empty_spec_witness :
    APS.Validate { contentState := [(bytes "status", .vString (bytes "on"))] } = none :=
  aps_empty_spec.2 _ (by simp)

/-- All checks preceding the relevance-score check pass, and the dictionary is
not empty: under these conditions `APS.Validate` reduces to the relevance check. -/
def APS.priorChecksOK (aps : APS) : Prop :=
  (aps.isNotification || aps.isLiveActivity) = true ∧
  aps.checkAlert = none ∧ aps.checkBadge = none ∧ aps.checkSound = none ∧
  aps.checkContentAvailable = none ∧ aps.checkMutableContent = none ∧
  aps.checkInterruptionLevel = none ∧ aps.checkEvent = none

/-- Under `priorChecksOK`, `APS.Validate` reduces to the relevance-score check:
a type error unless the value coerces to a number, and the range check exactly
when the dictionary is not a live activity. -/
theorem APS.validate_relevance_eq (aps : APS) (v : AnyVal) (hp : aps.priorChecksOK)
    (hrel : aps.relevanceScore = some v) :
    aps.Validate = (match v.numValue with
      | none => some .invalidRelevanceType
      | some score =>
        if aps.isLiveActivity = false ∧ (score < 0 ∨ score > 1) then
          some (.relevanceOutOfRange score)
        else none) := by
  obtain ⟨hne, h1, h2, h3, h4, h5, h6, h7⟩ := hp
  have hcond : ¬((!aps.isNotification && !aps.isLiveActivity) = true) := by
    intro hcontra
    rw [Bool.and_eq_true, Bool.not_eq_true', Bool.not_eq_true'] at hcontra
    rw [hcontra.1, hcontra.2] at hne
    cases hne
  rw [APS.Validate, if_neg hcond, h1, h2, h3, h4, h5, h6, h7]
  simp only [Option.none_orElse]
  simp only [APS.checkRelevance, hrel]
  cases hnum : v.numValue with
  | none => simp [hnum]
  | some score =>
    simp only [hnum]
    by_cases hla : aps.isLiveActivity = true
    · simp [hla]
    · simp only [Bool.not_eq_true] at hla
      simp [hla]

/-- C4: with a present relevanceScore and all earlier checks passing, validation
fails with a type error unless the value coerces to a number (float64 or int),
and the [0.0, 1.0] range check applies exactly when the dictionary is not a live
activity; in particular 1.1 fails for a plain-alert dictionary but passes for
dictionaries with non-empty contentState or attributes. -/
theorem aps_relevance_spec :
    (∀ (aps : APS) (v : AnyVal), aps.priorChecksOK → aps.relevanceScore = some v →
      aps.Validate = (match v.numValue with
        | none => some .invalidRelevanceType
        | some score =>
          if aps.isLiveActivity = false ∧ (score < 0 ∨ score > 1) then
            some (.relevanceOutOfRange score)
          else none)) ∧
    (APS.Validate { alert := some (.vString (bytes "hi")),
                    relevanceScore := some (.vFloat (11/10)) } =
      some (.relevanceOutOfRange (11/10))) ∧
    (APS.Validate { contentState := [(bytes "k", .vInt 1)],
                    relevanceScore := some (.vFloat (11/10)) } = none) ∧
    (APS.Validate { attributes := [(bytes "k", .vInt 1)],
                    relevanceScore := some (.vFloat (11/10)) } = none) := by
  refine ⟨fun aps v hp hrel => APS.validate_relevance_eq aps v hp hrel, ?_, ?_, ?_⟩
  · rw [APS.validate_relevance_eq
      { alert := some (.vString (bytes "hi")), relevanceScore := some (.vFloat (11/10)) }
      (.vFloat (11/10)) ⟨rfl, rfl, rfl, rfl, rfl, rfl, rfl, rfl⟩ rfl]
    norm_num [AnyVal.numValue, APS.isLiveActivity]
  · rw [APS.validate_relevance_eq
      { contentState := [(bytes "k", .vInt 1)], relevanceScore := some (.vFloat (11/10)) }
      (.vFloat (11/10)) ⟨rfl, rfl, rfl, rfl, rfl, rfl, rfl, rfl⟩ rfl]
    norm_num [AnyVal.numValue, APS.isLiveActivity]
  · rw [APS.validate_relevance_eq
      { attributes := [(bytes "k", .vInt 1)], relevanceScore := some (.vFloat (11/10)) }
      (.vFloat (11/10)) ⟨rfl, rfl, rfl, rfl, rfl, rfl, rfl, rfl⟩ rfl]
    norm_num [AnyVal.numValue, APS.isLiveActivity]

/-- Witness for `aps_relevance_spec` at a concrete dictionary: alert present,
relevance score the integer 2 (not a live activity), reported out of range. -/
theorem aps_relevance_spec_witness :
    APS.Validate { alert := some (.vString []), relevanceScore := some (.vInt 2) } =
      some (.relevanceOutOfRange 2) := by
  have h := aps_relevance_spec.1
    { alert := some (.vString []), relevanceScore := some (.vInt 2) } (.vInt 2)
    ⟨rfl, rfl, rfl, rfl, rfl, rfl, rfl, rfl⟩ rfl
  rw [h]
  norm_num [AnyVal.numValue, APS.isLiveActivity]

/-! ### The fast encoders

The Go encoders append to a pooled byte buffer `b`; the model renders each
emitted chunk as a byte list and concatenates.  The buffer pool (alertPool,
apsPool, customDataPool) is a throughput optimization with no logical state
(buffers are truncated to empty on acquisition), so it has no counterpart in
the model. -/

/-- part_001:11 `const hex = "0123456789abcdef"`, indexed by a nibble. -/
def hexDig (n : Nat) : Nat := (bytes "0123456789abcdef").getD n 0

/-- The escaping loop body of the `appendQuote` closure that appears (textually
identically) in `Alert.MarshalJSONFast`, `APS.MarshalJSONFast` and
`Sound.MarshalJSONFast`: quote and backslash get a backslash prefix, bytes
at most 0x1F become a six-byte `\u00XX` sequence (`c>>4` is `c / 16`,
`c&0xF` is `c % 16`), every other byte passes through. -/
def escFastByte (c : Nat) : GoStr :=
  if c = 34 ∨ c = 92 then [92, c]
  else if c ≤ 0x1F then [92, 117, 48, 48, hexDig (c / 16), hexDig (c % 16)]
  else [c]

/-- The full `appendQuote` of the struct encoders: a double quote, the escaped
bytes, a closing double quote. -/
def quoteFast (s : GoStr) : GoStr := 34 :: (s.flatMap escFastByte ++ [34])

/-- The escaping loop body of the `appendQuote` closure in `marshalCustomData`
(payload_marshal.go:70-81), used for custom-data map keys: only quote and
backslash are escaped; every other byte (control bytes included) passes
through. -/
def escCustomKeyByte (c : Nat) : GoStr :=
  if c = 34 ∨ c = 92 then [92, c] else [c]

/-- The full `appendQuote` of `marshalCustomData`. -/
def quoteCustomKey (s : GoStr) : GoStr := 34 :: (s.flatMap escCustomKeyByte ++ [34])

/-- Modelled from the library's standard-library dependency: the byte-level
behaviour of `strconv.AppendQuote` (Go string-literal quoting), used by
`EncodeValue` for dynamic strings, byte slices and nested map keys.  Exact for
ASCII bytes: quote and backslash get a backslash prefix; the seven bytes with
dedicated Go escapes become `\a \b \t \n \v \f \r`; the remaining bytes below
0x20, and 0x7F, become `\xHH`; bytes 0x20-0x7E pass through.  Bytes ≥ 0x80 are
modelled as passing through, which matches Go exactly when they form printable
UTF-8 sequences (Go escapes unprintable or invalid sequences); the theorems
below only apply this function to strings the relevant claim restricts to
bytes below 0x80. -/
def escGoByte (c : Nat) : GoStr :=
  if c = 34 ∨ c = 92 then [92, c]
  else if c = 7 then [92, 97]
  else if c = 8 then [92, 98]
  else if c = 9 then [92, 116]
  else if c = 10 then [92, 110]
  else if c = 11 then [92, 118]
  else if c = 12 then [92, 102]
  else if c = 13 then [92, 114]
  else if c < 0x20 ∨ c = 0x7F then [92, 120, hexDig (c / 16), hexDig (c % 16)]
  else [c]

/-- Go string-literal quoting of a whole byte string (strconv.AppendQuote). -/
def goQuote (s : GoStr) : GoStr := 34 :: (s.flatMap escGoByte ++ [34])

/-- Decimal digit run of a natural number (most significant first), structural
on a fuel bound so that concrete values compute by `decide`. -/
def natDigitsAux : Nat → Nat → GoStr
  | _, 0 => []
  | n, fuel + 1 => if n < 10 then [48 + n] else natDigitsAux (n / 10) fuel ++ [48 + n % 10]

/-- Decimal digit run of a natural number (most significant first), as emitted
by `strconv.AppendInt` (the fuel `n + 1` always suffices). -/
def natDigits (n : Nat) : GoStr := natDigitsAux n (n + 1)

/-- strconv.AppendInt(b, v, 10): optional minus sign, then decimal digits. -/
def renderInt (i : Int) : GoStr :=
  (if i < 0 then [45] else []) ++ natDigits i.natAbs

/-- Exactly `w` decimal digits of `n % 10^w`, zero-padded on the left. -/
def padDigits (w : Nat) (n : Nat) : GoStr :=
  match w with
  | 0 => []
  | w + 1 => padDigits w (n / 10) ++ [48 + n % 10]

/-- The least `k` with `den ∣ 10^k`, when one exists at most `den` (it does for
every power-of-two-and-five denominator, hence for every float64 value). -/
def decExp (den : Nat) : Option Nat :=
  (List.range (den + 1)).find? (fun k => 10 ^ k % den = 0)

/-- Modelled from the library's standard-library dependency:
`strconv.AppendFloat(b, v, 'f', -1, 64)` renders the shortest decimal digit
string that round-trips to `v`, in positional (never exponent) notation.  On
the rational model the float `v` is identified with the rational its shortest
decimal denotes, so the rendering is that exact terminating decimal: integer
rationals render as plain integers (Go prints `5`, not `5.0`), others with a
point and exactly `decExp den` fractional digits (minimality of `decExp` makes
the last digit nonzero, matching shortest-form output).  The `none` fallback is
unreachable for float64-representable values. -/
def renderNum (q : Rat) : GoStr :=
  match decExp q.den with
  | none => [48]
  | some 0 => renderInt q.num
  | some (k + 1) =>
    let m := q.num.natAbs * (10 ^ (k + 1) / q.den)
    (if q.num < 0 then [45] else []) ++
      natDigits (m / 10 ^ (k + 1)) ++ [46] ++ padDigits (k + 1) (m % 10 ^ (k + 1))

/-- Comma-joined concatenation: the `first` / `addComma` pattern used by all
the encoders (a comma before every chunk except the first). -/
def joinComma : List GoStr → GoStr
  | [] => []
  | x :: xs => x ++ xs.flatMap (fun c => 44 :: c)

/-- A JSON object key header: `"name":`. -/
def keyHdr (s : String) : GoStr := 34 :: (bytes s ++ [34, 58])

/-- part_001:24-127 `Alert.MarshalJSONFast`: the optional fields in source
order, comma-joined inside braces; string fields through `appendQuote`
(= `quoteFast`), string-list fields as arrays of quoted strings. -/
def Alert.MarshalJSONFast (a : Alert) : GoStr :=
  let addString (key : String) (val : GoStr) : GoStr := keyHdr key ++ quoteFast val
  let addStringSlice (key : String) (vals : List GoStr) : GoStr :=
    keyHdr key ++ [91] ++ joinComma (vals.map quoteFast) ++ [93]
  let chunks : List GoStr :=
    (if a.title ≠ [] then [addString "title" a.title] else []) ++
    (if a.subtitle ≠ [] then [addString "subtitle" a.subtitle] else []) ++
    (if a.body ≠ [] then [addString "body" a.body] else []) ++
    (if a.launchImage ≠ [] then [addString "launch-image" a.launchImage] else []) ++
    (if a.locKey ≠ [] then [addString "loc-key" a.locKey] else []) ++
    (if a.locArgs ≠ [] then [addStringSlice "loc-args" a.locArgs] else []) ++
    (if a.titleLocKey ≠ [] then [addString "title-loc-key" a.titleLocKey] else []) ++
    (if a.titleLocArgs ≠ [] then [addStringSlice "title-loc-args" a.titleLocArgs] else []) ++
    (if a.subtitleLocKey ≠ [] then [addString "subtitle-loc-key" a.subtitleLocKey] else []) ++
    (if a.subtitleLocArgs ≠ [] then
      [addStringSlice "subtitle-loc-args" a.subtitleLocArgs] else []) ++
    (if a.actionLocKey ≠ [] then [addString "action-loc-key" a.actionLocKey] else [])
  123 :: (joinComma chunks ++ [125])

/-- aps_marshal (in payload, part of src/payload): `Sound.MarshalJSONFast`:
critical (when nonzero, via AppendInt), name (when non-empty, quoted), volume
(when nonzero, via AppendFloat 'f' -1 64), comma-joined inside braces. -/
def Sound.MarshalJSONFast (s : Sound) : GoStr :=
  let chunks : List GoStr :=
    (if s.critical ≠ 0 then [keyHdr "critical" ++ renderInt s.critical] else []) ++
    (if s.name ≠ [] then [keyHdr "name" ++ quoteFast s.name] else []) ++
    (if s.volume ≠ 0 then [keyHdr "volume" ++ renderNum s.volume] else [])
  123 :: (joinComma chunks ++ [125])

/-- Encoder errors: `ErrInvalidType` for an unsupported runtime type, or the
error a value's own `MarshalJSON` returned. -/
inductive EncErr where
  | invalidType
  | marshalerErr
deriving DecidableEq, Repr

mutual
/-- part_001:390-491 `EncodeValue`: the recursive dynamic-value encoder.
Strings, byte slices and nested map keys go through `strconv.AppendQuote`
(`goQuote`); integers and epoch times through AppendInt; floats through
AppendFloat 'f' -1 64; a `json.Marshaler` value's own output is spliced
verbatim (or its error propagated); any other runtime type is
`ErrInvalidType`. -/
def EncodeValue : AnyVal → Except EncErr GoStr
  | .vString s => .ok (goQuote s)
  | .vInt n => .ok (renderInt n)
  | .vInt64 n => .ok (renderInt n)
  | .vFloat q => .ok (renderNum q)
  | .vBool true => .ok (bytes "true")
  | .vBool false => .ok (bytes "false")
  | .vNull => .ok (bytes "null")
  | .vBytes bs => .ok (goQuote bs)
  | .vEpochTime t => .ok (renderInt t)
  | .vStrList xs => .ok (91 :: (joinComma (xs.map goQuote) ++ [93]))
  | .vIntList xs => .ok (91 :: (joinComma (xs.map renderInt) ++ [93]))
  | .vInt64List xs => .ok (91 :: (joinComma (xs.map renderInt) ++ [93]))
  | .vFloatList xs => .ok (91 :: (joinComma (xs.map renderNum) ++ [93]))
  | .vMarshaler none => .error .marshalerErr
  | .vMarshaler (some out) => .ok out
  | .vMap entries =>
    match encodeGoMapEntries entries with
    | .error e => .error e
    | .ok chunks => .ok (123 :: (joinComma chunks ++ [125]))
  | .vArr xs =>
    match encodeArrElems xs with
    | .error e => .error e
    | .ok chunks => .ok (91 :: (joinComma chunks ++ [93]))
  | .vAlert _ => .error .invalidType
  | .vSound _ => .error .invalidType
  | .vOther => .error .invalidType

/-- The `map[string]any` arm of `EncodeValue`: keys via `strconv.AppendQuote`,
values recursively; the first error aborts. -/
def encodeGoMapEntries : List (GoStr × AnyVal) → Except EncErr (List GoStr)
  | [] => .ok []
  | (k, v) :: rest =>
    match EncodeValue v with
    | .error e => .error e
    | .ok ev =>
      match encodeGoMapEntries rest with
      | .error e => .error e
      | .ok er => .ok ((goQuote k ++ (58 :: ev)) :: er)

/-- The `[]any` arm of `EncodeValue`: elements recursively, first error aborts. -/
def encodeArrElems : List AnyVal → Except EncErr (List GoStr)
  | [] => .ok []
  | v :: rest =>
    match EncodeValue v with
    | .error e => .error e
    | .ok ev =>
      match encodeArrElems rest with
      | .error e => .error e
      | .ok er => .ok (ev :: er)
end

/-- The `content-state` / `attributes` loops of `APS.MarshalJSONFast`
(part_001:320-339, 363-382): keys via the struct encoders' `appendQuote`
(`quoteFast`, not Go quoting), values via `EncodeValue`; first error aborts. -/
def fastMapEntries : List (GoStr × AnyVal) → Except EncErr (List GoStr)
  | [] => .ok []
  | (k, v) :: rest =>
    match EncodeValue v with
    | .error e => .error e
    | .ok ev =>
      match fastMapEntries rest with
      | .error e => .error e
      | .ok er => .ok ((quoteFast k ++ (58 :: ev)) :: er)

/-- The `alert` arm of `APS.MarshalJSONFast` (part_001:196-211): a string is
quoted, an `Alert` / `*Alert` delegates to its fast marshaler, anything else is
`ErrInvalidType`.  Result: the list of chunks this field contributes. -/
def APS.alertChunks (aps : APS) : Except EncErr (List GoStr) :=
  match aps.alert with
  | none => .ok []
  | some (.vAlert a) => .ok [keyHdr "alert" ++ a.MarshalJSONFast]
  | some (.vString s) => .ok [keyHdr "alert" ++ quoteFast s]
  | some _ => .error .invalidType

/-- The `badge` arm (part_001:214-223): only `int` is accepted. -/
def APS.badgeChunks (aps : APS) : Except EncErr (List GoStr) :=
  match aps.badge with
  | none => .ok []
  | some (.vInt n) => .ok [keyHdr "badge" ++ renderInt n]
  | some _ => .error .invalidType

/-- The `sound` arm (part_001:226-241): string or `Sound` / `*Sound`. -/
def APS.soundChunks (aps : APS) : Except EncErr (List GoStr) :=
  match aps.sound with
  | none => .ok []
  | some (.vSound s) => .ok [keyHdr "sound" ++ s.MarshalJSONFast]
  | some (.vString s) => .ok [keyHdr "sound" ++ quoteFast s]
  | some _ => .error .invalidType

/-- The `relevance-score` arm (part_001:277-286): only `float64` is accepted
(an `int` relevance score marshals to `ErrInvalidType`, unlike validation). -/
def APS.relevanceChunks (aps : APS) : Except EncErr (List GoStr) :=
  match aps.relevanceScore with
  | none => .ok []
  | some (.vFloat q) => .ok [keyHdr "relevance-score" ++ renderNum q]
  | some _ => .error .invalidType

/-- A live-activity map field of `APS.MarshalJSONFast`: emitted only when
non-empty, as `"name":{` entries `}`. -/
def APS.mapFieldChunks (name : String) (entries : List (GoStr × AnyVal)) :
    Except EncErr (List GoStr) :=
  if entries.isEmpty then .ok []
  else
    match fastMapEntries entries with
    | .error e => .error e
    | .ok es => .ok [keyHdr name ++ (123 :: (joinComma es ++ [125]))]

/-- part_001:159-386 `APS.MarshalJSONFast`: all eighteen fields in source emit
order, each contributing its chunks (empty when absent), comma-joined inside
braces.  `content-available` and `mutable-content` emit the literal `1`
whenever the field is non-nil, whatever value it holds. -/
def APS.MarshalJSONFast (aps : APS) : Except EncErr GoStr :=
  match aps.alertChunks with
  | .error e => .error e
  | .ok c1 =>
  match aps.badgeChunks with
  | .error e => .error e
  | .ok c2 =>
  match aps.soundChunks with
  | .error e => .error e
  | .ok c3 =>
  match aps.relevanceChunks with
  | .error e => .error e
  | .ok c9 =>
  match APS.mapFieldChunks "content-state" aps.contentState with
  | .error e => .error e
  | .ok c14 =>
  match APS.mapFieldChunks "attributes" aps.attributes with
  | .error e => .error e
  | .ok c18 =>
    let c4 := if aps.contentAvailable.isSome then
      [keyHdr "content-available" ++ [49]] else []
    let c5 := if aps.mutableContent.isSome then
      [keyHdr "mutable-content" ++ [49]] else []
    let c6 := if aps.category ≠ [] then [keyHdr "category" ++ quoteFast aps.category] else []
    let c7 := if aps.threadID ≠ [] then [keyHdr "thread-id" ++ quoteFast aps.threadID] else []
    let c8 := if aps.interruptionLevel ≠ [] then
      [keyHdr "interruption-level" ++ quoteFast aps.interruptionLevel] else []
    let c10 := match aps.staleDate with
      | none => []
      | some t => [keyHdr "stale-date" ++ renderInt t]
    let c11 := if aps.filterCriteria ≠ [] then
      [keyHdr "filter-criteria" ++ quoteFast aps.filterCriteria] else []
    let c12 := match aps.timestamp with
      | none => []
      | some t => [keyHdr "timestamp" ++ renderInt t]
    let c13 := if aps.targetContentID ≠ [] then
      [keyHdr "target-content-id" ++ quoteFast aps.targetContentID] else []
    let c15 := if aps.event ≠ [] then [keyHdr "event" ++ quoteFast aps.event] else []
    let c16 := if aps.dismissalDate ≠ 0 then
      [keyHdr "dismissal-date" ++ renderInt aps.dismissalDate] else []
    let c17 := if aps.attributesType ≠ [] then
      [keyHdr "attributes-type" ++ quoteFast aps.attributesType] else []
    .ok (123 :: (joinComma
      (c1 ++ c2 ++ c3 ++ c4 ++ c5 ++ c6 ++ c7 ++ c8 ++ c9 ++ c10 ++ c11 ++
        c12 ++ c13 ++ c14 ++ c15 ++ c16 ++ c17 ++ c18) ++ [125]))

/-- payload.go: the notification payload, the `aps` dictionary plus free-form
custom data (`map[string]any`, modelled as an association list; `nil` and
empty maps are both `[]`). -/
structure Payload where
  aps : APS
  customData : List (GoStr × AnyVal) := []

/-- payload_marshal.go:62-94 `marshalCustomData`: each custom entry as
`"key":value`, the key through the quote-and-backslash-only `appendQuote`
(`quoteCustomKey`), the value through `EncodeValue`; first error aborts. -/
def marshalCustomData : List (GoStr × AnyVal) → Except EncErr (List GoStr)
  | [] => .ok []
  | (k, v) :: rest =>
    match EncodeValue v with
    | .error e => .error e
    | .ok ev =>
      match marshalCustomData rest with
      | .error e => .error e
      | .ok er => .ok ((quoteCustomKey k ++ (58 :: ev)) :: er)

/-- payload_marshal.go:21-60 `Payload.MarshalJSONFast`: `{"aps":` the aps
dictionary, then (when custom data is present) a comma and the custom entries
verbatim, then `}`.  The `aps` key is emitted unconditionally, before and
independently of any custom-data key. -/
def Payload.MarshalJSONFast (p : Payload) : Except EncErr GoStr :=
  match p.aps.MarshalJSONFast with
  | .error e => .error e
  | .ok apsBytes =>
    if p.customData.isEmpty then
      .ok (123 :: (keyHdr "aps" ++ apsBytes ++ [125]))
    else
      match marshalCustomData p.customData with
      | .error e => .error e
      | .ok cs => .ok (123 :: (keyHdr "aps" ++ apsBytes ++ (44 :: (joinComma cs ++ [125]))))

/-! ### Escaping (claim C2) -/

instance exceptDecEq {ε α : Type} [DecidableEq ε] [DecidableEq α] :
    DecidableEq (Except ε α) := fun x y =>
  match x, y with
  | .ok a, .ok b =>
    if h : a = b then isTrue (by rw [h]) else isFalse (by intro hc; cases hc; exact h rfl)
  | .error a, .error b =>
    if h : a = b then isTrue (by rw [h]) else isFalse (by intro hc; cases hc; exact h rfl)
  | .ok _, .error _ => isFalse (by intro hc; cases hc)
  | .error _, .ok _ => isFalse (by intro hc; cases hc)

/-- Modelled from the spec: the escaping discipline the spec claims for every
string the fast encoder emits: control bytes (≤ 0x1F) as a six-byte `\u00XX`
sequence, quote and backslash with a backslash prefix, all other bytes
unchanged. -/
def escSpecByte (c : Nat) : GoStr :=
  if c ≤ 0x1F then [92, 117, 48, 48, hexDig (c / 16), hexDig (c % 16)]
  else if c = 34 ∨ c = 92 then [92, c]
  else [c]

/-- Spec-claimed quoting of a whole string. -/
def quoteSpec (s : GoStr) : GoStr := 34 :: (s.flatMap escSpecByte ++ [34])

/-- The struct encoders' `appendQuote` escapes each byte exactly as the spec
describes. -/
theorem escFastByte_eq_escSpecByte (c : Nat) : escFastByte c = escSpecByte c := by
  unfold escFastByte escSpecByte
  split_ifs <;> first | rfl | omega

/-- C2 counterexample: the claim that every emitted string follows the
`\u00XX`-for-control-bytes discipline fails at the custom-data key sites: a
key consisting of the newline byte 10 is emitted between quotes unescaped
(`quoteCustomKey`), not as `\u000a` (`quoteSpec`), and the full fast encoder
output for a payload with that key contains the raw byte 10 inside the key's
quotes. -/
theorem c2_counterexample :
    ¬ ((∀ s, quoteFast s = quoteSpec s) ∧ (∀ s, goQuote s = quoteSpec s) ∧
       (∀ s, quoteCustomKey s = quoteSpec s)) ∧
    Payload.MarshalJSONFast { aps := {}, customData := [([10], .vInt 1)] } =
      .ok [123, 34, 97, 112, 115, 34, 58, 123, 125, 44, 34, 10, 34, 58, 49, 125] ∧
    quoteCustomKey [10] = [34, 10, 34] ∧
    quoteSpec [10] = [34, 92, 117, 48, 48, 48, 97, 34] := by
  refine ⟨fun h => ?_, by decide, by decide, by decide⟩
  have h10 := h.2.2 [10]
  rw [show quoteCustomKey [10] = [34, 10, 34] from by decide,
    show quoteSpec [10] = [34, 92, 117, 48, 48, 48, 97, 34] from by decide] at h10
  cases h10

/-- C2 amended: the struct-field sites (`quoteFast`, shared by the Alert, APS
and Sound fast marshalers) follow the claimed discipline for every string; the
custom-data key site escapes only quote and backslash, so a key free of those
two bytes (control bytes included) is emitted verbatim between quotes; and the
dynamic-string site (`strconv.AppendQuote`) does escape every control byte,
but as a Go escape, never in the claimed `\u00XX` form. -/
theorem fast_escaping_spec :
    (∀ s, quoteFast s = quoteSpec s) ∧
    (∀ k : GoStr, (∀ c ∈ k, c ≠ 34 ∧ c ≠ 92) → quoteCustomKey k = 34 :: (k ++ [34])) ∧
    (∀ c, c ≤ 0x1F → escGoByte c ≠ [c] ∧ escGoByte c ≠ escSpecByte c) := by
  refine ⟨fun s => ?_, fun k hk => ?_, by decide⟩
  · unfold quoteFast quoteSpec
    rw [funext escFastByte_eq_escSpecByte]
  · unfold quoteCustomKey
    congr 1
    have : k.flatMap escCustomKeyByte = k := by
      induction k with
      | nil => rfl
      | cons c t ih =>
        have hc := hk c (List.mem_cons_self c t)
        rw [List.flatMap_cons, ih (fun x hx => hk x (List.mem_cons_of_mem c hx))]
        unfold escCustomKeyByte
        rw [if_neg (by tauto)]
        rfl
    rw [this]

/-- Witness for `fast_escaping_spec` at concrete inputs: a tab-containing title
escapes as `\u0009` at the struct site; the custom-key site passes a tab
through raw. -/
theorem fast_escaping_spec_witness :
    quoteFast [9, 104] = [34, 92, 117, 48, 48, 48, 57, 104, 34] ∧
    quoteCustomKey [9, 104] = [34, 9, 104, 34] := by
  constructor
  · rw [fast_escaping_spec.1 [9, 104]]
    decide
  · rw [fast_escaping_spec.2.1 [9, 104] (by decide)]
    rfl

/-! ### Dispatch engine (client.go)

The transport collaborator (`cli.do`, i.e. the HTTP client, including the
bearer-token handling of the inner appleapi client) is external to the
repository; it is modelled as a function from the request's device token to
the outcome of one send.  Request construction (`newRequest`) sets headers
derived from the notification (push type, topic, optional id / expiration /
priority / collapse id) and never fails for the inputs the model covers; no
claim depends on header contents, so a request is represented by its device
token and the `push`/`pushMulti` models are instrumented to additionally
return the list of device tokens for which a transport send was issued (the
call trace), which the no-network-call claims are about. -/

/-- How the body of a non-200 response looks to `handleResponse`
(client.go:198-211): empty, not JSON-parsable, or parsed with a `reason`
(possibly empty) and an optional millisecond `timestamp`. -/
inductive RespBody where
  | empty
  | unparsable
  | readErr
  | parsed (reason : GoStr) (timestamp : Int)
deriving DecidableEq, Repr

/-- The outcome of `cli.do` for one request: an outright failure (connection
error), or an HTTP response with status, `apns-id` and `apns-unique-id`
headers, and a body. -/
inductive DoResult where
  | failure
  | response (status : Int) (apnsId : GoStr) (uniqueId : GoStr) (body : RespBody)
deriving DecidableEq, Repr

/-- client.go:77-86 `Response`. -/
structure Response where
  deviceToken : GoStr := []
  uniqueID : GoStr := []
  apnsID : GoStr := []
deriving DecidableEq, Repr

/-- The errors `Push` / `PushMulti` can surface, one constructor per error site
in client.go.  `validation` carries an opaque tag standing for the error
`Notification.Validate` returned (that function is not part of the sources). -/
inductive PushErr where
  | validation (tag : Nat)
  | locationCert
  | marshal (e : EncErr)
  | tooLargeVoip (n : Nat)
  | tooLarge (n : Nat)
  | transport
  | bodyRead
  | emptyBody (status : Int)
  | parseFail (status : Int)
  | apns (status : Int) (reason : GoStr) (timestamp : Int)
  | generic (status : Int)
  | emptyTokens
  | tokenLimit (got limit : Nat)
  | multi (failures : List (GoStr × PushErr))
deriving Repr

/-- client.go:180-226 `handleResponse`: the `Response` (echoing `apns-id`, and
`apns-unique-id` for development clients) is always constructed; status 200 is
success; otherwise the body is classified into an empty-body error, a parse
error, a typed APNs error when a non-empty `reason` is present, or a generic
status error. -/
def handleResponse (development : Bool) (status : Int) (apnsId uniqueId : GoStr)
    (body : RespBody) : Response × Option PushErr :=
  let response : Response :=
    { apnsID := apnsId, uniqueID := if development then uniqueId else [] }
  match body with
  | .readErr => (response, some .bodyRead)
  | b =>
    if status = 200 then (response, none)
    else match b with
      | .empty => (response, some (.emptyBody status))
      | .unparsable => (response, some (.parseFail status))
      | .parsed reason ts =>
        if reason ≠ [] then (response, some (.apns status reason ts))
        else (response, some (.generic status))
      | .readErr => (response, some .bodyRead)

/-- client.go:242-250: the push-type-dependent payload size ceiling. -/
def sizeLimit (pushType : GoStr) : Nat :=
  if pushType = bytes "voip" then 5120 else 4096

/-- client.go:228-252 `newBody`: serialize the payload with the fast or the
standard encoder (`FastJson` flag; the standard `encoding/json` encoder is
external and passed in as `stdMarshal`), then reject locally when the byte
length exceeds 5120 for the Voip push type or 4096 otherwise. -/
def newBody (fastJson : Bool) (stdMarshal : Payload → Except EncErr GoStr)
    (p : Payload) (pushType : GoStr) : Except PushErr GoStr :=
  match (if fastJson then p.MarshalJSONFast else stdMarshal p) with
  | .error e => .error (.marshal e)
  | .ok body =>
    if pushType = bytes "voip" then
      if body.length > 5120 then .error (.tooLargeVoip body.length) else .ok body
    else
      if body.length > 4096 then .error (.tooLarge body.length) else .ok body

/-- Modelled from the spec: the Notification envelope type is not under src/
(only its callers and tests are).  Spec §3: bundle id, device token, push type,
optional apns id (UUID string), optional expiration, priority, optional
collapse id, and the payload.  Its `Validate` method is likewise not in the
sources; the dispatch models below take it as an opaque parameter, and its
`Clone` produces a copy, which in the value model is the value itself. -/
structure Notification where
  bundleID : GoStr := []
  deviceToken : GoStr := []
  pushType : GoStr := []
  apnsID : GoStr := []
  expiration : Option Int := none
  priority : Int := 0
  collapseID : GoStr := []
  payload : Payload

/-- client.go:89-100 `Client` (the fields the dispatch logic reads; the inner
HTTP client is the transport parameter). -/
structure Client where
  tokenLimits : Nat
  tokenBase : Bool
  fastJson : Bool
  development : Bool

/-- client.go:147-171 `Client.Push`: validate, reject location-with-certificate,
serialize and size-check (`newBody`), then one transport send classified by
`handleResponse`.  Result: the `(*Response, error)` pair (the response is also
returned alongside a classification error), and the call trace. -/
def push (cli : Client) (validate : Notification → Option PushErr)
    (stdMarshal : Payload → Except EncErr GoStr)
    (transport : GoStr → DoResult) (n : Notification) :
    (Option Response × Option PushErr) × List GoStr :=
  match validate n with
  | some e => ((none, some e), [])
  | none =>
    if n.pushType = bytes "location" ∧ ¬cli.tokenBase then ((none, some .locationCert), [])
    else match newBody cli.fastJson stdMarshal n.payload n.pushType with
      | .error e => ((none, some e), [])
      | .ok _body =>
        match transport n.deviceToken with
        | .failure => ((none, some .transport), [n.deviceToken])
        | .response st aid uid b =>
          let (resp, errOpt) := handleResponse cli.development st aid uid b
          ((some resp, errOpt), [n.deviceToken])

/-- One remaining-token goroutine body of `PushMulti` (client.go:342-365):
clone the notification with this token (the serialized body is reused), send,
classify; the channel message carries the token, the response and the error. -/
def sendOne (cli : Client) (transport : GoStr → DoResult) (tk : GoStr) :
    Option Response × Option PushErr :=
  match transport tk with
  | .failure => (none, some .transport)
  | .response st aid uid b =>
    let (resp, errOpt) := handleResponse cli.development st aid uid b
    (some resp, errOpt)

/-- The result-collection loop of `PushMulti` (client.go:370-378): successes
are tagged with their token and appended; failures go to the token-to-error
map.  Goroutine completion order is unspecified in Go; the model collects in
token order. -/
def collectResults (acc : List Response × List (GoStr × PushErr)) :
    List (GoStr × Option Response × Option PushErr) →
      List Response × List (GoStr × PushErr)
  | [] => acc
  | (tk, respOpt, errOpt) :: rest =>
    match errOpt with
    | some e => collectResults (acc.1, acc.2 ++ [(tk, e)]) rest
    | none =>
      match respOpt with
      | some resp => collectResults (acc.1 ++ [{ resp with deviceToken := tk }], acc.2) rest
      | none => collectResults acc rest

/-- client.go:288-384 `Client.PushMulti`: reject empty or over-limit token
lists; validate once with the first token written into the notification; build
the body once; send to the first token synchronously — any failure of that
send (outright or classified) returns early; send to the remaining tokens
(concurrently in Go, in token order in the model) and aggregate results into
the tagged success list and a `MultiError` failure map when non-empty. -/
def pushMulti (cli : Client) (validate : Notification → Option PushErr)
    (stdMarshal : Payload → Except EncErr GoStr)
    (transport : GoStr → DoResult) (n : Notification) (tokens : List GoStr) :
    (List Response × Option PushErr) × List GoStr :=
  match tokens with
  | [] => (([], some .emptyTokens), [])
  | t0 :: rest =>
    if tokens.length > cli.tokenLimits then
      (([], some (.tokenLimit tokens.length cli.tokenLimits)), [])
    else
      let n1 := { n with deviceToken := t0 }
      match validate n1 with
      | some e => (([], some e), [])
      | none =>
        if n1.pushType = bytes "location" ∧ ¬cli.tokenBase then (([], some .locationCert), [])
        else match newBody cli.fastJson stdMarshal n1.payload n1.pushType with
          | .error e => (([], some e), [])
          | .ok _body =>
            match transport t0 with
            | .failure => (([], some .transport), [t0])
            | .response st aid uid b =>
              let (resp0, err0) := handleResponse cli.development st aid uid b
              match err0 with
              | some e => (([resp0], some e), [t0])
              | none =>
                let first := { resp0 with deviceToken := t0 }
                let results := rest.map (fun tk => (tk, sendOne cli transport tk))
                let (successes, failures) := collectResults ([first], []) results
                ((successes,
                  if failures.isEmpty then none else some (.multi failures)),
                 t0 :: rest)

/-- `newBody` in terms of the serialized length: the body is rejected exactly
when it exceeds the push-type ceiling. -/
theorem newBody_size (fastJson : Bool) (stdMarshal : Payload → Except EncErr GoStr)
    (p : Payload) (pushType : GoStr) (body : GoStr)
    (hm : (if fastJson then p.MarshalJSONFast else stdMarshal p) = .ok body) :
    newBody fastJson stdMarshal p pushType =
      if body.length > sizeLimit pushType then
        .error (if pushType = bytes "voip" then PushErr.tooLargeVoip body.length
          else PushErr.tooLarge body.length)
      else .ok body := by
  unfold newBody sizeLimit
  rw [hm]
  by_cases hvoip : pushType = bytes "voip" <;> simp [hvoip]

/-- C7: with validation and the auth-mode check passing and the payload
serializing to `body`, the send fails locally with a size error and no
transport call is made exactly when the byte length exceeds 5120 for the Voip
push type and 4096 otherwise; at or under the applicable ceiling the size
check passes and the transport is called (exactly once, with the
notification's device token). -/
theorem push_size_limit (cli : Client) (validate : Notification → Option PushErr)
    (stdMarshal : Payload → Except EncErr GoStr) (transport : GoStr → DoResult)
    (n : Notification) (body : GoStr)
    (hv : validate n = none)
    (hloc : ¬(n.pushType = bytes "location" ∧ ¬cli.tokenBase))
    (hm : (if cli.fastJson then n.payload.MarshalJSONFast else stdMarshal n.payload) =
      .ok body) :
    (body.length > sizeLimit n.pushType →
      push cli validate stdMarshal transport n =
        ((none, some (if n.pushType = bytes "voip" then PushErr.tooLargeVoip body.length
          else PushErr.tooLarge body.length)), [])) ∧
    (body.length ≤ sizeLimit n.pushType →
      (push cli validate stdMarshal transport n).2 = [n.deviceToken]) := by
  have hb := newBody_size cli.fastJson stdMarshal n.payload n.pushType body hm
  constructor
  · intro hlen
    unfold push
    rw [hv, if_neg hloc, hb, if_pos hlen]
  · intro hlen
    unfold push
    rw [hv, if_neg hloc, hb, if_neg (by omega)]
    cases transport n.deviceToken <;> rfl

/-- Witness for `push_size_limit`: a 4097-byte serialized payload under the
alert push type is rejected as too large with no transport call; a small
payload reaches the transport. -/
theorem push_size_limit_witness :
    (push ⟨100, true, false, false⟩ (fun _ => none)
        (fun _ => .ok (List.replicate 4097 48)) (fun _ => .failure)
        { pushType := bytes "alert", deviceToken := bytes "t",
          payload := { aps := {} } } =
      ((none, some (PushErr.tooLarge 4097)), [])) ∧
    (push ⟨100, true, false, false⟩ (fun _ => none)
        (fun _ => .ok [48]) (fun _ => .failure)
        { pushType := bytes "alert", deviceToken := bytes "t",
          payload := { aps := {} } } =
      ((none, some PushErr.transport), [bytes "t"])) := by
  constructor
  · have h := (push_size_limit ⟨100, true, false, false⟩ (fun _ => none)
      (fun _ => .ok (List.replicate 4097 48)) (fun _ => .failure)
      { pushType := bytes "alert", deviceToken := bytes "t", payload := { aps := {} } }
      (List.replicate 4097 48) rfl (by decide) rfl).1
    have hlen : (List.replicate 4097 48).length > sizeLimit (bytes "alert") := by
      rw [List.length_replicate]
      decide
    rw [h hlen, List.length_replicate,
      if_neg (show ¬(bytes "alert" = bytes "voip") by decide)]
  · have h := (push_size_limit ⟨100, true, false, false⟩ (fun _ => none)
      (fun _ => .ok [48]) (fun _ => .failure)
      { pushType := bytes "alert", deviceToken := bytes "t", payload := { aps := {} } }
      [48] rfl (by decide) rfl).2
    rfl

/-- The success a collected channel message contributes, tagged with its
token (none in the failure or the unreachable resp-less-success case). -/
def resultSuccess : GoStr × Option Response × Option PushErr → Option Response
  | (tk, some resp, none) => some { resp with deviceToken := tk }
  | _ => none

/-- The failure-map entry a collected channel message contributes. -/
def resultFailure : GoStr × Option Response × Option PushErr → Option (GoStr × PushErr)
  | (tk, _, some e) => some (tk, e)
  | _ => none

/-- The collection loop keeps every success (tagged, in collection order after
the accumulator) and every failure (keyed by token): nothing is dropped and a
failure never removes another message's success. -/
theorem collectResults_spec (results : List (GoStr × Option Response × Option PushErr))
    (acc : List Response × List (GoStr × PushErr)) :
    collectResults acc results =
      (acc.1 ++ results.filterMap resultSuccess, acc.2 ++ results.filterMap resultFailure) := by
  induction results generalizing acc with
  | nil => simp [collectResults]
  | cons r rest ih =>
    obtain ⟨tk, respOpt, errOpt⟩ := r
    match errOpt with
    | some e =>
      rw [show collectResults acc ((tk, respOpt, some e) :: rest) =
        collectResults (acc.1, acc.2 ++ [(tk, e)]) rest from rfl, ih]
      simp [resultSuccess, resultFailure]
    | none =>
      match respOpt with
      | some resp =>
        rw [show collectResults acc ((tk, some resp, none) :: rest) =
          collectResults (acc.1 ++ [{ resp with deviceToken := tk }], acc.2) rest from rfl, ih]
        simp [resultSuccess, resultFailure]
      | none =>
        rw [show collectResults acc ((tk, none, none) :: rest) =
          collectResults acc rest from rfl, ih]
        simp [resultSuccess, resultFailure]

/-- When the up-front steps pass and the first token's send succeeds and
classifies without error, `pushMulti` attempts every remaining token and
aggregates: the tagged first response, every remaining success (tagged), and
the failure map (a `MultiError` exactly when non-empty). -/
theorem pushMulti_first_ok_eq (cli : Client) (validate : Notification → Option PushErr)
    (stdMarshal : Payload → Except EncErr GoStr) (transport : GoStr → DoResult)
    (n : Notification) (t0 : GoStr) (rest : List GoStr) (body : GoStr)
    (resp0 : Response) (st0 : Int) (aid0 uid0 : GoStr) (b0 : RespBody)
    (hlen : (t0 :: rest).length ≤ cli.tokenLimits)
    (hv : validate { n with deviceToken := t0 } = none)
    (hloc : ¬(n.pushType = bytes "location" ∧ ¬cli.tokenBase))
    (hb : newBody cli.fastJson stdMarshal n.payload n.pushType = .ok body)
    (ht0 : transport t0 = .response st0 aid0 uid0 b0)
    (hhr : handleResponse cli.development st0 aid0 uid0 b0 = (resp0, none)) :
    pushMulti cli validate stdMarshal transport n (t0 :: rest) =
      (({ resp0 with deviceToken := t0 } ::
          (rest.map (fun tk => (tk, sendOne cli transport tk))).filterMap resultSuccess,
        if ((rest.map (fun tk => (tk, sendOne cli transport tk))).filterMap
            resultFailure).isEmpty then none
        else some (.multi ((rest.map (fun tk => (tk, sendOne cli transport tk))).filterMap
            resultFailure))),
       t0 :: rest) := by
  simp only [pushMulti]
  rw [if_neg (show ¬((t0 :: rest).length > cli.tokenLimits) by omega)]
  simp only [hv]
  rw [if_neg hloc]
  simp only [hb, ht0, hhr]
  rw [collectResults_spec]
  rfl

/-- C8: when the up-front steps pass and the first token's send succeeds, a
multi-recipient send returns the first response plus every remaining token's
success (each tagged with its token), and the aggregate `MultiError` exposing
exactly the failing tokens' errors (no error at all when none fail); in the
claim's concrete scenario (tokens A, fail-device, B, where the transport
rejects fail-device with reason BadDeviceToken and accepts the rest) the
result is exactly the two successes for A and B and a one-entry failure map
keyed fail-device. -/
theorem pushmulti_partial_failure :
    (∀ (cli : Client) (validate : Notification → Option PushErr)
       (stdMarshal : Payload → Except EncErr GoStr) (transport : GoStr → DoResult)
       (n : Notification) (t0 : GoStr) (rest : List GoStr) (body : GoStr)
       (st0 : Int) (aid0 uid0 : GoStr) (b0 : RespBody),
      (t0 :: rest).length ≤ cli.tokenLimits →
      validate { n with deviceToken := t0 } = none →
      ¬(n.pushType = bytes "location" ∧ ¬cli.tokenBase) →
      newBody cli.fastJson stdMarshal n.payload n.pushType = .ok body →
      transport t0 = .response st0 aid0 uid0 b0 →
      handleResponse cli.development st0 aid0 uid0 b0 =
        (⟨[], if cli.development then uid0 else [], aid0⟩, none) →
      pushMulti cli validate stdMarshal transport n (t0 :: rest) =
        ((⟨t0, if cli.development then uid0 else [], aid0⟩ ::
            (rest.map (fun tk => (tk, sendOne cli transport tk))).filterMap resultSuccess,
          (if ((rest.map (fun tk => (tk, sendOne cli transport tk))).filterMap
              resultFailure).isEmpty then none
           else some (.multi ((rest.map (fun tk => (tk, sendOne cli transport tk))).filterMap
              resultFailure)))),
         t0 :: rest)) ∧
    (pushMulti ⟨100, true, true, false⟩ (fun _ => none) (fun _ => .error .invalidType)
        (fun tk => if tk = bytes "fail-device" then
            .response 400 (bytes "fail-id") [] (.parsed (bytes "BadDeviceToken") 0)
          else .response 200 (bytes "ok-id") [] .empty)
        { pushType := bytes "alert", payload := { aps := { alert := some (.vString (bytes "test")) } } }
        [bytes "A", bytes "fail-device", bytes "B"] =
      (([⟨bytes "A", [], bytes "ok-id"⟩, ⟨bytes "B", [], bytes "ok-id"⟩],
        some (.multi [(bytes "fail-device",
          .apns 400 (bytes "BadDeviceToken") 0)])),
       [bytes "A", bytes "fail-device", bytes "B"])) := by
  constructor
  · intro cli validate stdMarshal transport n t0 rest body st0 aid0 uid0 b0
      hlen hv hloc hb ht0 hhr
    exact pushMulti_first_ok_eq cli validate stdMarshal transport n t0 rest body
      ⟨[], if cli.development then uid0 else [], aid0⟩ st0 aid0 uid0 b0
      hlen hv hloc hb ht0 hhr
  · rfl

/-- Witness for `pushmulti_partial_failure` at the concrete scenario of the
claim (its hypotheses discharged by computation). -/
theorem pushmulti_partial_failure_witness :
    pushMulti ⟨100, true, true, false⟩ (fun _ => none) (fun _ => .error .invalidType)
        (fun tk => if tk = bytes "fail-one" then
            .response 500 [] [] (.parsed (bytes "InternalServerError") 7)
          else .response 200 (bytes "id-1") [] .empty)
        { pushType := bytes "alert", payload := { aps := { badge := some (.vInt 3) } } }
        [bytes "ok-token", bytes "fail-one"] =
      (([⟨bytes "ok-token", [], bytes "id-1"⟩],
        some (.multi [(bytes "fail-one", .apns 500 (bytes "InternalServerError") 7)])),
       [bytes "ok-token", bytes "fail-one"]) := by
  rw [pushmulti_partial_failure.1 ⟨100, true, true, false⟩ (fun _ => none)
    (fun _ => .error .invalidType)
    (fun tk => if tk = bytes "fail-one" then
        .response 500 [] [] (.parsed (bytes "InternalServerError") 7)
      else .response 200 (bytes "id-1") [] .empty)
    { pushType := bytes "alert", payload := { aps := { badge := some (.vInt 3) } } }
    (bytes "ok-token") [bytes "fail-one"]
    (Payload.MarshalJSONFast { aps := { badge := some (.vInt 3) } }).toOption.get!
    200 (bytes "id-1") [] .empty (by decide) rfl (by decide) rfl rfl rfl]
  rfl

/-- C9 counterexample: with the transport reporting a structured non-200
(status 500, reason present) for the FIRST token and accepting the second,
`PushMulti` returns early with the raw typed error and the single constructed
(untagged) response, and the second token's send is never attempted (the call
trace holds only the first token) — refuting the claim that a service-reported
failure for the first recipient still lets every remaining recipient's send be
attempted.  (This is also what the repository's own "First Token Fails" test
case expects.) -/
theorem c9_counterexample :
    pushMulti ⟨100, true, true, false⟩ (fun _ => none) (fun _ => .error .invalidType)
        (fun tk => if tk = bytes "first-bad" then
            .response 500 [] [] (.parsed (bytes "InternalServerError") 0)
          else .response 200 (bytes "ok-id") [] .empty)
        { pushType := bytes "alert",
          payload := { aps := { alert := some (.vString (bytes "t")) } } }
        [bytes "first-bad", bytes "B"] =
      (([⟨[], [], []⟩], some (.apns 500 (bytes "InternalServerError") 0)),
       [bytes "first-bad"]) ∧
    bytes "B" ∉ [bytes "first-bad"] :=
  ⟨rfl, by decide⟩

/-- C9 amended: a failure for a SUBSEQUENT recipient never aborts the others:
once the first token's send succeeds, every remaining token's send is
attempted, and any error the call returns is an aggregate `MultiError` built
from a non-empty failure map.  But ANY failure of the first token's send —
outright transport failure or service-classified failure alike — returns
early, before any remaining token is attempted: outright failure yields the
raw transport error with no responses; a classified failure yields the raw
classified error with the single constructed response. -/
theorem pushmulti_first_token_asymmetry :
    (∀ (cli : Client) (validate : Notification → Option PushErr)
       (stdMarshal : Payload → Except EncErr GoStr) (transport : GoStr → DoResult)
       (n : Notification) (t0 : GoStr) (rest : List GoStr) (body : GoStr),
      (t0 :: rest).length ≤ cli.tokenLimits →
      validate { n with deviceToken := t0 } = none →
      ¬(n.pushType = bytes "location" ∧ ¬cli.tokenBase) →
      newBody cli.fastJson stdMarshal n.payload n.pushType = .ok body →
      transport t0 = .failure →
      pushMulti cli validate stdMarshal transport n (t0 :: rest) =
        (([], some .transport), [t0])) ∧
    (∀ (cli : Client) (validate : Notification → Option PushErr)
       (stdMarshal : Payload → Except EncErr GoStr) (transport : GoStr → DoResult)
       (n : Notification) (t0 : GoStr) (rest : List GoStr) (body : GoStr)
       (resp0 : Response) (e : PushErr) (st0 : Int) (aid0 uid0 : GoStr) (b0 : RespBody),
      (t0 :: rest).length ≤ cli.tokenLimits →
      validate { n with deviceToken := t0 } = none →
      ¬(n.pushType = bytes "location" ∧ ¬cli.tokenBase) →
      newBody cli.fastJson stdMarshal n.payload n.pushType = .ok body →
      transport t0 = .response st0 aid0 uid0 b0 →
      handleResponse cli.development st0 aid0 uid0 b0 = (resp0, some e) →
      pushMulti cli validate stdMarshal transport n (t0 :: rest) =
        (([resp0], some e), [t0])) ∧
    (∀ (cli : Client) (validate : Notification → Option PushErr)
       (stdMarshal : Payload → Except EncErr GoStr) (transport : GoStr → DoResult)
       (n : Notification) (t0 : GoStr) (rest : List GoStr) (body : GoStr)
       (resp0 : Response) (st0 : Int) (aid0 uid0 : GoStr) (b0 : RespBody),
      (t0 :: rest).length ≤ cli.tokenLimits →
      validate { n with deviceToken := t0 } = none →
      ¬(n.pushType = bytes "location" ∧ ¬cli.tokenBase) →
      newBody cli.fastJson stdMarshal n.payload n.pushType = .ok body →
      transport t0 = .response st0 aid0 uid0 b0 →
      handleResponse cli.development st0 aid0 uid0 b0 = (resp0, none) →
      (pushMulti cli validate stdMarshal transport n (t0 :: rest)).2 = t0 :: rest ∧
      ((pushMulti cli validate stdMarshal transport n (t0 :: rest)).1.2 = none ∨
       ∃ fs, fs ≠ [] ∧
         (pushMulti cli validate stdMarshal transport n (t0 :: rest)).1.2 =
           some (.multi fs))) := by
  refine ⟨?_, ?_, ?_⟩
  · intro cli validate stdMarshal transport n t0 rest body hlen hv hloc hb ht0
    simp only [pushMulti]
    rw [if_neg (show ¬((t0 :: rest).length > cli.tokenLimits) by omega)]
    simp only [hv]
    rw [if_neg hloc]
    simp only [hb, ht0]
  · intro cli validate stdMarshal transport n t0 rest body resp0 e st0 aid0 uid0 b0
      hlen hv hloc hb ht0 hhr
    simp only [pushMulti]
    rw [if_neg (show ¬((t0 :: rest).length > cli.tokenLimits) by omega)]
    simp only [hv]
    rw [if_neg hloc]
    simp only [hb, ht0, hhr]
  · intro cli validate stdMarshal transport n t0 rest body resp0 st0 aid0 uid0 b0
      hlen hv hloc hb ht0 hhr
    rw [pushMulti_first_ok_eq cli validate stdMarshal transport n t0 rest body
      resp0 st0 aid0 uid0 b0 hlen hv hloc hb ht0 hhr]
    refine ⟨rfl, ?_⟩
    by_cases hemp : ((rest.map (fun tk => (tk, sendOne cli transport tk))).filterMap
        resultFailure).isEmpty
    · left
      rw [if_pos hemp]
    · right
      refine ⟨(rest.map (fun tk => (tk, sendOne cli transport tk))).filterMap
        resultFailure, ?_, ?_⟩
      · intro hnil
        rw [hnil] at hemp
        exact hemp rfl
      · rw [if_neg hemp]

/-- Witness for `pushmulti_first_token_asymmetry`: a classified first-token
failure (status 500, reason present) returns early with the raw error and the
single response, the other token unattempted. -/
theorem pushmulti_first_token_asymmetry_witness :
    pushMulti ⟨100, true, true, false⟩ (fun _ => none) (fun _ => .error .invalidType)
        (fun tk => if tk = bytes "f" then
            .response 500 [] [] (.parsed (bytes "ServiceUnavailable") 3)
          else .response 200 (bytes "ok-id") [] .empty)
        { pushType := bytes "alert", payload := { aps := { badge := some (.vInt 1) } } }
        [bytes "f", bytes "g"] =
      (([⟨[], [], []⟩], some (.apns 500 (bytes "ServiceUnavailable") 3)),
       [bytes "f"]) := by
  rw [pushmulti_first_token_asymmetry.2.1 ⟨100, true, true, false⟩ (fun _ => none)
    (fun _ => .error .invalidType)
    (fun tk => if tk = bytes "f" then
        .response 500 [] [] (.parsed (bytes "ServiceUnavailable") 3)
      else .response 200 (bytes "ok-id") [] .empty)
    { pushType := bytes "alert", payload := { aps := { badge := some (.vInt 1) } } }
    (bytes "f") [bytes "g"]
    (Payload.MarshalJSONFast { aps := { badge := some (.vInt 1) } }).toOption.get!
    ⟨[], [], []⟩ (.apns 500 (bytes "ServiceUnavailable") 3) 500 [] []
    (.parsed (bytes "ServiceUnavailable") 3)
    (by decide) rfl (by decide) rfl rfl rfl]

/-! ### The reflective marshaler path (payload.go `Payload.MarshalJSON`, claim C10) -/

/-- A value of the `map[string]any` handed to `encoding/json` by
`Payload.MarshalJSON`: either the `APS` struct written under the reserved key,
or one of the caller's dynamic custom-data values. -/
inductive StdMapVal where
  | apsVal (a : APS)
  | dynVal (v : AnyVal)

/-- A Go map write `m[k] = v` on the association-list model: replace the
key's entry when present (keys are distinct in a Go map, so replacing the
first match is the map semantics), append otherwise. -/
def setKey (m : List (GoStr × StdMapVal)) (k : GoStr) (v : StdMapVal) :
    List (GoStr × StdMapVal) :=
  match m with
  | [] => [(k, v)]
  | (k0, v0) :: rest => if k0 = k then (k, v) :: rest else (k0, v0) :: setKey rest k v

/-- Association-list lookup (the Go map read `m[q]`). -/
def lookupKey {A : Type} (q : GoStr) : List (GoStr × A) → Option A
  | [] => none
  | (k, v) :: rest => if q = k then some v else lookupKey q rest

/-- How many entries of the association list carry the key `q`. -/
def countKey {A : Type} (q : GoStr) : List (GoStr × A) → Nat
  | [] => 0
  | (k, _) :: rest => (if k = q then 1 else 0) + countKey q rest

/-- payload.go:30-40 `Payload.MarshalJSON` (the reflective path): with no
custom data, the map `{"aps": p.APS}` is marshaled; otherwise a clone of the
custom-data map is taken (`maps.Clone` copies the top-level map, so the write
below lands only in the clone), the reserved key `aps` is written into it, and
the merged map is handed to `encoding/json`.  The model returns the pair of
the map handed to `encoding/json` and the caller's custom-data map as it
stands after the call (unchanged, because only the clone is written). -/
def Payload.MarshalJSONStd (p : Payload) :
    List (GoStr × StdMapVal) × List (GoStr × AnyVal) :=
  if p.customData.isEmpty then
    ([(bytes "aps", .apsVal p.aps)], p.customData)
  else
    let clone := p.customData.map (fun e => (e.1, StdMapVal.dynVal e.2))
    (setKey clone (bytes "aps") (.apsVal p.aps), p.customData)

theorem setKey_lookup_self (m : List (GoStr × StdMapVal)) (k : GoStr) (v : StdMapVal) :
    lookupKey k (setKey m k v) = some v := by
  induction m with
  | nil => simp [setKey, lookupKey]
  | cons e rest ih =>
    obtain ⟨k0, v0⟩ := e
    by_cases h : k0 = k
    · simp [setKey, h, lookupKey]
    · simp only [setKey, if_neg h, lookupKey]
      rw [if_neg (fun hc => h hc.symm)]
      exact ih

theorem setKey_lookup_ne (m : List (GoStr × StdMapVal)) (k : GoStr) (v : StdMapVal)
    (q : GoStr) (hq : ¬(q = k)) :
    lookupKey q (setKey m k v) = lookupKey q m := by
  induction m with
  | nil => simp [setKey, lookupKey, hq]
  | cons e rest ih =>
    obtain ⟨k0, v0⟩ := e
    by_cases h : k0 = k
    · subst h
      simp only [setKey, if_pos rfl, lookupKey, if_neg hq]
    · simp only [setKey, if_neg h, lookupKey]
      by_cases hq0 : q = k0
      · rw [if_pos hq0, if_pos hq0]
      · rw [if_neg hq0, if_neg hq0]
        exact ih

theorem lookupKey_map_dyn (m : List (GoStr × AnyVal)) (q : GoStr) :
    lookupKey q (m.map (fun e => (e.1, StdMapVal.dynVal e.2))) =
      (lookupKey q m).map StdMapVal.dynVal := by
  induction m with
  | nil => rfl
  | cons e rest ih =>
    simp only [List.map_cons, lookupKey]
    by_cases hq : q = e.1
    · rw [if_pos hq, if_pos hq]
      rfl
    · rw [if_neg hq, if_neg hq]
      exact ih

theorem countKey_map_dyn (m : List (GoStr × AnyVal)) (q : GoStr) :
    countKey q (m.map (fun e => (e.1, StdMapVal.dynVal e.2))) = countKey q m := by
  induction m with
  | nil => rfl
  | cons e rest ih =>
    simp only [List.map_cons, countKey, ih]

theorem countKey_cons_self {A : Type} (k0 : GoStr) (v0 : A) (rest : List (GoStr × A)) :
    countKey k0 ((k0, v0) :: rest) = 1 + countKey k0 rest := by
  simp [countKey]

theorem countKey_cons_ne {A : Type} (q k0 : GoStr) (v0 : A) (rest : List (GoStr × A))
    (hne : ¬(k0 = q)) : countKey q ((k0, v0) :: rest) = countKey q rest := by
  simp [countKey, hne]

theorem countKey_eq_zero_of_not_mem {A : Type} (m : List (GoStr × A)) (q : GoStr)
    (h : q ∉ m.map Prod.fst) : countKey q m = 0 := by
  induction m with
  | nil => rfl
  | cons e rest ih =>
    simp only [List.map_cons, List.mem_cons] at h
    push_neg at h
    rw [countKey_cons_ne q e.1 e.2 rest (fun hc => h.1 hc.symm)]
    exact ih h.2

theorem countKey_le_one_of_nodup {A : Type} (m : List (GoStr × A)) (q : GoStr)
    (hnd : (m.map Prod.fst).Nodup) : countKey q m ≤ 1 := by
  induction m with
  | nil => simp [countKey]
  | cons e rest ih =>
    rw [List.map_cons, List.nodup_cons] at hnd
    by_cases h : e.1 = q
    · rw [show (e : GoStr × A) = (e.1, e.2) from rfl, h, countKey_cons_self,
        countKey_eq_zero_of_not_mem rest q (h ▸ hnd.1)]
    · rw [show (e : GoStr × A) = (e.1, e.2) from rfl, countKey_cons_ne q e.1 e.2 rest h]
      exact ih hnd.2

theorem setKey_count (m : List (GoStr × StdMapVal)) (k : GoStr) (v : StdMapVal)
    (hle : countKey k m ≤ 1) :
    countKey k (setKey m k v) = 1 := by
  induction m with
  | nil => simp [setKey, countKey]
  | cons e rest ih =>
    obtain ⟨k0, v0⟩ := e
    by_cases h : k0 = k
    · subst h
      rw [countKey_cons_self] at hle
      have hz : countKey k0 rest = 0 := by omega
      rw [show setKey ((k0, v0) :: rest) k0 v = (k0, v) :: rest from by simp [setKey],
        countKey_cons_self, hz]
    · rw [countKey_cons_ne k k0 v0 rest h] at hle
      rw [show setKey ((k0, v0) :: rest) k v = (k0, v0) :: setKey rest k v from by
          simp [setKey, h],
        countKey_cons_ne k k0 v0 _ h]
      exact ih hle

/-- C10: for every payload (keys distinct, as Go maps guarantee), the
reflective `Payload.MarshalJSON` hands `encoding/json` a map in which `aps`
maps to `p.APS` and occurs exactly once (so a caller-supplied CustomData entry
under `aps` is silently dropped, never merged or duplicated), every other key
carries exactly the caller's custom-data value, and the caller's CustomData
map itself is left unchanged (only the clone is written). -/
theorem payload_marshal_std_spec (p : Payload)
    (hnd : (p.customData.map Prod.fst).Nodup) :
    lookupKey (bytes "aps") p.MarshalJSONStd.1 = some (.apsVal p.aps) ∧
    countKey (bytes "aps") p.MarshalJSONStd.1 = 1 ∧
    (∀ q, ¬(q = bytes "aps") →
      lookupKey q p.MarshalJSONStd.1 =
        (lookupKey q p.customData).map StdMapVal.dynVal) ∧
    p.MarshalJSONStd.2 = p.customData := by
  unfold Payload.MarshalJSONStd
  by_cases hemp : p.customData.isEmpty
  · rw [if_pos hemp]
    refine ⟨by simp [lookupKey], by simp [countKey], ?_, rfl⟩
    intro q hq
    rw [List.isEmpty_iff.mp hemp]
    simp [lookupKey, hq]
  · rw [if_neg hemp]
    refine ⟨setKey_lookup_self _ _ _, ?_, ?_, rfl⟩
    · apply setKey_count
      rw [countKey_map_dyn]
      exact countKey_le_one_of_nodup _ _ hnd
    · intro q hq
      rw [setKey_lookup_ne _ _ _ _ hq, lookupKey_map_dyn]

/-- Witness for `payload_marshal_std_spec` at a concrete payload whose custom
data tries to override `aps`: the caller's value is dropped in favour of the
APS dictionary, which appears exactly once. -/
theorem payload_marshal_std_spec_witness :
    lookupKey (bytes "aps")
        (Payload.MarshalJSONStd
          { aps := { badge := some (.vInt 7) },
            customData := [(bytes "aps", .vInt 0), (bytes "x", .vBool true)] }).1 =
      some (.apsVal { badge := some (.vInt 7) }) ∧
    countKey (bytes "aps")
        (Payload.MarshalJSONStd
          { aps := { badge := some (.vInt 7) },
            customData := [(bytes "aps", .vInt 0), (bytes "x", .vBool true)] }).1 = 1 := by
  have h := payload_marshal_std_spec
    { aps := { badge := some (.vInt 7) },
      customData := [(bytes "aps", .vInt 0), (bytes "x", .vBool true)] }
    (by decide)
  exact ⟨h.1, h.2.1⟩

/-! ### JSON values, rendering, parsing (for the round-trip claims C1 and C3)

`JVal` is a parsed JSON value (numbers as exact rationals).  `renderJ` is a
canonical renderer whose string escaping is the minimal quote-and-backslash
escaping; on the printable-ASCII strings the equivalence claims are restricted
to, all three escapers of the encoders coincide with it, which is how the
encoders' outputs are related to rendered `JVal`s.  `parseVal` is a
recursive-descent byte parser for the JSON grammar without whitespace (none of
the encoders emits any) and without the exponent number form (no encoder in
this development emits one); raw control bytes inside strings are rejected, as
the JSON grammar requires. -/

inductive JVal where
  | jNull
  | jBool (b : Bool)
  | jNum (q : Rat)
  | jStr (s : GoStr)
  | jArr (xs : List JVal)
  | jObj (entries : List (GoStr × JVal))
deriving Repr

mutual
/-- Canonical rendering of a `JVal` (strings via the minimal escaper). -/
def renderJ : JVal → GoStr
  | .jNull => bytes "null"
  | .jBool true => bytes "true"
  | .jBool false => bytes "false"
  | .jNum q => renderNum q
  | .jStr s => quoteCustomKey s
  | .jArr xs => 91 :: (joinComma (renderJList xs) ++ [93])
  | .jObj es => 123 :: (joinComma (renderJEntries es) ++ [125])

/-- The rendered chunks of an array's elements. -/
def renderJList : List JVal → List GoStr
  | [] => []
  | v :: vs => renderJ v :: renderJList vs

/-- The rendered chunks of an object's members. -/
def renderJEntries : List (GoStr × JVal) → List GoStr
  | [] => []
  | (k, v) :: es => (quoteCustomKey k ++ (58 :: renderJ v)) :: renderJEntries es
end

/-- Decimal digit bytes. -/
def isDigitB (c : Nat) : Bool := decide (48 ≤ c ∧ c ≤ 57)

/-- Split off the longest leading run of digit bytes. -/
def takeDigits : GoStr → GoStr × GoStr
  | [] => ([], [])
  | c :: r =>
    if isDigitB c then
      let p := takeDigits r
      (c :: p.1, p.2)
    else ([], c :: r)

/-- The number a digit run denotes. -/
def digitsToNat (ds : GoStr) : Nat := ds.foldl (fun acc c => acc * 10 + (c - 48)) 0

/-- UTF-8 bytes of a code point below 0x10000 (all a `\uXXXX` escape can name). -/
def utf8Enc (n : Nat) : GoStr :=
  if n < 0x80 then [n]
  else if n < 0x800 then [0xC0 + n / 64, 0x80 + n % 64]
  else [0xE0 + n / 4096, 0x80 + (n / 64) % 64, 0x80 + n % 64]

/-- The value of a hexadecimal digit byte. -/
def hexByteVal (c : Nat) : Option Nat :=
  if 48 ≤ c ∧ c ≤ 57 then some (c - 48)
  else if 97 ≤ c ∧ c ≤ 102 then some (c - 87)
  else if 65 ≤ c ∧ c ≤ 70 then some (c - 55)
  else none

/-- The byte a two-character JSON escape denotes. -/
def unescByte (e : Nat) : Option Nat :=
  if e = 34 then some 34
  else if e = 92 then some 92
  else if e = 47 then some 47
  else if e = 98 then some 8
  else if e = 102 then some 12
  else if e = 110 then some 10
  else if e = 114 then some 13
  else if e = 116 then some 9
  else none

/-- Parse a JSON string body after the opening quote, unescaping as we go
(dispatch by if-chains on the byte values, so proofs reduce cleanly). -/
def parseStrAux (acc : GoStr) : GoStr → Option (GoStr × GoStr)
  | [] => none
  | c :: r =>
    if c = 34 then some (acc.reverse, r)
    else if c = 92 then
      match r with
      | [] => none
      | e :: r2 =>
        if e = 117 then
          match r2 with
          | a :: b :: c2 :: d :: r3 =>
            match hexByteVal a, hexByteVal b, hexByteVal c2, hexByteVal d with
            | some va, some vb, some vc, some vd =>
              parseStrAux ((utf8Enc (((va * 16 + vb) * 16 + vc) * 16 + vd)).reverse ++ acc) r3
            | _, _, _, _ => none
          | _ => none
        else
          match unescByte e with
          | some x => parseStrAux (x :: acc) r2
          | none => none
    else if c < 32 then none
    else parseStrAux (c :: acc) r

/-- Strip an optional leading minus sign. -/
def parseSign : GoStr → Bool × GoStr
  | c :: r => if c = 45 then (true, r) else (false, c :: r)
  | [] => (false, [])

/-- Parse an optional fractional part: a point followed by a non-empty digit
run, or nothing. -/
def parseFrac : GoStr → Option (GoStr × GoStr)
  | c :: r =>
    if c = 46 then
      match takeDigits r with
      | ([], _) => none
      | (f :: fs, r2) => some (f :: fs, r2)
    else some ([], c :: r)
  | [] => some ([], [])

/-- Parse a JSON number (integer or point form; no exponent form, which no
encoder in this development emits).  The empty fractional part makes the two
forms one formula: the value is `± digits / 10 ^ fracLen`. -/
def parseNum (cs : GoStr) : Option (Rat × GoStr) :=
  match takeDigits (parseSign cs).2 with
  | ([], _) => none
  | (d :: ds, r1) =>
    match parseFrac r1 with
    | none => none
    | some (fs, r2) =>
      some (mkRat (cond (parseSign cs).1 (-(digitsToNat ((d :: ds) ++ fs) : Int))
        ((digitsToNat ((d :: ds) ++ fs) : Int))) (10 ^ fs.length), r2)

mutual
/-- Parse one JSON value (fuel-structural; `bs.length + 1` fuel suffices). -/
def parseVal : Nat → GoStr → Option (JVal × GoStr)
  | 0, _ => none
  | fuel + 1, cs =>
    match cs with
    | [] => none
    | c :: r =>
      if c = 110 then
        match r with
        | 117 :: 108 :: 108 :: r2 => some (.jNull, r2)
        | _ => none
      else if c = 116 then
        match r with
        | 114 :: 117 :: 101 :: r2 => some (.jBool true, r2)
        | _ => none
      else if c = 102 then
        match r with
        | 97 :: 108 :: 115 :: 101 :: r2 => some (.jBool false, r2)
        | _ => none
      else if c = 34 then
        match parseStrAux [] r with
        | some (s, r2) => some (.jStr s, r2)
        | none => none
      else if c = 91 then
        match r with
        | [] => none
        | c2 :: r2 =>
          if c2 = 93 then some (.jArr [], r2)
          else
            match parseElems fuel (c2 :: r2) with
            | some (es, r3) => some (.jArr es, r3)
            | none => none
      else if c = 123 then
        match r with
        | [] => none
        | c2 :: r2 =>
          if c2 = 125 then some (.jObj [], r2)
          else
            match parseMembers fuel (c2 :: r2) with
            | some (ms, r3) => some (.jObj ms, r3)
            | none => none
      else if c = 45 ∨ isDigitB c then
        match parseNum (c :: r) with
        | some (q, r2) => some (.jNum q, r2)
        | none => none
      else none

/-- Parse one-or-more comma-separated array elements up to the closing `]`. -/
def parseElems : Nat → GoStr → Option (List JVal × GoStr)
  | 0, _ => none
  | fuel + 1, cs =>
    match parseVal fuel cs with
    | none => none
    | some (v, r) =>
      match r with
      | [] => none
      | c :: r2 =>
        if c = 44 then
          match parseElems fuel r2 with
          | some (vs, r3) => some (v :: vs, r3)
          | none => none
        else if c = 93 then some ([v], r2)
        else none

/-- Parse one-or-more comma-separated object members up to the closing `}`. -/
def parseMembers : Nat → GoStr → Option (List (GoStr × JVal) × GoStr)
  | 0, _ => none
  | fuel + 1, cs =>
    match cs with
    | [] => none
    | c :: r =>
      if c = 34 then
        match parseStrAux [] r with
        | none => none
        | some (k, r1) =>
          match r1 with
          | [] => none
          | c2 :: r2 =>
            if c2 = 58 then
              match parseVal fuel r2 with
              | none => none
              | some (v, r3) =>
                match r3 with
                | [] => none
                | c3 :: r4 =>
                  if c3 = 44 then
                    match parseMembers fuel r4 with
                    | some (ms, r5) => some ((k, v) :: ms, r5)
                    | none => none
                  else if c3 = 125 then some ([(k, v)], r4)
                  else none
            else none
      else none
end

/-- Parse a complete JSON document: one value consuming the whole input. -/
def parseJson (bs : GoStr) : Option JVal :=
  match parseVal (bs.length + 1) bs with
  | some (v, []) => some v
  | _ => none

/-! ### Digit arithmetic for the number round-trip -/

/-- A string whose bytes are all printable ASCII (0x20-0x7E): the domain on
which the three escapers coincide and the Go-quoting model is exact. -/
def cleanStr (s : GoStr) : Prop := ∀ c ∈ s, 32 ≤ c ∧ c ≤ 126

/-- A rational with a terminating decimal expansion (true of every float64
value); exactly when `renderNum` has an exact form to emit. -/
def FiniteDec (q : Rat) : Prop := (decExp q.den).isSome

/-- A remainder that cannot extend a rendered number: empty, or starting with
a byte that is neither a digit nor the decimal point.  Every delimiter the
renderers put after a number (comma, `]`, `}`, end of input) qualifies. -/
def numDelim : GoStr → Prop
  | [] => True
  | c :: _ => isDigitB c = false ∧ ¬(c = 46)

theorem natDigitsAux_fuel (n : Nat) : ∀ f g, n < f → n < g →
    natDigitsAux n f = natDigitsAux n g := by
  induction n using Nat.strong_induction_on with
  | _ n ih =>
    intro f g hf hg
    match f, g with
    | f + 1, g + 1 =>
      by_cases h10 : n < 10
      · simp [natDigitsAux, h10]
      · have hd : n / 10 < n := Nat.div_lt_self (by omega) (by omega)
        simp only [natDigitsAux, if_neg h10]
        rw [ih (n / 10) hd (f) (g) (by omega) (by omega)]

theorem natDigits_unfold (n : Nat) :
    natDigits n = if n < 10 then [48 + n] else natDigits (n / 10) ++ [48 + n % 10] := by
  by_cases h10 : n < 10
  · rw [if_pos h10]
    unfold natDigits
    simp [natDigitsAux, h10]
  · rw [if_neg h10]
    rw [show natDigits n = natDigitsAux (n / 10) n ++ [48 + n % 10] from by
      unfold natDigits
      simp [natDigitsAux, h10]]
    unfold natDigits
    rw [natDigitsAux_fuel (n / 10) n (n / 10 + 1)
      (Nat.div_lt_self (by omega) (by omega)) (by omega)]

theorem natDigits_digits (n : Nat) : ∀ c ∈ natDigits n, isDigitB c = true := by
  induction n using Nat.strong_induction_on with
  | _ n ih =>
    rw [natDigits_unfold]
    by_cases h10 : n < 10
    · simp only [if_pos h10, List.mem_singleton]
      rintro c rfl
      simp only [isDigitB, decide_eq_true_eq]
      omega
    · simp only [if_neg h10]
      intro c hc
      cases List.mem_append.mp hc with
      | inl hin =>
        refine ih (n / 10) ?_ c hin
        exact Nat.div_lt_self (by omega) (by omega)
      | inr hin =>
        rcases List.mem_singleton.mp hin with rfl
        have := Nat.mod_lt n (show 0 < 10 by omega)
        simp [isDigitB]
        omega

theorem natDigits_ne_nil (n : Nat) : natDigits n ≠ [] := by
  rw [natDigits_unfold]
  split <;> simp

theorem natDigits_head (n : Nat) :
    ∃ c t, natDigits n = c :: t ∧ isDigitB c = true := by
  match h : natDigits n with
  | [] => exact absurd h (natDigits_ne_nil n)
  | c :: t => exact ⟨c, t, rfl, natDigits_digits n c (by rw [h]; exact List.mem_cons_self c t)⟩

theorem digitsToNat_go (ds : GoStr) : ∀ acc : Nat,
    ds.foldl (fun acc c => acc * 10 + (c - 48)) acc = acc * 10 ^ ds.length + digitsToNat ds := by
  induction ds with
  | nil => intro acc; simp [digitsToNat]
  | cons c rest ih =>
    intro acc
    have hsplit : digitsToNat (c :: rest) = (c - 48) * 10 ^ rest.length + digitsToNat rest := by
      rw [digitsToNat, List.foldl_cons,
        show (0 * 10 + (c - 48)) = c - 48 from by omega, ih (c - 48)]
    simp only [List.foldl_cons, List.length_cons]
    rw [ih (acc * 10 + (c - 48)), hsplit]
    ring

theorem digitsToNat_append (a b : GoStr) :
    digitsToNat (a ++ b) = digitsToNat a * 10 ^ b.length + digitsToNat b := by
  rw [digitsToNat, List.foldl_append, digitsToNat_go b]
  rfl

theorem digitsToNat_natDigits (n : Nat) : digitsToNat (natDigits n) = n := by
  induction n using Nat.strong_induction_on with
  | _ n ih =>
    rw [natDigits_unfold]
    by_cases h10 : n < 10
    · simp only [if_pos h10]
      simp [digitsToNat] <;> omega
    · simp only [if_neg h10]
      rw [digitsToNat_append, ih (n / 10) (Nat.div_lt_self (by omega) (by omega))]
      have : digitsToNat [48 + n % 10] = n % 10 := by
        simp [digitsToNat] <;> omega
      rw [this]
      simp only [List.length_singleton, pow_one]
      omega

theorem padDigits_length (w n : Nat) : (padDigits w n).length = w := by
  induction w generalizing n with
  | zero => rfl
  | succ w ih => simp [padDigits, ih]

theorem padDigits_digits (w n : Nat) : ∀ c ∈ padDigits w n, isDigitB c = true := by
  induction w generalizing n with
  | zero => simp [padDigits]
  | succ w ih =>
    intro c hc
    rcases List.mem_append.mp hc with h | h
    · exact ih (n / 10) c h
    · rcases List.mem_singleton.mp h with rfl
      have := Nat.mod_lt n (show 0 < 10 by omega)
      simp [isDigitB]
      omega

theorem digitsToNat_padDigits (w n : Nat) (h : n < 10 ^ w) :
    digitsToNat (padDigits w n) = n := by
  induction w generalizing n with
  | zero =>
    simp [padDigits, digitsToNat]
    omega
  | succ w ih =>
    have hdiv : n / 10 < 10 ^ w := by
      rw [pow_succ] at h
      omega
    rw [show padDigits (w + 1) n = padDigits w (n / 10) ++ [48 + n % 10] from rfl,
      digitsToNat_append, ih (n / 10) hdiv]
    have : digitsToNat [48 + n % 10] = n % 10 := by
      simp [digitsToNat] <;> omega
    rw [this]
    simp only [List.length_singleton, pow_one]
    omega

theorem takeDigits_nil : takeDigits [] = ([], []) := rfl

theorem takeDigits_stop (cs : GoStr) (h : numDelim cs) : takeDigits cs = ([], cs) := by
  match cs with
  | [] => rfl
  | c :: r =>
    obtain ⟨hd, -⟩ := h
    simp [takeDigits, hd]

theorem takeDigits_run (ds : GoStr) (hds : ∀ c ∈ ds, isDigitB c = true)
    (rest : GoStr) (h0 : takeDigits rest = ([], rest)) :
    takeDigits (ds ++ rest) = (ds, rest) := by
  induction ds with
  | nil =>
    rw [List.nil_append]
    exact h0
  | cons c t ih =>
    have ht := ih (fun x hx => hds x (List.mem_cons_of_mem c hx))
    simp [takeDigits, hds c (List.mem_cons_self c t), ht]

theorem decExp_dvd {den k : Nat} (h : decExp den = some k) : den ∣ 10 ^ k := by
  have hp := List.find?_some h
  simp only [decide_eq_true_eq] at hp
  exact Nat.dvd_of_mod_eq_zero hp

theorem decExp_one : decExp 1 = some 0 := rfl

theorem renderNum_intCast (n : Int) : renderNum (n : Rat) = renderInt n := by
  unfold renderNum
  rw [show ((n : Rat)).den = 1 from Rat.den_intCast n, decExp_one]
  rw [Rat.num_intCast]

theorem digit_ne_45 {c : Nat} (h : isDigitB c = true) : ¬(c = 45) := by
  simp only [isDigitB, decide_eq_true_eq] at h
  omega

theorem digit_not_delim {c : Nat} (h : isDigitB c = true) :
    ¬(c = 110) ∧ ¬(c = 116) ∧ ¬(c = 102) ∧ ¬(c = 34) ∧ ¬(c = 91) ∧ ¬(c = 123) := by
  simp only [isDigitB, decide_eq_true_eq] at h
  omega

theorem takeDigits_stop46 (x : GoStr) : takeDigits (46 :: x) = ([], 46 :: x) := by
  simp [takeDigits, isDigitB]

theorem parseSign_pos (r : GoStr) : parseSign (45 :: r) = (true, r) := by
  simp [parseSign]

theorem parseSign_neg (c : Nat) (r : GoStr) (h : ¬(c = 45)) :
    parseSign (c :: r) = (false, c :: r) := by
  simp [parseSign, h]

theorem parseFrac_delim (rest : GoStr) (hr : numDelim rest) :
    parseFrac rest = some ([], rest) := by
  match rest with
  | [] => rfl
  | c :: r =>
    obtain ⟨-, h46⟩ := hr
    simp [parseFrac, h46]

theorem parseFrac_point (f : Nat) (fs rest : GoStr)
    (hds : ∀ c ∈ f :: fs, isDigitB c = true) (hr : numDelim rest) :
    parseFrac (46 :: ((f :: fs) ++ rest)) = some (f :: fs, rest) := by
  have htd : takeDigits (f :: (fs ++ rest)) = (f :: fs, rest) := by
    rw [← List.cons_append]
    exact takeDigits_run _ hds _ (takeDigits_stop _ hr)
  simp [parseFrac, htd]

/-- `parseNum` on a signed digit run with an optional point part. -/
theorem parseNum_digits (neg : Bool) (d : Nat) (ds fs rest : GoStr)
    (hd : ∀ c ∈ d :: ds, isDigitB c = true)
    (hfs : fs = [] ∨ ∃ f fs2, fs = f :: fs2 ∧ ∀ c ∈ fs, isDigitB c = true)
    (hr : numDelim rest) :
    parseNum ((cond neg [45] []) ++ (d :: ds) ++
        (cond fs.isEmpty [] (46 :: fs)) ++ rest) =
      some (mkRat (cond neg (-(digitsToNat ((d :: ds) ++ fs) : Int))
        ((digitsToNat ((d :: ds) ++ fs) : Int))) (10 ^ fs.length), rest) := by
  have hfrac : parseFrac ((cond fs.isEmpty [] (46 :: fs)) ++ rest) = some (fs, rest) := by
    rcases hfs with rfl | ⟨f, fs2, rfl, hdig⟩
    · exact parseFrac_delim rest hr
    · exact parseFrac_point f fs2 rest hdig hr
  have harg : (cond neg [45] []) ++ (d :: ds) ++ (cond fs.isEmpty [] (46 :: fs)) ++ rest =
      (cond neg [45] []) ++ ((d :: ds) ++ ((cond fs.isEmpty [] (46 :: fs)) ++ rest)) := by
    simp [List.append_assoc]
  rw [harg]
  have hsgn : parseSign ((cond neg [45] []) ++
      ((d :: ds) ++ ((cond fs.isEmpty [] (46 :: fs)) ++ rest))) =
      (neg, (d :: ds) ++ ((cond fs.isEmpty [] (46 :: fs)) ++ rest)) := by
    cases neg
    · exact parseSign_neg d _ (digit_ne_45 (hd d (List.mem_cons_self d ds)))
    · exact parseSign_pos _
  have htd : takeDigits ((d :: ds) ++ ((cond fs.isEmpty [] (46 :: fs)) ++ rest)) =
      (d :: ds, (cond fs.isEmpty [] (46 :: fs)) ++ rest) := by
    apply takeDigits_run _ hd
    rcases hfs with rfl | ⟨f, fs2, rfl, -⟩
    · exact takeDigits_stop _ hr
    · exact takeDigits_stop46 _
  unfold parseNum
  rw [hsgn]
  simp only [htd, hfrac]

/-- Integer rationals render through `renderInt` and parse back exactly,
whatever sign. -/
theorem parseNum_renderInt (n : Int) (rest : GoStr) (hr : numDelim rest) :
    parseNum (renderInt n ++ rest) = some ((n : Rat), rest) := by
  obtain ⟨c0, t0, hnd, hc0⟩ := natDigits_head n.natAbs
  have hneg : renderInt n = (cond (decide (n < 0)) [45] []) ++ natDigits n.natAbs := by
    unfold renderInt
    by_cases h : n < 0 <;> simp [h]
  have h0 := parseNum_digits (decide (n < 0)) c0 t0 [] rest
    (by rw [← hnd]; exact natDigits_digits _) (Or.inl rfl) hr
  rw [hneg, hnd]
  rw [show (cond (decide (n < 0)) [45] []) ++ (c0 :: t0) ++ rest =
    (cond (decide (n < 0)) [45] []) ++ (c0 :: t0) ++ (cond (List.isEmpty []) [] (46 :: [])) ++
      rest from by simp]
  rw [h0]
  congr 1
  congr 1
  rw [List.append_nil, ← hnd, digitsToNat_natDigits]
  simp only [List.length_nil, pow_zero]
  by_cases h : n < 0
  · rw [decide_eq_true h, Bool.cond_true,
      show (-(n.natAbs : Int)) = n from by omega, Rat.mkRat_one]
  · rw [decide_eq_false h, Bool.cond_false,
      show ((n.natAbs : Int)) = n from by omega, Rat.mkRat_one]

/-- The number round-trip: a finite-decimal rational parses back from its
rendering, in both the integer and the point form. -/
theorem parseNum_renderNum (q : Rat) (rest : GoStr) (hq : FiniteDec q)
    (hr : numDelim rest) :
    parseNum (renderNum q ++ rest) = some (q, rest) := by
  rcases hk : decExp q.den with _ | k
  · rw [FiniteDec, hk] at hq
    cases hq
  rcases k with _ | k
  · have hden : q.den = 1 := Nat.dvd_one.mp (by simpa using decExp_dvd hk)
    have hrn : renderNum q = renderInt q.num := by
      unfold renderNum
      rw [hk]
    rw [hrn, parseNum_renderInt q.num rest hr]
    congr 1
    rw [show ((q.num : Rat)) = mkRat q.num 1 from (Rat.mkRat_one q.num).symm, ← hden,
      Rat.mkRat_self]
  · set D := 10 ^ (k + 1) with hD
    set m := q.num.natAbs * (D / q.den) with hm
    have hdvd : q.den ∣ D := decExp_dvd hk
    have hDpos : 0 < D := by
      rw [hD]
      positivity
    have hrn : renderNum q = (if q.num < 0 then [45] else []) ++
        (natDigits (m / D) ++ ([46] ++ padDigits (k + 1) (m % D))) := by
      unfold renderNum
      rw [hk]
      simp only [← hD, ← hm, List.append_assoc]
    obtain ⟨c0, t0, hnd0, -⟩ := natDigits_head (m / D)
    obtain ⟨f0, g0, hpd, -⟩ : ∃ f g, padDigits (k + 1) (m % D) = f :: g ∧ isDigitB f = true := by
      match h : padDigits (k + 1) (m % D) with
      | [] =>
        have := padDigits_length (k + 1) (m % D)
        rw [h] at this
        cases this
      | f :: g =>
        refine ⟨f, g, rfl, padDigits_digits (k + 1) (m % D) f ?_⟩
        rw [h]
        exact List.mem_cons_self f g
    have hpdne : (padDigits (k + 1) (m % D)).isEmpty = false := by
      rw [hpd]
      rfl
    have hargs : renderNum q ++ rest =
        (cond (decide (q.num < 0)) [45] []) ++ (c0 :: t0) ++
          (cond (padDigits (k + 1) (m % D)).isEmpty [] (46 :: padDigits (k + 1) (m % D))) ++
          rest := by
      rw [hrn, hnd0, hpdne]
      by_cases h : q.num < 0 <;> simp [h, List.append_assoc]
    rw [hargs, parseNum_digits (decide (q.num < 0)) c0 t0 (padDigits (k + 1) (m % D)) rest
      (by rw [← hnd0]; exact natDigits_digits _)
      (Or.inr ⟨f0, g0, hpd, padDigits_digits (k + 1) (m % D)⟩) hr]
    congr 1
    congr 1
    rw [← hnd0, padDigits_length]
    have hdigits : (digitsToNat (natDigits (m / D) ++ padDigits (k + 1) (m % D)) : Int) =
        (m : Int) := by
      rw [digitsToNat_append, digitsToNat_natDigits, padDigits_length,
        digitsToNat_padDigits _ _ (Nat.mod_lt _ hDpos), ← hD]
      exact_mod_cast congrArg (Nat.cast : Nat → Int) (Nat.div_add_mod' m D)
    have hcd : (D / q.den) * q.den = D := Nat.div_mul_cancel hdvd
    have hmden : (m : Int) * (q.den : Int) = (q.num.natAbs : Int) * (D : Int) := by
      rw [hm]
      push_cast
      rw [mul_assoc]
      congr 1
      exact_mod_cast congrArg (Nat.cast : Nat → Int) hcd
    have hD0 : (10 : Nat) ^ (k + 1) ≠ 0 := by positivity
    by_cases hneg : q.num < 0
    · rw [decide_eq_true hneg, Bool.cond_true, hdigits]
      refine ((Rat.mkRat_eq_iff hD0 q.den_nz).mpr ?_).trans (Rat.mkRat_self q)
      rw [neg_mul, hmden, show ((q.num.natAbs : Int)) = -q.num from by omega, ← hD]
      push_cast
      ring
    · rw [decide_eq_false hneg, Bool.cond_false, hdigits]
      refine ((Rat.mkRat_eq_iff hD0 q.den_nz).mpr ?_).trans (Rat.mkRat_self q)
      rw [hmden, show ((q.num.natAbs : Int)) = q.num from by omega, ← hD]

/-! ### String and leaf round-trips -/

theorem cleanStr_cons {c : Nat} {s : GoStr} (h : cleanStr (c :: s)) :
    (32 ≤ c ∧ c ≤ 126) ∧ cleanStr s :=
  ⟨h c (List.mem_cons_self c s), fun x hx => h x (List.mem_cons_of_mem _ hx)⟩

/-- The minimal escaper round-trips through the string parser on printable
ASCII input, whatever tail follows the closing quote. -/
theorem parseStrAux_clean (s : GoStr) : cleanStr s → ∀ acc rest,
    parseStrAux acc (s.flatMap escCustomKeyByte ++ (34 :: rest)) =
      some (acc.reverse ++ s, rest) := by
  induction s with
  | nil =>
    intro _ acc rest
    rw [show (([] : GoStr).flatMap escCustomKeyByte ++ (34 :: rest)) = 34 :: rest from rfl]
    rw [parseStrAux.eq_def]
    simp
  | cons c s ih =>
    intro hs acc rest
    obtain ⟨⟨hc1, hc2⟩, hs2⟩ := cleanStr_cons hs
    by_cases h34 : c = 34
    · subst h34
      rw [show ((34 :: s).flatMap escCustomKeyByte ++ (34 :: rest)) =
        92 :: 34 :: (s.flatMap escCustomKeyByte ++ (34 :: rest)) from by
          simp [escCustomKeyByte]]
      rw [show parseStrAux acc (92 :: 34 :: (s.flatMap escCustomKeyByte ++ (34 :: rest))) =
        parseStrAux (34 :: acc) (s.flatMap escCustomKeyByte ++ (34 :: rest)) from by
          conv_lhs => rw [parseStrAux.eq_def]
          simp [unescByte]]
      rw [ih hs2 (34 :: acc) rest]
      simp
    · by_cases h92 : c = 92
      · subst h92
        rw [show ((92 :: s).flatMap escCustomKeyByte ++ (34 :: rest)) =
          92 :: 92 :: (s.flatMap escCustomKeyByte ++ (34 :: rest)) from by
            simp [escCustomKeyByte]]
        rw [show parseStrAux acc (92 :: 92 :: (s.flatMap escCustomKeyByte ++ (34 :: rest))) =
          parseStrAux (92 :: acc) (s.flatMap escCustomKeyByte ++ (34 :: rest)) from by
            conv_lhs => rw [parseStrAux.eq_def]
            simp [unescByte]]
        rw [ih hs2 (92 :: acc) rest]
        simp
      · rw [show ((c :: s).flatMap escCustomKeyByte ++ (34 :: rest)) =
          c :: (s.flatMap escCustomKeyByte ++ (34 :: rest)) from by
            simp [escCustomKeyByte, h34, h92]]
        rw [show parseStrAux acc (c :: (s.flatMap escCustomKeyByte ++ (34 :: rest))) =
          parseStrAux (c :: acc) (s.flatMap escCustomKeyByte ++ (34 :: rest)) from by
            conv_lhs => rw [parseStrAux.eq_def]
            dsimp only
            rw [if_neg h34, if_neg h92, if_neg (by omega)]]
        rw [ih hs2 (c :: acc) rest]
        simp

theorem parseVal_null (fuel : Nat) (rest : GoStr) :
    parseVal (fuel + 1) (bytes "null" ++ rest) = some (.jNull, rest) := by
  show parseVal (fuel + 1) (110 :: 117 :: 108 :: 108 :: rest) = _
  simp [parseVal]

theorem parseVal_true (fuel : Nat) (rest : GoStr) :
    parseVal (fuel + 1) (bytes "true" ++ rest) = some (.jBool true, rest) := by
  show parseVal (fuel + 1) (116 :: 114 :: 117 :: 101 :: rest) = _
  simp [parseVal]

theorem parseVal_false (fuel : Nat) (rest : GoStr) :
    parseVal (fuel + 1) (bytes "false" ++ rest) = some (.jBool false, rest) := by
  show parseVal (fuel + 1) (102 :: 97 :: 108 :: 115 :: 101 :: rest) = _
  simp [parseVal]

theorem parseVal_str (fuel : Nat) (s : GoStr) (hs : cleanStr s) (rest : GoStr) :
    parseVal (fuel + 1) (quoteCustomKey s ++ rest) = some (.jStr s, rest) := by
  rw [show quoteCustomKey s ++ rest = 34 :: (s.flatMap escCustomKeyByte ++ (34 :: rest)) from by
    simp [quoteCustomKey]]
  simp [parseVal, parseStrAux_clean s hs]

/-- A rendered number starts with a minus sign or a digit. -/
theorem renderNum_head (q : Rat) :
    ∃ c r, renderNum q = c :: r ∧ (c = 45 ∨ isDigitB c = true) := by
  rcases hk : decExp q.den with _ | k
  · exact ⟨48, [], by simp only [renderNum, hk], Or.inr (by decide)⟩
  rcases k with _ | k
  · obtain ⟨c, r, hnd, hc⟩ := natDigits_head q.num.natAbs
    by_cases h : q.num < 0
    · refine ⟨45, natDigits q.num.natAbs, ?_, Or.inl rfl⟩
      simp only [renderNum, hk, renderInt]
      rw [if_pos h]
      simp
    · refine ⟨c, r, ?_, Or.inr hc⟩
      simp only [renderNum, hk, renderInt]
      rw [if_neg h, hnd]
      simp
  · obtain ⟨c, r, hnd, hc⟩ := natDigits_head
      ((q.num.natAbs * (10 ^ (k + 1) / q.den)) / 10 ^ (k + 1))
    by_cases h : q.num < 0
    · refine ⟨45, natDigits (q.num.natAbs * (10 ^ (k + 1) / q.den) / 10 ^ (k + 1)) ++
        ([46] ++ padDigits (k + 1) (q.num.natAbs * (10 ^ (k + 1) / q.den) % 10 ^ (k + 1))),
        ?_, Or.inl rfl⟩
      simp only [renderNum, hk]
      rw [if_pos h]
      simp
    · refine ⟨c, r ++ ([46] ++ padDigits (k + 1)
        (q.num.natAbs * (10 ^ (k + 1) / q.den) % 10 ^ (k + 1))), ?_, Or.inr hc⟩
      simp only [renderNum, hk]
      rw [if_neg h, hnd]
      simp

theorem parseVal_num (fuel : Nat) (q : Rat) (hq : FiniteDec q) (rest : GoStr)
    (hr : numDelim rest) :
    parseVal (fuel + 1) (renderNum q ++ rest) = some (.jNum q, rest) := by
  obtain ⟨c, r, hcr, hc⟩ := renderNum_head q
  have hnum := parseNum_renderNum q rest hq hr
  rw [hcr] at hnum ⊢
  rw [List.cons_append] at hnum ⊢
  have hd : c = 45 ∨ (48 ≤ c ∧ c ≤ 57) := by
    rcases hc with h | h
    · exact Or.inl h
    · right
      simpa [isDigitB] using h
  have h110 : ¬(c = 110) := by omega
  have h116 : ¬(c = 116) := by omega
  have h102 : ¬(c = 102) := by omega
  have h34 : ¬(c = 34) := by omega
  have h91 : ¬(c = 91) := by omega
  have h123 : ¬(c = 123) := by omega
  have hnb : (c = 45 ∨ isDigitB c = true) := by
    rcases hd with h | h
    · exact Or.inl h
    · exact Or.inr (by simp [isDigitB]; omega)
  simp only [parseVal]
  rw [if_neg h110, if_neg h116, if_neg h102, if_neg h34, if_neg h91, if_neg h123,
    if_pos hnb, hnum]

/-! ### Rendering shape lemmas -/

theorem renderJList_eq_map (xs : List JVal) : renderJList xs = xs.map renderJ := by
  induction xs with
  | nil => rfl
  | cons v vs ih => simp [renderJList, ih]

theorem renderJEntries_eq_map (es : List (GoStr × JVal)) :
    renderJEntries es = es.map (fun e => quoteCustomKey e.1 ++ (58 :: renderJ e.2)) := by
  induction es with
  | nil => rfl
  | cons e es ih =>
    cases e
    simp [renderJEntries, ih]

theorem renderJEntries_append (l1 l2 : List (GoStr × JVal)) :
    renderJEntries (l1 ++ l2) = renderJEntries l1 ++ renderJEntries l2 := by
  simp [renderJEntries_eq_map]

theorem flatMapComma (l : List GoStr) (h : l ≠ []) :
    l.flatMap (fun c => 44 :: c) = 44 :: joinComma l := by
  cases l with
  | nil => exact absurd rfl h
  | cons x xs => simp [joinComma, List.flatMap_cons]

/-- Bytes that can begin a rendered JSON value. -/
def headOKB (c : Nat) : Bool :=
  decide (c = 110 ∨ c = 116 ∨ c = 102 ∨ c = 34 ∨ c = 91 ∨ c = 123 ∨ c = 45) || isDigitB c

theorem renderJ_head (v : JVal) : ∃ c r, renderJ v = c :: r ∧ headOKB c = true := by
  cases v with
  | jNull => exact ⟨110, [117, 108, 108], rfl, by decide⟩
  | jBool b =>
    cases b with
    | false => exact ⟨102, [97, 108, 115, 101], rfl, by decide⟩
    | true => exact ⟨116, [114, 117, 101], rfl, by decide⟩
  | jNum q =>
    obtain ⟨c, r, hcr, hc⟩ := renderNum_head q
    refine ⟨c, r, hcr, ?_⟩
    rcases hc with rfl | h
    · decide
    · simp [headOKB, h]
  | jStr s => exact ⟨34, _, rfl, by decide⟩
  | jArr xs => exact ⟨91, _, rfl, by decide⟩
  | jObj es => exact ⟨123, _, rfl, by decide⟩

theorem headOKB_ne (c : Nat) (h : headOKB c = true) :
    ¬(c = 93) ∧ ¬(c = 125) ∧ ¬(c = 44) := by
  simp only [headOKB, Bool.or_eq_true, decide_eq_true_eq, isDigitB] at h
  rcases h with h | h <;> omega

theorem numDelim44 (l : GoStr) : numDelim (44 :: l) := ⟨by decide, by decide⟩

theorem numDelim93 (l : GoStr) : numDelim (93 :: l) := ⟨by decide, by decide⟩

theorem numDelim125 (l : GoStr) : numDelim (125 :: l) := ⟨by decide, by decide⟩

/-- JSON values in the image of the clean encoders: printable-ASCII strings and
keys, finite-decimal numbers, the same recursively. -/
inductive CleanJ : JVal → Prop where
  | jNull : CleanJ .jNull
  | jBool (b : Bool) : CleanJ (.jBool b)
  | jNum (q : Rat) : FiniteDec q → CleanJ (.jNum q)
  | jStr (s : GoStr) : cleanStr s → CleanJ (.jStr s)
  | jArr (xs : List JVal) : (∀ v ∈ xs, CleanJ v) → CleanJ (.jArr xs)
  | jObj (es : List (GoStr × JVal)) : ((es.map Prod.fst).Nodup) →
      (∀ e ∈ es, cleanStr e.1) → (∀ e ∈ es, CleanJ e.2) → CleanJ (.jObj es)

theorem parseVal_arr_step (fuel : Nat) (c : Nat) (S2 : GoStr) (hc : ¬(c = 93)) :
    parseVal (fuel + 1) (91 :: (c :: S2)) =
      (match parseElems fuel (c :: S2) with
        | some (es, r3) => some (JVal.jArr es, r3)
        | none => none) := by
  simp only [parseVal]
  simp [hc]

theorem parseVal_obj_step (fuel : Nat) (c : Nat) (S2 : GoStr) (hc : ¬(c = 125)) :
    parseVal (fuel + 1) (123 :: (c :: S2)) =
      (match parseMembers fuel (c :: S2) with
        | some (ms, r3) => some (JVal.jObj ms, r3)
        | none => none) := by
  simp only [parseVal]
  simp [hc]

/-- The JSON round-trip: every clean value parses back from its rendering
(all three parsers at once, by induction on the fuel). -/
theorem parse_render_round : ∀ fuel : Nat,
    (∀ v rest, CleanJ v → (renderJ v).length < fuel → numDelim rest →
      parseVal fuel (renderJ v ++ rest) = some (v, rest)) ∧
    (∀ xs rest, xs ≠ [] → (∀ v ∈ xs, CleanJ v) →
      (joinComma (renderJList xs)).length + 2 ≤ fuel →
      parseElems fuel (joinComma (renderJList xs) ++ (93 :: rest)) = some (xs, rest)) ∧
    (∀ es rest, es ≠ [] → (∀ e ∈ es, cleanStr e.1) → (∀ e ∈ es, CleanJ e.2) →
      (joinComma (renderJEntries es)).length + 2 ≤ fuel →
      parseMembers fuel (joinComma (renderJEntries es) ++ (125 :: rest)) = some (es, rest)) := by
  intro fuel
  induction fuel with
  | zero =>
    refine ⟨?_, ?_, ?_⟩ <;> intros <;> omega
  | succ fuel ih =>
    obtain ⟨ihV, ihE, ihM⟩ := ih
    refine ⟨?_, ?_, ?_⟩
    · intro v rest hv hlen hr
      cases hv with
      | jNull => exact parseVal_null fuel rest
      | jBool b =>
        cases b with
        | false => exact parseVal_false fuel rest
        | true => exact parseVal_true fuel rest
      | jNum q hq => exact parseVal_num fuel q hq rest hr
      | jStr s hs => exact parseVal_str fuel s hs rest
      | jArr xs hxs =>
        rw [show renderJ (.jArr xs) ++ rest =
            91 :: (joinComma (renderJList xs) ++ (93 :: rest)) from by
          simp [renderJ]]
        cases xs with
        | nil =>
          rw [show joinComma (renderJList ([] : List JVal)) ++ (93 :: rest) =
            93 :: rest from rfl]
          simp [parseVal]
        | cons x xs2 =>
          obtain ⟨c, r, hcr, hc⟩ := renderJ_head x
          have hsplit : joinComma (renderJList (x :: xs2)) ++ (93 :: rest) =
              c :: (r ++ ((renderJList xs2).flatMap (fun ch => 44 :: ch) ++ (93 :: rest))) := by
            rw [show joinComma (renderJList (x :: xs2)) =
              renderJ x ++ (renderJList xs2).flatMap (fun ch => 44 :: ch) from rfl, hcr]
            simp [List.append_assoc]
          rw [hsplit, parseVal_arr_step fuel c _ (headOKB_ne c hc).1, ← hsplit]
          have hlen2 : (joinComma (renderJList (x :: xs2))).length + 2 ≤ fuel := by
            have he : (renderJ (.jArr (x :: xs2))).length =
                (joinComma (renderJList (x :: xs2))).length + 2 := by
              simp [renderJ]
            omega
          rw [ihE (x :: xs2) rest (by simp) hxs hlen2]
      | jObj es hnd hks hvs =>
        rw [show renderJ (.jObj es) ++ rest =
            123 :: (joinComma (renderJEntries es) ++ (125 :: rest)) from by
          simp [renderJ]]
        cases es with
        | nil =>
          rw [show joinComma (renderJEntries ([] : List (GoStr × JVal))) ++ (125 :: rest) =
            125 :: rest from rfl]
          simp [parseVal]
        | cons e es2 =>
          obtain ⟨k, v⟩ := e
          have hsplit : joinComma (renderJEntries ((k, v) :: es2)) ++ (125 :: rest) =
              34 :: (k.flatMap escCustomKeyByte ++ (34 :: (58 :: (renderJ v ++
                ((renderJEntries es2).flatMap (fun ch => 44 :: ch) ++ (125 :: rest)))))) := by
            rw [show joinComma (renderJEntries ((k, v) :: es2)) =
              (quoteCustomKey k ++ (58 :: renderJ v)) ++
                (renderJEntries es2).flatMap (fun ch => 44 :: ch) from rfl]
            simp [quoteCustomKey, List.append_assoc]
          rw [hsplit, parseVal_obj_step fuel 34 _ (by decide), ← hsplit]
          have hlen2 : (joinComma (renderJEntries ((k, v) :: es2))).length + 2 ≤ fuel := by
            have he : (renderJ (.jObj ((k, v) :: es2))).length =
                (joinComma (renderJEntries ((k, v) :: es2))).length + 2 := by
              simp [renderJ]
            omega
          rw [ihM ((k, v) :: es2) rest (by simp) hks hvs hlen2]
    · intro xs rest hne hxs hlen
      cases xs with
      | nil => exact absurd rfl hne
      | cons x xs2 =>
        have hcx : CleanJ x := hxs x (List.mem_cons_self x xs2)
        cases xs2 with
        | nil =>
          rw [show joinComma (renderJList [x]) ++ (93 :: rest) =
              renderJ x ++ (93 :: rest) from by
            simp [renderJList, joinComma]]
          have hlx : (renderJ x).length < fuel := by
            have he : (joinComma (renderJList [x])).length = (renderJ x).length := by
              simp [renderJList, joinComma]
            omega
          have h1 := ihV x (93 :: rest) hcx hlx (numDelim93 rest)
          simp only [parseElems]
          rw [h1]
          simp
        | cons y ys =>
          have hJ : joinComma (renderJList (x :: y :: ys)) =
              renderJ x ++ (44 :: joinComma (renderJList (y :: ys))) := by
            rw [show joinComma (renderJList (x :: y :: ys)) =
              renderJ x ++ (renderJList (y :: ys)).flatMap (fun ch => 44 :: ch) from rfl]
            rw [flatMapComma _ (by simp [renderJList])]
          have hlx : (renderJ x).length < fuel := by
            have he := congrArg List.length hJ
            simp [List.length_append] at he
            omega
          have hlys : (joinComma (renderJList (y :: ys))).length + 2 ≤ fuel := by
            have he := congrArg List.length hJ
            simp [List.length_append] at he
            omega
          rw [hJ]
          rw [show (renderJ x ++ (44 :: joinComma (renderJList (y :: ys)))) ++ (93 :: rest) =
              renderJ x ++ (44 :: (joinComma (renderJList (y :: ys)) ++ (93 :: rest))) from by
            simp [List.append_assoc]]
          have h1 := ihV x (44 :: (joinComma (renderJList (y :: ys)) ++ (93 :: rest))) hcx hlx
            (numDelim44 _)
          have h2 := ihE (y :: ys) rest (by simp)
            (fun v hv => hxs v (List.mem_cons_of_mem x hv)) hlys
          simp only [parseElems]
          rw [h1]
          simp [h2]
    · intro es rest hne hks hvs hlen
      cases es with
      | nil => exact absurd rfl hne
      | cons e es2 =>
        obtain ⟨k, v⟩ := e
        have hk : cleanStr k := hks (k, v) (List.mem_cons_self _ _)
        have hcv : CleanJ v := hvs (k, v) (List.mem_cons_self _ _)
        cases es2 with
        | nil =>
          have hS : joinComma (renderJEntries [(k, v)]) ++ (125 :: rest) =
              34 :: (k.flatMap escCustomKeyByte ++ (34 :: (58 :: (renderJ v ++ (125 :: rest))))) := by
            rw [show joinComma (renderJEntries [(k, v)]) =
              quoteCustomKey k ++ (58 :: renderJ v) from by simp [renderJEntries, joinComma]]
            simp [quoteCustomKey, List.append_assoc]
          have hlv : (renderJ v).length < fuel := by
            have he : (joinComma (renderJEntries [(k, v)])).length =
                (k.flatMap escCustomKeyByte).length + 3 + (renderJ v).length := by
              simp [renderJEntries, joinComma, quoteCustomKey]
              omega
            omega
          have h1 := ihV v (125 :: rest) hcv hlv (numDelim125 rest)
          rw [hS]
          simp only [parseMembers]
          simp [parseStrAux_clean k hk, h1]
        | cons e2 es3 =>
          have hfm := flatMapComma (renderJEntries (e2 :: es3))
            (by obtain ⟨a, b⟩ := e2; simp [renderJEntries])
          have hJ : joinComma (renderJEntries ((k, v) :: e2 :: es3)) =
              (quoteCustomKey k ++ (58 :: renderJ v)) ++
                (44 :: joinComma (renderJEntries (e2 :: es3))) := by
            rw [show joinComma (renderJEntries ((k, v) :: e2 :: es3)) =
              (quoteCustomKey k ++ (58 :: renderJ v)) ++
                (renderJEntries (e2 :: es3)).flatMap (fun ch => 44 :: ch) from rfl, hfm]
          have hlv : (renderJ v).length < fuel := by
            have he := congrArg List.length hJ
            simp [List.length_append, quoteCustomKey] at he
            omega
          have hlJ : (joinComma (renderJEntries (e2 :: es3))).length + 2 ≤ fuel := by
            have he := congrArg List.length hJ
            simp [List.length_append, quoteCustomKey] at he
            omega
          have hS : joinComma (renderJEntries ((k, v) :: e2 :: es3)) ++ (125 :: rest) =
              34 :: (k.flatMap escCustomKeyByte ++ (34 :: (58 :: (renderJ v ++
                (44 :: (joinComma (renderJEntries (e2 :: es3)) ++ (125 :: rest))))))) := by
            rw [hJ]
            simp [quoteCustomKey, List.append_assoc]
          have h1 := ihV v (44 :: (joinComma (renderJEntries (e2 :: es3)) ++ (125 :: rest)))
            hcv hlv (numDelim44 _)
          have h2 := ihM (e2 :: es3) rest (by simp)
            (fun x hx => hks x (List.mem_cons_of_mem _ hx))
            (fun x hx => hvs x (List.mem_cons_of_mem _ hx)) hlJ
          rw [hS]
          simp only [parseMembers]
          simp [parseStrAux_clean k hk, h1, h2]

/-- Top-level round-trip: a clean JSON value parses back from its rendering. -/
theorem parseJson_renderJ (v : JVal) (hv : CleanJ v) : parseJson (renderJ v) = some v := by
  have h := (parse_render_round ((renderJ v).length + 1)).1 v [] hv (by omega) trivial
  rw [List.append_nil] at h
  unfold parseJson
  rw [h]

/-! ### Key-sorted normal form (structural equality up to object key order) -/

/-- Byte-lexicographic order on entry keys. -/
def keyLE (a b : GoStr × JVal) : Prop := a.1 ≤ b.1

instance : DecidableRel keyLE := fun a b => inferInstanceAs (Decidable (a.1 ≤ b.1))

instance : IsTotal (GoStr × JVal) keyLE := ⟨fun a b => le_total a.1 b.1⟩

instance : IsTrans (GoStr × JVal) keyLE := ⟨fun _ _ _ h1 h2 => le_trans h1 h2⟩

mutual
/-- Sort every object's entries by key, recursively: the normal form under
which two JSON values are structurally equal iff they have the same key/value
pairs at every nesting level with array order preserved. -/
def sortJ : JVal → JVal
  | .jNull => .jNull
  | .jBool b => .jBool b
  | .jNum q => .jNum q
  | .jStr s => .jStr s
  | .jArr xs => .jArr (sortJList xs)
  | .jObj es => .jObj (List.insertionSort keyLE (sortJEntries es))

def sortJList : List JVal → List JVal
  | [] => []
  | v :: vs => sortJ v :: sortJList vs

def sortJEntries : List (GoStr × JVal) → List (GoStr × JVal)
  | [] => []
  | (k, v) :: es => (k, sortJ v) :: sortJEntries es
end

theorem sortJEntries_eq_map (es : List (GoStr × JVal)) :
    sortJEntries es = es.map (fun e => (e.1, sortJ e.2)) := by
  induction es with
  | nil => rfl
  | cons e es ih =>
    cases e
    simp [sortJEntries, ih]

theorem map_fst_sortJEntries (es : List (GoStr × JVal)) :
    (sortJEntries es).map Prod.fst = es.map Prod.fst := by
  simp [sortJEntries_eq_map, List.map_map]

theorem sortJEntries_append (l1 l2 : List (GoStr × JVal)) :
    sortJEntries (l1 ++ l2) = sortJEntries l1 ++ sortJEntries l2 := by
  simp [sortJEntries_eq_map]

/-- Two key-sorted entry lists that are permutations of one another, with
pairwise-distinct keys, are equal. -/
theorem sorted_perm_eq : ∀ l1 l2 : List (GoStr × JVal), l1.Perm l2 →
    (∀ a ∈ l1, ∀ b ∈ l1, keyLE a b → keyLE b a → a = b) →
    l1.Pairwise keyLE → l2.Pairwise keyLE → l1 = l2 := by
  intro l1
  induction l1 with
  | nil =>
    intro l2 hp _ _ _
    exact (hp.symm.eq_nil).symm
  | cons a t1 ih =>
    intro l2 hp hanti hs1 hs2
    cases l2 with
    | nil => simp at hp
    | cons b t2 =>
      have hab : a = b := by
        by_cases h : a = b
        · exact h
        · have ha2 : a ∈ t2 := by
            rcases List.mem_cons.mp (hp.subset (List.mem_cons_self a t1)) with h1 | h1
            · exact absurd h1 h
            · exact h1
          have hb1 : b ∈ t1 := by
            rcases List.mem_cons.mp (hp.symm.subset (List.mem_cons_self b t2)) with h1 | h1
            · exact absurd h1.symm h
            · exact h1
          exact hanti a (List.mem_cons_self a t1) b (List.mem_cons_of_mem a hb1)
            ((List.pairwise_cons.mp hs1).1 b hb1) ((List.pairwise_cons.mp hs2).1 a ha2)
      subst hab
      rw [ih t2 hp.cons_inv
        (fun x hx y hy => hanti x (List.mem_cons_of_mem a hx) y (List.mem_cons_of_mem a hy))
        (List.pairwise_cons.mp hs1).2 (List.pairwise_cons.mp hs2).2]

theorem insertionSort_eq_of_perm (l1 l2 : List (GoStr × JVal)) (hp : l1.Perm l2)
    (hnd : (l1.map Prod.fst).Nodup) :
    List.insertionSort keyLE l1 = List.insertionSort keyLE l2 := by
  apply sorted_perm_eq
  · exact (List.perm_insertionSort keyLE l1).trans
      (hp.trans (List.perm_insertionSort keyLE l2).symm)
  · intro x hx y hy h1 h2
    have hx2 : x ∈ l1 := (List.perm_insertionSort keyLE l1).subset hx
    have hy2 : y ∈ l1 := (List.perm_insertionSort keyLE l1).subset hy
    exact List.inj_on_of_nodup_map hnd hx2 hy2 (le_antisymm h1 h2)
  · exact List.sorted_insertionSort keyLE l1
  · exact List.sorted_insertionSort keyLE l2

/-- Sorting collapses an object key permutation whenever the keys are distinct
(the value lists must already agree entrywise after recursive sorting). -/
theorem sortJ_obj_perm (es1 es2 : List (GoStr × JVal))
    (hp : (sortJEntries es1).Perm (sortJEntries es2))
    (hnd : (es1.map Prod.fst).Nodup) :
    sortJ (.jObj es1) = sortJ (.jObj es2) := by
  simp only [sortJ]
  rw [insertionSort_eq_of_perm _ _ hp (by rw [map_fst_sortJEntries]; exact hnd)]

/-! ### Escaper agreement on printable ASCII -/

theorem escFastByte_clean (c : Nat) (h1 : 32 ≤ c) : escFastByte c = escCustomKeyByte c := by
  unfold escFastByte escCustomKeyByte
  by_cases h : c = 34 ∨ c = 92
  · rw [if_pos h, if_pos h]
  · rw [if_neg h, if_neg h, if_neg (by omega)]

theorem escGoByte_clean (c : Nat) (h1 : 32 ≤ c) (h2 : c ≤ 126) :
    escGoByte c = escCustomKeyByte c := by
  unfold escGoByte escCustomKeyByte
  by_cases h : c = 34 ∨ c = 92
  · rw [if_pos h, if_pos h]
  · rw [if_neg h, if_neg h]
    iterate 8 rw [if_neg (by omega)]

theorem flatMap_congr_mem {f g : Nat → GoStr} (s : GoStr) (h : ∀ c ∈ s, f c = g c) :
    s.flatMap f = s.flatMap g := by
  induction s with
  | nil => rfl
  | cons c s ih =>
    rw [List.flatMap_cons, List.flatMap_cons, h c (List.mem_cons_self c s),
      ih (fun x hx => h x (List.mem_cons_of_mem c hx))]

theorem quoteFast_clean (s : GoStr) (hs : cleanStr s) : quoteFast s = quoteCustomKey s := by
  unfold quoteFast quoteCustomKey
  rw [flatMap_congr_mem s (fun c hc => escFastByte_clean c (hs c hc).1)]

theorem goQuote_clean (s : GoStr) (hs : cleanStr s) : goQuote s = quoteCustomKey s := by
  unfold goQuote quoteCustomKey
  rw [flatMap_congr_mem s (fun c hc => escGoByte_clean c (hs c hc).1 (hs c hc).2)]

/-! ### Denotation of dynamic values (the JSON value a clean dynamic value
encodes to, on either encoder path) -/

mutual
/-- The JSON value a supported dynamic value denotes.  The constructors every
clean domain below excludes (byte slices, self-serializing values, `Alert` /
`Sound` in dynamic position, unsupported types) are mapped to `jNull`; no
theorem applies the denotation to them. -/
def denoteValue : AnyVal → JVal
  | .vString s => .jStr s
  | .vInt n => .jNum (n : Rat)
  | .vInt64 n => .jNum (n : Rat)
  | .vFloat q => .jNum q
  | .vBool b => .jBool b
  | .vNull => .jNull
  | .vBytes _ => .jNull
  | .vEpochTime t => .jNum (t : Rat)
  | .vStrList xs => .jArr (xs.map JVal.jStr)
  | .vIntList xs => .jArr (xs.map (fun n : Int => JVal.jNum (n : Rat)))
  | .vInt64List xs => .jArr (xs.map (fun n : Int => JVal.jNum (n : Rat)))
  | .vFloatList xs => .jArr (xs.map JVal.jNum)
  | .vMarshaler _ => .jNull
  | .vMap entries => .jObj (denoteEntries entries)
  | .vArr xs => .jArr (denoteElems xs)
  | .vAlert _ => .jNull
  | .vSound _ => .jNull
  | .vOther => .jNull

def denoteEntries : List (GoStr × AnyVal) → List (GoStr × JVal)
  | [] => []
  | (k, v) :: es => (k, denoteValue v) :: denoteEntries es

def denoteElems : List AnyVal → List JVal
  | [] => []
  | v :: vs => denoteValue v :: denoteElems vs
end

theorem denoteEntries_eq_map (es : List (GoStr × AnyVal)) :
    denoteEntries es = es.map (fun e => (e.1, denoteValue e.2)) := by
  induction es with
  | nil => rfl
  | cons e es ih =>
    cases e
    simp [denoteEntries, ih]

theorem denoteElems_eq_map (xs : List AnyVal) : denoteElems xs = xs.map denoteValue := by
  induction xs with
  | nil => rfl
  | cons v vs ih => simp [denoteElems, ih]

/-- The dynamic values on which the fast encoder and the reflective encoder
agree byte-for-byte up to key order: the supported shapes minus byte slices
and self-serializing values, with printable-ASCII strings and keys,
finite-decimal floats, and duplicate-free map keys. -/
inductive CleanVal : AnyVal → Prop where
  | vString (s : GoStr) : cleanStr s → CleanVal (.vString s)
  | vInt (n : Int) : CleanVal (.vInt n)
  | vInt64 (n : Int) : CleanVal (.vInt64 n)
  | vFloat (q : Rat) : FiniteDec q → CleanVal (.vFloat q)
  | vBool (b : Bool) : CleanVal (.vBool b)
  | vNull : CleanVal .vNull
  | vEpochTime (t : Int) : CleanVal (.vEpochTime t)
  | vStrList (xs : List GoStr) : (∀ s ∈ xs, cleanStr s) → CleanVal (.vStrList xs)
  | vIntList (xs : List Int) : CleanVal (.vIntList xs)
  | vInt64List (xs : List Int) : CleanVal (.vInt64List xs)
  | vFloatList (xs : List Rat) : (∀ q ∈ xs, FiniteDec q) → CleanVal (.vFloatList xs)
  | vMap (es : List (GoStr × AnyVal)) : ((es.map Prod.fst).Nodup) →
      (∀ e ∈ es, cleanStr e.1) → (∀ e ∈ es, CleanVal e.2) → CleanVal (.vMap es)
  | vArr (xs : List AnyVal) : (∀ v ∈ xs, CleanVal v) → CleanVal (.vArr xs)

theorem FiniteDec_intCast (n : Int) : FiniteDec (n : Rat) := by
  unfold FiniteDec
  rw [Rat.den_intCast, decExp_one]
  rfl

/-- A clean dynamic value denotes a clean JSON value. -/
theorem cleanJ_denote (v : AnyVal) (hv : CleanVal v) : CleanJ (denoteValue v) := by
  induction hv with
  | vString s h => exact CleanJ.jStr s h
  | vInt n => exact CleanJ.jNum _ (FiniteDec_intCast n)
  | vInt64 n => exact CleanJ.jNum _ (FiniteDec_intCast n)
  | vFloat q h => exact CleanJ.jNum q h
  | vBool b => exact CleanJ.jBool b
  | vNull => exact CleanJ.jNull
  | vEpochTime t => exact CleanJ.jNum _ (FiniteDec_intCast t)
  | vStrList xs h =>
    refine CleanJ.jArr _ ?_
    intro w hw
    obtain ⟨s, hs, rfl⟩ := List.mem_map.mp hw
    exact CleanJ.jStr s (h s hs)
  | vIntList xs =>
    refine CleanJ.jArr _ ?_
    intro w hw
    obtain ⟨n, _, rfl⟩ := List.mem_map.mp hw
    exact CleanJ.jNum _ (FiniteDec_intCast n)
  | vInt64List xs =>
    refine CleanJ.jArr _ ?_
    intro w hw
    obtain ⟨n, _, rfl⟩ := List.mem_map.mp hw
    exact CleanJ.jNum _ (FiniteDec_intCast n)
  | vFloatList xs h =>
    refine CleanJ.jArr _ ?_
    intro w hw
    obtain ⟨q, hq, rfl⟩ := List.mem_map.mp hw
    exact CleanJ.jNum q (h q hq)
  | vMap es hnd hk hvs ih =>
    rw [show denoteValue (.vMap es) = .jObj (denoteEntries es) from rfl, denoteEntries_eq_map]
    refine CleanJ.jObj _ ?_ ?_ ?_
    · rw [List.map_map]
      exact (List.map_congr_left (fun e _ => rfl)).symm ▸ hnd
    · intro e he
      obtain ⟨e2, he2, rfl⟩ := List.mem_map.mp he
      exact hk e2 he2
    · intro e he
      obtain ⟨e2, he2, rfl⟩ := List.mem_map.mp he
      exact ih e2 he2
  | vArr xs h ih =>
    rw [show denoteValue (.vArr xs) = .jArr (denoteElems xs) from rfl, denoteElems_eq_map]
    refine CleanJ.jArr _ ?_
    intro w hw
    obtain ⟨v2, hv2, rfl⟩ := List.mem_map.mp hw
    exact ih v2 hv2

/-! ### Factoring the recursive dynamic encoder through the denotation -/

theorem encodeGoMapEntries_ok (es : List (GoStr × AnyVal)) (hk : ∀ e ∈ es, cleanStr e.1)
    (hv : ∀ e ∈ es, EncodeValue e.2 = .ok (renderJ (denoteValue e.2))) :
    encodeGoMapEntries es = .ok (renderJEntries (denoteEntries es)) := by
  induction es with
  | nil => rfl
  | cons e es ih =>
    obtain ⟨k, v⟩ := e
    have h1 := hv (k, v) (List.mem_cons_self _ _)
    simp only [encodeGoMapEntries, h1,
      ih (fun x hx => hk x (List.mem_cons_of_mem _ hx))
        (fun x hx => hv x (List.mem_cons_of_mem _ hx)),
      denoteEntries, renderJEntries]
    rw [goQuote_clean k (hk (k, v) (List.mem_cons_self _ _))]

theorem encodeArrElems_ok (xs : List AnyVal)
    (hv : ∀ v ∈ xs, EncodeValue v = .ok (renderJ (denoteValue v))) :
    encodeArrElems xs = .ok (renderJList (denoteElems xs)) := by
  induction xs with
  | nil => rfl
  | cons v vs ih =>
    have h1 := hv v (List.mem_cons_self _ _)
    simp only [encodeArrElems, h1, ih (fun x hx => hv x (List.mem_cons_of_mem _ hx)),
      denoteElems, renderJList]

theorem fastMapEntries_ok (es : List (GoStr × AnyVal)) (hk : ∀ e ∈ es, cleanStr e.1)
    (hv : ∀ e ∈ es, EncodeValue e.2 = .ok (renderJ (denoteValue e.2))) :
    fastMapEntries es = .ok (renderJEntries (denoteEntries es)) := by
  induction es with
  | nil => rfl
  | cons e es ih =>
    obtain ⟨k, v⟩ := e
    have h1 := hv (k, v) (List.mem_cons_self _ _)
    simp only [fastMapEntries, h1,
      ih (fun x hx => hk x (List.mem_cons_of_mem _ hx))
        (fun x hx => hv x (List.mem_cons_of_mem _ hx)),
      denoteEntries, renderJEntries]
    rw [quoteFast_clean k (hk (k, v) (List.mem_cons_self _ _))]

theorem marshalCustomData_ok (es : List (GoStr × AnyVal))
    (hv : ∀ e ∈ es, EncodeValue e.2 = .ok (renderJ (denoteValue e.2))) :
    marshalCustomData es = .ok (renderJEntries (denoteEntries es)) := by
  induction es with
  | nil => rfl
  | cons e es ih =>
    obtain ⟨k, v⟩ := e
    have h1 := hv (k, v) (List.mem_cons_self _ _)
    simp only [marshalCustomData, h1, ih (fun x hx => hv x (List.mem_cons_of_mem _ hx)),
      denoteEntries, renderJEntries]

/-- `EncodeValue` on a clean dynamic value succeeds with exactly the rendering
of the value's denotation. -/
theorem EncodeValue_clean (v : AnyVal) (hv : CleanVal v) :
    EncodeValue v = .ok (renderJ (denoteValue v)) := by
  induction hv with
  | vString s h =>
    rw [show EncodeValue (.vString s) = .ok (goQuote s) from rfl,
      show renderJ (denoteValue (.vString s)) = quoteCustomKey s from rfl,
      goQuote_clean s h]
  | vInt n =>
    rw [show EncodeValue (.vInt n) = .ok (renderInt n) from rfl,
      show renderJ (denoteValue (.vInt n)) = renderNum ((n : Rat)) from rfl,
      renderNum_intCast]
  | vInt64 n =>
    rw [show EncodeValue (.vInt64 n) = .ok (renderInt n) from rfl,
      show renderJ (denoteValue (.vInt64 n)) = renderNum ((n : Rat)) from rfl,
      renderNum_intCast]
  | vFloat q h => rfl
  | vBool b => cases b <;> rfl
  | vNull => rfl
  | vEpochTime t =>
    rw [show EncodeValue (.vEpochTime t) = .ok (renderInt t) from rfl,
      show renderJ (denoteValue (.vEpochTime t)) = renderNum ((t : Rat)) from rfl,
      renderNum_intCast]
  | vStrList xs h =>
    have hm : xs.map goQuote = renderJList (xs.map JVal.jStr) := by
      rw [renderJList_eq_map, List.map_map]
      exact List.map_congr_left (fun s hs => by
        rw [show (renderJ ∘ JVal.jStr) s = quoteCustomKey s from rfl, goQuote_clean s (h s hs)])
    rw [show EncodeValue (.vStrList xs) = .ok (91 :: (joinComma (xs.map goQuote) ++ [93])) from
      rfl, hm]
    rfl
  | vIntList xs =>
    have hm : xs.map renderInt = renderJList (xs.map (fun n : Int => JVal.jNum (n : Rat))) := by
      rw [renderJList_eq_map, List.map_map]
      exact List.map_congr_left (fun n _ => by
        rw [show (renderJ ∘ fun n : Int => JVal.jNum (n : Rat)) n = renderNum ((n : Rat)) from
          rfl, renderNum_intCast])
    rw [show EncodeValue (.vIntList xs) = .ok (91 :: (joinComma (xs.map renderInt) ++ [93])) from
      rfl, hm]
    rfl
  | vInt64List xs =>
    have hm : xs.map renderInt = renderJList (xs.map (fun n : Int => JVal.jNum (n : Rat))) := by
      rw [renderJList_eq_map, List.map_map]
      exact List.map_congr_left (fun n _ => by
        rw [show (renderJ ∘ fun n : Int => JVal.jNum (n : Rat)) n = renderNum ((n : Rat)) from
          rfl, renderNum_intCast])
    rw [show EncodeValue (.vInt64List xs) = .ok (91 :: (joinComma (xs.map renderInt) ++ [93]))
      from rfl, hm]
    rfl
  | vFloatList xs h =>
    have hm : xs.map renderNum = renderJList (xs.map JVal.jNum) := by
      rw [renderJList_eq_map, List.map_map]
      rfl
    rw [show EncodeValue (.vFloatList xs) = .ok (91 :: (joinComma (xs.map renderNum) ++ [93]))
      from rfl, hm]
    rfl
  | vMap es hnd hk hvs ih =>
    have he := encodeGoMapEntries_ok es hk ih
    rw [show EncodeValue (.vMap es) = (match encodeGoMapEntries es with
      | .error e => .error e
      | .ok chunks => .ok (123 :: (joinComma chunks ++ [125]))) from rfl, he]
    rfl
  | vArr xs h ih =>
    have he := encodeArrElems_ok xs ih
    rw [show EncodeValue (.vArr xs) = (match encodeArrElems xs with
      | .error e => .error e
      | .ok chunks => .ok (91 :: (joinComma chunks ++ [93]))) from rfl, he]
    rfl

/-! ### Factoring the struct fast marshalers through entry-list denotations -/

theorem keyHdr_chunk (key : String) (body : GoStr)
    (hk : (bytes key).flatMap escCustomKeyByte = bytes key) :
    keyHdr key ++ body = quoteCustomKey (bytes key) ++ (58 :: body) := by
  rw [show quoteCustomKey (bytes key) =
    34 :: ((bytes key).flatMap escCustomKeyByte ++ [34]) from rfl, hk, keyHdr]
  simp [List.append_assoc]

theorem condChunk (c : Prop) [Decidable c] (x : GoStr) (k : GoStr) (v : JVal)
    (hx : x = quoteCustomKey k ++ (58 :: renderJ v)) :
    (if c then [x] else []) = renderJEntries (if c then [(k, v)] else []) := by
  split_ifs
  · rw [hx]
    rfl
  · rfl

theorem sliceChunk (key : String) (vals : List GoStr) (hv : ∀ s ∈ vals, cleanStr s)
    (hk : (bytes key).flatMap escCustomKeyByte = bytes key) :
    keyHdr key ++ [91] ++ joinComma (vals.map quoteFast) ++ [93] =
      quoteCustomKey (bytes key) ++ (58 :: renderJ (.jArr (vals.map JVal.jStr))) := by
  have hm : vals.map quoteFast = renderJList (vals.map JVal.jStr) := by
    rw [renderJList_eq_map, List.map_map]
    exact List.map_congr_left (fun s hs => by
      rw [quoteFast_clean s (hv s hs)]
      rfl)
  rw [hm, List.append_assoc, List.append_assoc, keyHdr_chunk key _ hk]
  rfl

/-- The entry list `Alert.MarshalJSONFast` renders, in its emit order. -/
def alertEntriesFast (a : Alert) : List (GoStr × JVal) :=
  (if a.title ≠ [] then [(bytes "title", JVal.jStr a.title)] else []) ++
  (if a.subtitle ≠ [] then [(bytes "subtitle", JVal.jStr a.subtitle)] else []) ++
  (if a.body ≠ [] then [(bytes "body", JVal.jStr a.body)] else []) ++
  (if a.launchImage ≠ [] then [(bytes "launch-image", JVal.jStr a.launchImage)] else []) ++
  (if a.locKey ≠ [] then [(bytes "loc-key", JVal.jStr a.locKey)] else []) ++
  (if a.locArgs ≠ [] then [(bytes "loc-args", JVal.jArr (a.locArgs.map JVal.jStr))] else []) ++
  (if a.titleLocKey ≠ [] then [(bytes "title-loc-key", JVal.jStr a.titleLocKey)] else []) ++
  (if a.titleLocArgs ≠ [] then
    [(bytes "title-loc-args", JVal.jArr (a.titleLocArgs.map JVal.jStr))] else []) ++
  (if a.subtitleLocKey ≠ [] then [(bytes "subtitle-loc-key", JVal.jStr a.subtitleLocKey)]
    else []) ++
  (if a.subtitleLocArgs ≠ [] then
    [(bytes "subtitle-loc-args", JVal.jArr (a.subtitleLocArgs.map JVal.jStr))] else []) ++
  (if a.actionLocKey ≠ [] then [(bytes "action-loc-key", JVal.jStr a.actionLocKey)] else [])

/-- An alert whose strings are all printable ASCII. -/
def CleanAlert (a : Alert) : Prop :=
  cleanStr a.title ∧ cleanStr a.subtitle ∧ cleanStr a.body ∧ cleanStr a.launchImage ∧
  cleanStr a.locKey ∧ (∀ s ∈ a.locArgs, cleanStr s) ∧ cleanStr a.titleLocKey ∧
  (∀ s ∈ a.titleLocArgs, cleanStr s) ∧ cleanStr a.subtitleLocKey ∧
  (∀ s ∈ a.subtitleLocArgs, cleanStr s) ∧ cleanStr a.actionLocKey

theorem alert_fast_marshal (a : Alert) (h : CleanAlert a) :
    a.MarshalJSONFast = renderJ (.jObj (alertEntriesFast a)) := by
  obtain ⟨h1, h2, h3, h4, h5, h6, h7, h8, h9, h10, h11⟩ := h
  rw [show renderJ (.jObj (alertEntriesFast a)) =
    123 :: (joinComma (renderJEntries (alertEntriesFast a)) ++ [125]) from rfl]
  unfold Alert.MarshalJSONFast
  dsimp only
  refine congrArg (fun l => 123 :: (joinComma l ++ [125])) ?_
  unfold alertEntriesFast
  simp only [renderJEntries_append]
  rw [condChunk (a.title ≠ []) (keyHdr "title" ++ quoteFast a.title) (bytes "title")
      (JVal.jStr a.title) (by rw [keyHdr_chunk "title" _ (by decide),
      quoteFast_clean a.title h1]; try rfl),
    condChunk (a.subtitle ≠ []) (keyHdr "subtitle" ++ quoteFast a.subtitle) (bytes "subtitle")
      (JVal.jStr a.subtitle) (by rw [keyHdr_chunk "subtitle" _ (by decide),
      quoteFast_clean a.subtitle h2]; try rfl),
    condChunk (a.body ≠ []) (keyHdr "body" ++ quoteFast a.body) (bytes "body")
      (JVal.jStr a.body) (by rw [keyHdr_chunk "body" _ (by decide),
      quoteFast_clean a.body h3]; try rfl),
    condChunk (a.launchImage ≠ []) (keyHdr "launch-image" ++ quoteFast a.launchImage) (bytes "launch-image")
      (JVal.jStr a.launchImage) (by rw [keyHdr_chunk "launch-image" _ (by decide),
      quoteFast_clean a.launchImage h4]; try rfl),
    condChunk (a.locKey ≠ []) (keyHdr "loc-key" ++ quoteFast a.locKey) (bytes "loc-key")
      (JVal.jStr a.locKey) (by rw [keyHdr_chunk "loc-key" _ (by decide),
      quoteFast_clean a.locKey h5]; try rfl),
    condChunk (a.locArgs ≠ []) (keyHdr "loc-args" ++ [91] ++ joinComma (a.locArgs.map quoteFast) ++ [93])
      (bytes "loc-args") (JVal.jArr (a.locArgs.map JVal.jStr))
      (sliceChunk "loc-args" a.locArgs h6 (by decide)),
    condChunk (a.titleLocKey ≠ []) (keyHdr "title-loc-key" ++ quoteFast a.titleLocKey) (bytes "title-loc-key")
      (JVal.jStr a.titleLocKey) (by rw [keyHdr_chunk "title-loc-key" _ (by decide),
      quoteFast_clean a.titleLocKey h7]; try rfl),
    condChunk (a.titleLocArgs ≠ []) (keyHdr "title-loc-args" ++ [91] ++ joinComma (a.titleLocArgs.map quoteFast) ++ [93])
      (bytes "title-loc-args") (JVal.jArr (a.titleLocArgs.map JVal.jStr))
      (sliceChunk "title-loc-args" a.titleLocArgs h8 (by decide)),
    condChunk (a.subtitleLocKey ≠ []) (keyHdr "subtitle-loc-key" ++ quoteFast a.subtitleLocKey) (bytes "subtitle-loc-key")
      (JVal.jStr a.subtitleLocKey) (by rw [keyHdr_chunk "subtitle-loc-key" _ (by decide),
      quoteFast_clean a.subtitleLocKey h9]; try rfl),
    condChunk (a.subtitleLocArgs ≠ []) (keyHdr "subtitle-loc-args" ++ [91] ++ joinComma (a.subtitleLocArgs.map quoteFast) ++ [93])
      (bytes "subtitle-loc-args") (JVal.jArr (a.subtitleLocArgs.map JVal.jStr))
      (sliceChunk "subtitle-loc-args" a.subtitleLocArgs h10 (by decide)),
    condChunk (a.actionLocKey ≠ []) (keyHdr "action-loc-key" ++ quoteFast a.actionLocKey) (bytes "action-loc-key")
      (JVal.jStr a.actionLocKey) (by rw [keyHdr_chunk "action-loc-key" _ (by decide),
      quoteFast_clean a.actionLocKey h11]; try rfl)]

/-- The entry list `Sound.MarshalJSONFast` renders, in its emit order
(critical, name, volume). -/
def soundEntriesFast (s : Sound) : List (GoStr × JVal) :=
  (if s.critical ≠ 0 then [(bytes "critical", JVal.jNum (s.critical : Rat))] else []) ++
  (if s.name ≠ [] then [(bytes "name", JVal.jStr s.name)] else []) ++
  (if s.volume ≠ 0 then [(bytes "volume", JVal.jNum s.volume)] else [])

/-- A sound descriptor with a printable-ASCII name and a finite-decimal volume. -/
def CleanSound (s : Sound) : Prop := cleanStr s.name ∧ FiniteDec s.volume

theorem sound_fast_marshal (s : Sound) (h : CleanSound s) :
    s.MarshalJSONFast = renderJ (.jObj (soundEntriesFast s)) := by
  obtain ⟨h1, h2⟩ := h
  rw [show renderJ (.jObj (soundEntriesFast s)) =
    123 :: (joinComma (renderJEntries (soundEntriesFast s)) ++ [125]) from rfl]
  unfold Sound.MarshalJSONFast
  dsimp only
  refine congrArg (fun l => 123 :: (joinComma l ++ [125])) ?_
  unfold soundEntriesFast
  simp only [renderJEntries_append]
  rw [condChunk (s.critical ≠ 0) (keyHdr "critical" ++ renderInt s.critical)
      (bytes "critical") (JVal.jNum ((s.critical : Rat)))
      (by rw [keyHdr_chunk "critical" _ (by decide),
        show renderJ (JVal.jNum ((s.critical : Rat))) = renderNum ((s.critical : Rat)) from rfl,
        renderNum_intCast]; try rfl),
    condChunk (s.name ≠ []) (keyHdr "name" ++ quoteFast s.name) (bytes "name")
      (JVal.jStr s.name) (by rw [keyHdr_chunk "name" _ (by decide),
        quoteFast_clean s.name h1]; try rfl),
    condChunk (s.volume ≠ 0) (keyHdr "volume" ++ renderNum s.volume) (bytes "volume")
      (JVal.jNum s.volume) (by rw [keyHdr_chunk "volume" _ (by decide)]; try rfl)]

/-! ### The APS entry-list denotation -/

/-- The `alert` entry the fast marshaler renders (empty when absent). -/
def alertEntryFast (aps : APS) : List (GoStr × JVal) :=
  match aps.alert with
  | some (.vAlert a) => [(bytes "alert", .jObj (alertEntriesFast a))]
  | some (.vString s) => [(bytes "alert", JVal.jStr s)]
  | _ => []

def badgeEntryFast (aps : APS) : List (GoStr × JVal) :=
  match aps.badge with
  | some (.vInt n) => [(bytes "badge", JVal.jNum (n : Rat))]
  | _ => []

def soundEntryFast (aps : APS) : List (GoStr × JVal) :=
  match aps.sound with
  | some (.vSound s) => [(bytes "sound", .jObj (soundEntriesFast s))]
  | some (.vString s) => [(bytes "sound", JVal.jStr s)]
  | _ => []

def relevanceEntryFast (aps : APS) : List (GoStr × JVal) :=
  match aps.relevanceScore with
  | some (.vFloat q) => [(bytes "relevance-score", JVal.jNum q)]
  | _ => []

def mapEntryFast (name : String) (entries : List (GoStr × AnyVal)) : List (GoStr × JVal) :=
  if entries.isEmpty then [] else [(bytes name, .jObj (denoteEntries entries))]

/-- The entry list `APS.MarshalJSONFast` renders, in its emit order (which is
also the struct tag declaration order of `aps.go`). -/
def apsEntriesFast (aps : APS) : List (GoStr × JVal) :=
  alertEntryFast aps ++ badgeEntryFast aps ++ soundEntryFast aps ++
  (if aps.contentAvailable.isSome then [(bytes "content-available", JVal.jNum 1)] else []) ++
  (if aps.mutableContent.isSome then [(bytes "mutable-content", JVal.jNum 1)] else []) ++
  (if aps.category ≠ [] then [(bytes "category", JVal.jStr aps.category)] else []) ++
  (if aps.threadID ≠ [] then [(bytes "thread-id", JVal.jStr aps.threadID)] else []) ++
  (if aps.interruptionLevel ≠ [] then
    [(bytes "interruption-level", JVal.jStr aps.interruptionLevel)] else []) ++
  relevanceEntryFast aps ++
  (match aps.staleDate with
    | none => []
    | some t => [(bytes "stale-date", JVal.jNum (t : Rat))]) ++
  (if aps.filterCriteria ≠ [] then [(bytes "filter-criteria", JVal.jStr aps.filterCriteria)]
    else []) ++
  (match aps.timestamp with
    | none => []
    | some t => [(bytes "timestamp", JVal.jNum (t : Rat))]) ++
  (if aps.targetContentID ≠ [] then
    [(bytes "target-content-id", JVal.jStr aps.targetContentID)] else []) ++
  mapEntryFast "content-state" aps.contentState ++
  (if aps.event ≠ [] then [(bytes "event", JVal.jStr aps.event)] else []) ++
  (if aps.dismissalDate ≠ 0 then
    [(bytes "dismissal-date", JVal.jNum (aps.dismissalDate : Rat))] else []) ++
  (if aps.attributesType ≠ [] then [(bytes "attributes-type", JVal.jStr aps.attributesType)]
    else []) ++
  mapEntryFast "attributes" aps.attributes

/-- Admissible `alert` field shapes: absent, a clean string, or a clean alert. -/
def CleanAlertVal : Option AnyVal → Prop
  | none => True
  | some (.vString s) => cleanStr s
  | some (.vAlert a) => CleanAlert a
  | _ => False

/-- Admissible `badge` field shapes: absent or an int. -/
def CleanBadgeVal : Option AnyVal → Prop
  | none => True
  | some (.vInt _) => True
  | _ => False

/-- Admissible `sound` field shapes: absent, a clean string, or a clean sound. -/
def CleanSoundVal : Option AnyVal → Prop
  | none => True
  | some (.vString s) => cleanStr s
  | some (.vSound s) => CleanSound s
  | _ => False

/-- Admissible `content-available` / `mutable-content` shapes: absent or the
int 1 (the only value on which the fast literal-`1` emit and the reflective
encoder agree). -/
def CleanFlagVal : Option AnyVal → Prop
  | none => True
  | some (.vInt n) => n = 1
  | _ => False

/-- Admissible `relevance-score` shapes: absent or a finite-decimal float. -/
def CleanRelVal : Option AnyVal → Prop
  | none => True
  | some (.vFloat q) => FiniteDec q
  | _ => False

/-- A live-activity map with duplicate-free printable keys and clean values. -/
def CleanMap (es : List (GoStr × AnyVal)) : Prop :=
  (es.map Prod.fst).Nodup ∧ (∀ e ∈ es, cleanStr e.1) ∧ (∀ e ∈ es, CleanVal e.2)

/-- An `aps` dictionary on which the fast and reflective encoders agree. -/
def CleanAPS (aps : APS) : Prop :=
  CleanAlertVal aps.alert ∧ CleanBadgeVal aps.badge ∧ CleanSoundVal aps.sound ∧
  CleanFlagVal aps.contentAvailable ∧ CleanFlagVal aps.mutableContent ∧
  cleanStr aps.category ∧ cleanStr aps.threadID ∧ cleanStr aps.interruptionLevel ∧
  CleanRelVal aps.relevanceScore ∧ cleanStr aps.filterCriteria ∧
  cleanStr aps.targetContentID ∧ CleanMap aps.contentState ∧ cleanStr aps.event ∧
  cleanStr aps.attributesType ∧ CleanMap aps.attributes

theorem alertChunks_ok (aps : APS) (ha : CleanAlertVal aps.alert) :
    aps.alertChunks = .ok (renderJEntries (alertEntryFast aps)) := by
  rcases hae : aps.alert with _ | v
  · simp [APS.alertChunks, alertEntryFast, hae, renderJEntries]
  · rw [hae] at ha
    cases v
    case vString s =>
      simp only [APS.alertChunks, alertEntryFast, hae]
      rw [keyHdr_chunk "alert" _ (by decide), quoteFast_clean s ha]
      rfl
    case vAlert a =>
      simp only [APS.alertChunks, alertEntryFast, hae]
      rw [alert_fast_marshal a ha, keyHdr_chunk "alert" _ (by decide)]
      rfl
    all_goals exact ha.elim

theorem badgeChunks_ok (aps : APS) (hb : CleanBadgeVal aps.badge) :
    aps.badgeChunks = .ok (renderJEntries (badgeEntryFast aps)) := by
  rcases hae : aps.badge with _ | v
  · simp [APS.badgeChunks, badgeEntryFast, hae, renderJEntries]
  · rw [hae] at hb
    cases v
    case vInt n =>
      simp only [APS.badgeChunks, badgeEntryFast, hae]
      rw [keyHdr_chunk "badge" _ (by decide),
        show renderJEntries [(bytes "badge", JVal.jNum ((n : Rat)))] =
          [quoteCustomKey (bytes "badge") ++ (58 :: renderNum ((n : Rat)))] from rfl,
        renderNum_intCast]
    all_goals exact hb.elim

theorem soundChunks_ok (aps : APS) (hs : CleanSoundVal aps.sound) :
    aps.soundChunks = .ok (renderJEntries (soundEntryFast aps)) := by
  rcases hae : aps.sound with _ | v
  · simp [APS.soundChunks, soundEntryFast, hae, renderJEntries]
  · rw [hae] at hs
    cases v
    case vString s =>
      simp only [APS.soundChunks, soundEntryFast, hae]
      rw [keyHdr_chunk "sound" _ (by decide), quoteFast_clean s hs]
      rfl
    case vSound s =>
      simp only [APS.soundChunks, soundEntryFast, hae]
      rw [sound_fast_marshal s hs, keyHdr_chunk "sound" _ (by decide)]
      rfl
    all_goals exact hs.elim

theorem relevanceChunks_ok (aps : APS) (hr : CleanRelVal aps.relevanceScore) :
    aps.relevanceChunks = .ok (renderJEntries (relevanceEntryFast aps)) := by
  rcases hae : aps.relevanceScore with _ | v
  · simp [APS.relevanceChunks, relevanceEntryFast, hae, renderJEntries]
  · rw [hae] at hr
    cases v
    case vFloat q =>
      simp only [APS.relevanceChunks, relevanceEntryFast, hae]
      rw [keyHdr_chunk "relevance-score" _ (by decide)]
      rfl
    all_goals exact hr.elim

theorem mapFieldChunks_ok (name : String) (es : List (GoStr × AnyVal)) (h : CleanMap es)
    (hk : (bytes name).flatMap escCustomKeyByte = bytes name) :
    APS.mapFieldChunks name es = .ok (renderJEntries (mapEntryFast name es)) := by
  unfold APS.mapFieldChunks mapEntryFast
  split_ifs with hemp
  · rfl
  · rw [fastMapEntries_ok es h.2.1 (fun e he => EncodeValue_clean e.2 (h.2.2 e he))]
    dsimp only
    rw [keyHdr_chunk name _ hk]
    rfl

/-- `APS.MarshalJSONFast` on a clean dictionary succeeds with exactly the
rendering of its entry-list denotation. -/
theorem aps_fast_marshal (aps : APS) (h : CleanAPS aps) :
    aps.MarshalJSONFast = .ok (renderJ (.jObj (apsEntriesFast aps))) := by
  obtain ⟨ha, hb, hs, hca, hmc, hcat, hthr, hint, hrel, hfil, htgt, hcs, hevt, haty, hatt⟩ := h
  unfold APS.MarshalJSONFast
  rw [alertChunks_ok aps ha, badgeChunks_ok aps hb, soundChunks_ok aps hs,
    relevanceChunks_ok aps hrel, mapFieldChunks_ok "content-state" aps.contentState hcs
      (by decide), mapFieldChunks_ok "attributes" aps.attributes hatt (by decide)]
  dsimp only
  rw [show renderJ (.jObj (apsEntriesFast aps)) =
    123 :: (joinComma (renderJEntries (apsEntriesFast aps)) ++ [125]) from rfl]
  refine congrArg (fun l => Except.ok (123 :: (joinComma l ++ [125]))) ?_
  unfold apsEntriesFast
  simp only [renderJEntries_append]
  rw [condChunk aps.contentAvailable.isSome (keyHdr "content-available" ++ [49])
      (bytes "content-available") (JVal.jNum 1)
      (by rw [keyHdr_chunk "content-available" _ (by decide)]; try rfl),
    condChunk aps.mutableContent.isSome (keyHdr "mutable-content" ++ [49])
      (bytes "mutable-content") (JVal.jNum 1)
      (by rw [keyHdr_chunk "mutable-content" _ (by decide)]; try rfl),
    condChunk (aps.category ≠ []) (keyHdr "category" ++ quoteFast aps.category)
      (bytes "category") (JVal.jStr aps.category)
      (by rw [keyHdr_chunk "category" _ (by decide), quoteFast_clean aps.category hcat]; try rfl),
    condChunk (aps.threadID ≠ []) (keyHdr "thread-id" ++ quoteFast aps.threadID)
      (bytes "thread-id") (JVal.jStr aps.threadID)
      (by rw [keyHdr_chunk "thread-id" _ (by decide), quoteFast_clean aps.threadID hthr]; try rfl),
    condChunk (aps.interruptionLevel ≠ [])
      (keyHdr "interruption-level" ++ quoteFast aps.interruptionLevel)
      (bytes "interruption-level") (JVal.jStr aps.interruptionLevel)
      (by rw [keyHdr_chunk "interruption-level" _ (by decide), quoteFast_clean aps.interruptionLevel hint]; try rfl),
    condChunk (aps.filterCriteria ≠ [])
      (keyHdr "filter-criteria" ++ quoteFast aps.filterCriteria)
      (bytes "filter-criteria") (JVal.jStr aps.filterCriteria)
      (by rw [keyHdr_chunk "filter-criteria" _ (by decide), quoteFast_clean aps.filterCriteria hfil]; try rfl),
    condChunk (aps.targetContentID ≠ [])
      (keyHdr "target-content-id" ++ quoteFast aps.targetContentID)
      (bytes "target-content-id") (JVal.jStr aps.targetContentID)
      (by rw [keyHdr_chunk "target-content-id" _ (by decide), quoteFast_clean aps.targetContentID htgt]; try rfl),
    condChunk (aps.event ≠ []) (keyHdr "event" ++ quoteFast aps.event)
      (bytes "event") (JVal.jStr aps.event)
      (by rw [keyHdr_chunk "event" _ (by decide), quoteFast_clean aps.event hevt]; try rfl),
    condChunk (aps.dismissalDate ≠ 0)
      (keyHdr "dismissal-date" ++ renderInt aps.dismissalDate)
      (bytes "dismissal-date") (JVal.jNum ((aps.dismissalDate : Rat)))
      (by rw [keyHdr_chunk "dismissal-date" _ (by decide), show renderJ (JVal.jNum ((aps.dismissalDate : Rat))) = renderNum ((aps.dismissalDate : Rat)) from rfl, renderNum_intCast]; try rfl),
    condChunk (aps.attributesType ≠ [])
      (keyHdr "attributes-type" ++ quoteFast aps.attributesType)
      (bytes "attributes-type") (JVal.jStr aps.attributesType)
      (by rw [keyHdr_chunk "attributes-type" _ (by decide), quoteFast_clean aps.attributesType haty]; try rfl)]
  rw [show (match aps.staleDate with
      | none => ([] : List GoStr)
      | some t => [keyHdr "stale-date" ++ renderInt t]) =
    renderJEntries (match aps.staleDate with
      | none => []
      | some t => [(bytes "stale-date", JVal.jNum (t : Rat))]) from by
    cases aps.staleDate with
    | none => rfl
    | some t =>
      show [keyHdr "stale-date" ++ renderInt t] =
        renderJEntries [(bytes "stale-date", JVal.jNum (t : Rat))]
      rw [keyHdr_chunk "stale-date" _ (by decide),
        show renderJEntries [(bytes "stale-date", JVal.jNum ((t : Rat)))] =
          [quoteCustomKey (bytes "stale-date") ++ (58 :: renderNum ((t : Rat)))] from rfl,
        renderNum_intCast]]
  rw [show (match aps.timestamp with
      | none => ([] : List GoStr)
      | some t => [keyHdr "timestamp" ++ renderInt t]) =
    renderJEntries (match aps.timestamp with
      | none => []
      | some t => [(bytes "timestamp", JVal.jNum (t : Rat))]) from by
    cases aps.timestamp with
    | none => rfl
    | some t =>
      show [keyHdr "timestamp" ++ renderInt t] =
        renderJEntries [(bytes "timestamp", JVal.jNum (t : Rat))]
      rw [keyHdr_chunk "timestamp" _ (by decide),
        show renderJEntries [(bytes "timestamp", JVal.jNum ((t : Rat)))] =
          [quoteCustomKey (bytes "timestamp") ++ (58 :: renderNum ((t : Rat)))] from rfl,
        renderNum_intCast]]

/-! ### The payload entry-list denotation -/

/-- The entry list `Payload.MarshalJSONFast` renders: the `aps` entry first,
then the custom entries in map order. -/
def payloadEntriesFast (p : Payload) : List (GoStr × JVal) :=
  (bytes "aps", .jObj (apsEntriesFast p.aps)) :: denoteEntries p.customData

/-- A payload on which the fast and reflective encoders agree: a clean `aps`
dictionary and clean custom data whose keys are duplicate-free, printable, and
distinct from the reserved key `aps`. -/
def CleanPayload (p : Payload) : Prop :=
  CleanAPS p.aps ∧ (p.customData.map Prod.fst).Nodup ∧
  (∀ e ∈ p.customData, cleanStr e.1) ∧ (∀ e ∈ p.customData, CleanVal e.2) ∧
  (∀ e ∈ p.customData, e.1 ≠ bytes "aps")

/-- `Payload.MarshalJSONFast` on a clean payload succeeds with exactly the
rendering of its entry-list denotation. -/
theorem payload_fast_marshal (p : Payload) (h : CleanPayload p) :
    p.MarshalJSONFast = .ok (renderJ (.jObj (payloadEntriesFast p))) := by
  obtain ⟨haps, hnd, hks, hvs, hne⟩ := h
  unfold Payload.MarshalJSONFast
  rw [aps_fast_marshal p.aps haps]
  dsimp only
  by_cases hemp : p.customData.isEmpty
  · rw [if_pos hemp]
    have hcd : p.customData = [] := List.isEmpty_iff.mp hemp
    rw [show renderJ (.jObj (payloadEntriesFast p)) =
      123 :: (joinComma (renderJEntries (payloadEntriesFast p)) ++ [125]) from rfl]
    unfold payloadEntriesFast
    rw [hcd]
    rw [show joinComma (renderJEntries ((bytes "aps", JVal.jObj (apsEntriesFast p.aps)) ::
        denoteEntries [])) =
      quoteCustomKey (bytes "aps") ++ (58 :: renderJ (.jObj (apsEntriesFast p.aps))) from by
        simp [renderJEntries, denoteEntries, joinComma]]
    rw [← keyHdr_chunk "aps" _ (by decide)]
    try simp [List.append_assoc]
  · rw [if_neg hemp]
    rw [marshalCustomData_ok p.customData (fun e he => EncodeValue_clean e.2 (hvs e he))]
    dsimp only
    have hnenil : renderJEntries (denoteEntries p.customData) ≠ [] := by
      have h0 : p.customData ≠ [] := by
        intro hx
        rw [hx] at hemp
        exact hemp rfl
      cases hcd2 : p.customData with
      | nil => exact absurd hcd2 h0
      | cons e es =>
        obtain ⟨k, v⟩ := e
        simp [denoteEntries, renderJEntries]
    rw [show renderJ (.jObj (payloadEntriesFast p)) =
      123 :: (joinComma (renderJEntries (payloadEntriesFast p)) ++ [125]) from rfl]
    rw [show renderJEntries (payloadEntriesFast p) =
      (quoteCustomKey (bytes "aps") ++ (58 :: renderJ (.jObj (apsEntriesFast p.aps)))) ::
        renderJEntries (denoteEntries p.customData) from rfl]
    rw [show joinComma ((quoteCustomKey (bytes "aps") ++
        (58 :: renderJ (.jObj (apsEntriesFast p.aps)))) ::
        renderJEntries (denoteEntries p.customData)) =
      (quoteCustomKey (bytes "aps") ++ (58 :: renderJ (.jObj (apsEntriesFast p.aps)))) ++
        (renderJEntries (denoteEntries p.customData)).flatMap (fun ch => 44 :: ch) from rfl]
    rw [flatMapComma _ hnenil, ← keyHdr_chunk "aps" _ (by decide)]
    simp [List.append_assoc]

/-! ### Cleanliness of the denoted entry lists -/

instance cleanStrDec (s : GoStr) : Decidable (cleanStr s) :=
  inferInstanceAs (Decidable (∀ c ∈ s, 32 ≤ c ∧ c ≤ 126))

theorem mem_condSingleton {α : Type} {e x : α} {c : Prop} [Decidable c]
    (he : e ∈ (if c then [x] else [])) : e = x := by
  split_ifs at he
  · simpa using he
  · simp at he

theorem optCases {α : Type} (o : Option α) : o = none ∨ ∃ a, o = some a := by
  cases o with
  | none => exact Or.inl rfl
  | some a => exact Or.inr ⟨a, rfl⟩

theorem entryClean {k : GoStr} {v : JVal} (hk : cleanStr k) (hv : CleanJ v) :
    cleanStr (k, v).1 ∧ CleanJ (k, v).2 := ⟨hk, hv⟩

/-! ### Distinctness of the static struct keys -/

theorem condSingleton_fst_sublist {β : Type} (c : Prop) [Decidable c] (k : GoStr) (v : β) :
    (((if c then [(k, v)] else []) : List (GoStr × β)).map Prod.fst).Sublist [k] := by
  split_ifs <;> simp

set_option maxHeartbeats 2000000 in
theorem alertEntriesFast_keys_nodup (a : Alert) :
    ((alertEntriesFast a).map Prod.fst).Nodup := by
  have hsub : ((alertEntriesFast a).map Prod.fst).Sublist
      [bytes "title", bytes "subtitle", bytes "body", bytes "launch-image", bytes "loc-key",
        bytes "loc-args", bytes "title-loc-key", bytes "title-loc-args",
        bytes "subtitle-loc-key", bytes "subtitle-loc-args", bytes "action-loc-key"] := by
    unfold alertEntriesFast
    simp only [List.map_append]
    exact List.Sublist.append (List.Sublist.append (List.Sublist.append (List.Sublist.append
      (List.Sublist.append (List.Sublist.append (List.Sublist.append (List.Sublist.append
      (List.Sublist.append (List.Sublist.append (condSingleton_fst_sublist _ _ _)
      (condSingleton_fst_sublist _ _ _)) (condSingleton_fst_sublist _ _ _))
      (condSingleton_fst_sublist _ _ _)) (condSingleton_fst_sublist _ _ _))
      (condSingleton_fst_sublist _ _ _)) (condSingleton_fst_sublist _ _ _))
      (condSingleton_fst_sublist _ _ _)) (condSingleton_fst_sublist _ _ _))
      (condSingleton_fst_sublist _ _ _)) (condSingleton_fst_sublist _ _ _)
  exact (by decide : ([bytes "title", bytes "subtitle", bytes "body", bytes "launch-image",
    bytes "loc-key", bytes "loc-args", bytes "title-loc-key", bytes "title-loc-args",
    bytes "subtitle-loc-key", bytes "subtitle-loc-args",
    bytes "action-loc-key"] : List GoStr).Nodup).sublist hsub

set_option maxHeartbeats 2000000 in
theorem soundEntriesFast_keys_nodup (s : Sound) :
    ((soundEntriesFast s).map Prod.fst).Nodup := by
  have hsub : ((soundEntriesFast s).map Prod.fst).Sublist
      [bytes "critical", bytes "name", bytes "volume"] := by
    unfold soundEntriesFast
    simp only [List.map_append]
    exact List.Sublist.append (List.Sublist.append (condSingleton_fst_sublist _ _ _)
      (condSingleton_fst_sublist _ _ _)) (condSingleton_fst_sublist _ _ _)
  exact (by decide : ([bytes "critical", bytes "name", bytes "volume"] :
    List GoStr).Nodup).sublist hsub

theorem alertEntryFast_fst_sublist (aps : APS) :
    ((alertEntryFast aps).map Prod.fst).Sublist [bytes "alert"] := by
  unfold alertEntryFast
  rcases optCases aps.alert with hae | ⟨v, hae⟩ <;> rw [hae]
  · simp
  · cases v <;> simp

theorem badgeEntryFast_fst_sublist (aps : APS) :
    ((badgeEntryFast aps).map Prod.fst).Sublist [bytes "badge"] := by
  unfold badgeEntryFast
  rcases optCases aps.badge with hae | ⟨v, hae⟩ <;> rw [hae]
  · simp
  · cases v <;> simp

theorem soundEntryFast_fst_sublist (aps : APS) :
    ((soundEntryFast aps).map Prod.fst).Sublist [bytes "sound"] := by
  unfold soundEntryFast
  rcases optCases aps.sound with hae | ⟨v, hae⟩ <;> rw [hae]
  · simp
  · cases v <;> simp

theorem relevanceEntryFast_fst_sublist (aps : APS) :
    ((relevanceEntryFast aps).map Prod.fst).Sublist [bytes "relevance-score"] := by
  unfold relevanceEntryFast
  rcases optCases aps.relevanceScore with hae | ⟨v, hae⟩ <;> rw [hae]
  · simp
  · cases v <;> simp

theorem mapEntryFast_fst_sublist (name : String) (es : List (GoStr × AnyVal)) :
    ((mapEntryFast name es).map Prod.fst).Sublist [bytes name] := by
  unfold mapEntryFast
  split_ifs <;> simp

theorem optEntryFast_fst_sublist {α : Type} (o : Option α) (k : GoStr) (g : α → JVal) :
    (((match o with
      | none => []
      | some t => [(k, g t)]) : List (GoStr × JVal)).map Prod.fst).Sublist [k] := by
  cases o <;> simp

set_option maxHeartbeats 2000000 in
theorem apsEntriesFast_keys_nodup (aps : APS) :
    ((apsEntriesFast aps).map Prod.fst).Nodup := by
  have hsub : ((apsEntriesFast aps).map Prod.fst).Sublist
      [bytes "alert", bytes "badge", bytes "sound", bytes "content-available",
        bytes "mutable-content", bytes "category", bytes "thread-id",
        bytes "interruption-level", bytes "relevance-score", bytes "stale-date",
        bytes "filter-criteria", bytes "timestamp", bytes "target-content-id",
        bytes "content-state", bytes "event", bytes "dismissal-date",
        bytes "attributes-type", bytes "attributes"] := by
    unfold apsEntriesFast
    simp only [List.map_append]
    show List.Sublist _ ([bytes "alert"] ++ [bytes "badge"] ++ [bytes "sound"] ++
      [bytes "content-available"] ++ [bytes "mutable-content"] ++ [bytes "category"] ++
      [bytes "thread-id"] ++ [bytes "interruption-level"] ++ [bytes "relevance-score"] ++
      [bytes "stale-date"] ++ [bytes "filter-criteria"] ++ [bytes "timestamp"] ++
      [bytes "target-content-id"] ++ [bytes "content-state"] ++ [bytes "event"] ++
      [bytes "dismissal-date"] ++ [bytes "attributes-type"] ++ [bytes "attributes"])
    refine List.Sublist.append (List.Sublist.append (List.Sublist.append (List.Sublist.append
      (List.Sublist.append (List.Sublist.append (List.Sublist.append (List.Sublist.append
      (List.Sublist.append (List.Sublist.append (List.Sublist.append (List.Sublist.append
      (List.Sublist.append (List.Sublist.append (List.Sublist.append (List.Sublist.append
      (List.Sublist.append ?_ ?_) ?_) ?_) ?_) ?_) ?_) ?_) ?_) ?_) ?_) ?_) ?_) ?_) ?_) ?_)
      ?_) ?_
    · exact alertEntryFast_fst_sublist aps
    · exact badgeEntryFast_fst_sublist aps
    · exact soundEntryFast_fst_sublist aps
    · exact condSingleton_fst_sublist _ _ _
    · exact condSingleton_fst_sublist _ _ _
    · exact condSingleton_fst_sublist _ _ _
    · exact condSingleton_fst_sublist _ _ _
    · exact condSingleton_fst_sublist _ _ _
    · exact relevanceEntryFast_fst_sublist aps
    · cases aps.staleDate <;> simp
    · exact condSingleton_fst_sublist _ _ _
    · cases aps.timestamp <;> simp
    · exact condSingleton_fst_sublist _ _ _
    · exact mapEntryFast_fst_sublist _ _
    · exact condSingleton_fst_sublist _ _ _
    · exact condSingleton_fst_sublist _ _ _
    · exact condSingleton_fst_sublist _ _ _
    · exact mapEntryFast_fst_sublist _ _
  exact (by decide : ([bytes "alert", bytes "badge", bytes "sound", bytes "content-available",
    bytes "mutable-content", bytes "category", bytes "thread-id", bytes "interruption-level",
    bytes "relevance-score", bytes "stale-date", bytes "filter-criteria", bytes "timestamp",
    bytes "target-content-id", bytes "content-state", bytes "event", bytes "dismissal-date",
    bytes "attributes-type", bytes "attributes"] : List GoStr).Nodup).sublist hsub

theorem denoteEntries_fst (es : List (GoStr × AnyVal)) :
    (denoteEntries es).map Prod.fst = es.map Prod.fst := by
  rw [denoteEntries_eq_map, List.map_map]
  exact List.map_congr_left (fun e _ => rfl)

theorem cleanJ_strList (xs : List GoStr) (h : ∀ s ∈ xs, cleanStr s) :
    CleanJ (.jArr (xs.map JVal.jStr)) := by
  refine CleanJ.jArr _ ?_
  intro w hw
  obtain ⟨s, hs, rfl⟩ := List.mem_map.mp hw
  exact CleanJ.jStr s (h s hs)

theorem cleanJ_alertEntries (a : Alert) (h : CleanAlert a) :
    ∀ e ∈ alertEntriesFast a, cleanStr e.1 ∧ CleanJ e.2 := by
  obtain ⟨h1, h2, h3, h4, h5, h6, h7, h8, h9, h10, h11⟩ := h
  intro e he
  unfold alertEntriesFast at he
  simp only [List.mem_append] at he
  rcases he with ((((((((((he | he) | he) | he) | he) | he) | he) | he) | he) | he) | he) <;>
    obtain rfl := mem_condSingleton he
  · exact entryClean (by decide) (CleanJ.jStr _ h1)
  · exact entryClean (by decide) (CleanJ.jStr _ h2)
  · exact entryClean (by decide) (CleanJ.jStr _ h3)
  · exact entryClean (by decide) (CleanJ.jStr _ h4)
  · exact entryClean (by decide) (CleanJ.jStr _ h5)
  · exact entryClean (by decide) (cleanJ_strList _ h6)
  · exact entryClean (by decide) (CleanJ.jStr _ h7)
  · exact entryClean (by decide) (cleanJ_strList _ h8)
  · exact entryClean (by decide) (CleanJ.jStr _ h9)
  · exact entryClean (by decide) (cleanJ_strList _ h10)
  · exact entryClean (by decide) (CleanJ.jStr _ h11)

theorem cleanJ_soundEntries (s : Sound) (h : CleanSound s) :
    ∀ e ∈ soundEntriesFast s, cleanStr e.1 ∧ CleanJ e.2 := by
  obtain ⟨h1, h2⟩ := h
  intro e he
  unfold soundEntriesFast at he
  simp only [List.mem_append] at he
  rcases he with (he | he) | he <;> obtain rfl := mem_condSingleton he
  · exact entryClean (by decide) (CleanJ.jNum _ (FiniteDec_intCast s.critical))
  · exact entryClean (by decide) (CleanJ.jStr _ h1)
  · exact entryClean (by decide) (CleanJ.jNum _ h2)

theorem cleanJ_mapEntries (es : List (GoStr × AnyVal)) (h : CleanMap es) :
    CleanJ (.jObj (denoteEntries es)) := by
  rw [denoteEntries_eq_map]
  refine CleanJ.jObj _ ?_ ?_ ?_
  · rw [List.map_map]
    exact (List.map_congr_left (fun e _ => rfl)).symm ▸ h.1
  · intro e he
    obtain ⟨e2, he2, rfl⟩ := List.mem_map.mp he
    exact h.2.1 e2 he2
  · intro e he
    obtain ⟨e2, he2, rfl⟩ := List.mem_map.mp he
    exact cleanJ_denote e2.2 (h.2.2 e2 he2)

theorem FiniteDec_one : FiniteDec 1 := by
  unfold FiniteDec
  rw [show (1 : Rat).den = 1 from rfl, decExp_one]
  rfl

theorem cleanJ_apsEntries (aps : APS) (h : CleanAPS aps) :
    ∀ e ∈ apsEntriesFast aps, cleanStr e.1 ∧ CleanJ e.2 := by
  obtain ⟨ha, hb, hs, hca, hmc, hcat, hthr, hint, hrel, hfil, htgt, hcs, hevt, haty, hatt⟩ := h
  intro e he
  unfold apsEntriesFast at he
  simp only [List.mem_append] at he
  rcases he with ((((((((((((((((he | he) | he) | he) | he) | he) | he) | he) | he) | he) | he)
    | he) | he) | he) | he) | he) | he) | he
  · unfold alertEntryFast at he
    rcases optCases aps.alert with hae | ⟨v, hae⟩
    · rw [hae] at he
      simp at he
    · rw [hae] at he ha
      cases v
      case vString s2 =>
        rw [show (match some (AnyVal.vString s2) with
          | some (.vAlert a) => [(bytes "alert", JVal.jObj (alertEntriesFast a))]
          | some (.vString s) => [(bytes "alert", JVal.jStr s)]
          | _ => ([] : List (GoStr × JVal))) = [(bytes "alert", JVal.jStr s2)] from rfl,
          List.mem_singleton] at he
        obtain rfl := he
        exact entryClean (by decide) (CleanJ.jStr _ ha)
      case vAlert a =>
        rw [show (match some (AnyVal.vAlert a) with
          | some (.vAlert a) => [(bytes "alert", JVal.jObj (alertEntriesFast a))]
          | some (.vString s) => [(bytes "alert", JVal.jStr s)]
          | _ => ([] : List (GoStr × JVal))) = [(bytes "alert", JVal.jObj (alertEntriesFast a))]
          from rfl, List.mem_singleton] at he
        obtain rfl := he
        refine entryClean (by decide) (CleanJ.jObj _ (alertEntriesFast_keys_nodup a) ?_ ?_)
        · exact fun x hx => (cleanJ_alertEntries a ha x hx).1
        · exact fun x hx => (cleanJ_alertEntries a ha x hx).2
      all_goals first
        | exact ha.elim
        | (simp at he)
  · unfold badgeEntryFast at he
    rcases optCases aps.badge with hae | ⟨v, hae⟩
    · rw [hae] at he
      simp at he
    · rw [hae] at he hb
      cases v
      case vInt n =>
        rw [show (match some (AnyVal.vInt n) with
          | some (.vInt n) => [(bytes "badge", JVal.jNum (n : Rat))]
          | _ => ([] : List (GoStr × JVal))) = [(bytes "badge", JVal.jNum (n : Rat))] from rfl,
          List.mem_singleton] at he
        obtain rfl := he
        exact entryClean (by decide) (CleanJ.jNum _ (FiniteDec_intCast n))
      all_goals first
        | exact hb.elim
        | (simp at he)
  · unfold soundEntryFast at he
    rcases optCases aps.sound with hae | ⟨v, hae⟩
    · rw [hae] at he
      simp at he
    · rw [hae] at he hs
      cases v
      case vString s2 =>
        rw [show (match some (AnyVal.vString s2) with
          | some (.vSound s) => [(bytes "sound", JVal.jObj (soundEntriesFast s))]
          | some (.vString s) => [(bytes "sound", JVal.jStr s)]
          | _ => ([] : List (GoStr × JVal))) = [(bytes "sound", JVal.jStr s2)] from rfl,
          List.mem_singleton] at he
        obtain rfl := he
        exact entryClean (by decide) (CleanJ.jStr _ hs)
      case vSound s2 =>
        rw [show (match some (AnyVal.vSound s2) with
          | some (.vSound s) => [(bytes "sound", JVal.jObj (soundEntriesFast s))]
          | some (.vString s) => [(bytes "sound", JVal.jStr s)]
          | _ => ([] : List (GoStr × JVal))) = [(bytes "sound", JVal.jObj (soundEntriesFast s2))]
          from rfl, List.mem_singleton] at he
        obtain rfl := he
        refine entryClean (by decide) (CleanJ.jObj _ (soundEntriesFast_keys_nodup s2) ?_ ?_)
        · exact fun x hx => (cleanJ_soundEntries s2 hs x hx).1
        · exact fun x hx => (cleanJ_soundEntries s2 hs x hx).2
      all_goals first
        | exact hs.elim
        | (simp at he)
  · obtain rfl := mem_condSingleton he
    exact entryClean (by decide) (CleanJ.jNum _ FiniteDec_one)
  · obtain rfl := mem_condSingleton he
    exact entryClean (by decide) (CleanJ.jNum _ FiniteDec_one)
  · obtain rfl := mem_condSingleton he
    exact entryClean (by decide) (CleanJ.jStr _ hcat)
  · obtain rfl := mem_condSingleton he
    exact entryClean (by decide) (CleanJ.jStr _ hthr)
  · obtain rfl := mem_condSingleton he
    exact entryClean (by decide) (CleanJ.jStr _ hint)
  · unfold relevanceEntryFast at he
    rcases optCases aps.relevanceScore with hae | ⟨v, hae⟩
    · rw [hae] at he
      simp at he
    · rw [hae] at he hrel
      cases v
      case vFloat q =>
        rw [show (match some (AnyVal.vFloat q) with
          | some (.vFloat q) => [(bytes "relevance-score", JVal.jNum q)]
          | _ => ([] : List (GoStr × JVal))) = [(bytes "relevance-score", JVal.jNum q)] from
          rfl, List.mem_singleton] at he
        obtain rfl := he
        exact entryClean (by decide) (CleanJ.jNum _ hrel)
      all_goals first
        | exact hrel.elim
        | (simp at he)
  · rcases optCases aps.staleDate with hae | ⟨t, hae⟩
    · rw [hae] at he
      simp at he
    · rw [hae] at he
      rw [show (match some t with
        | none => ([] : List (GoStr × JVal))
        | some t => [(bytes "stale-date", JVal.jNum (t : Rat))]) =
        [(bytes "stale-date", JVal.jNum (t : Rat))] from rfl, List.mem_singleton] at he
      obtain rfl := he
      exact entryClean (by decide) (CleanJ.jNum _ (FiniteDec_intCast t))
  · obtain rfl := mem_condSingleton he
    exact entryClean (by decide) (CleanJ.jStr _ hfil)
  · rcases optCases aps.timestamp with hae | ⟨t, hae⟩
    · rw [hae] at he
      simp at he
    · rw [hae] at he
      rw [show (match some t with
        | none => ([] : List (GoStr × JVal))
        | some t => [(bytes "timestamp", JVal.jNum (t : Rat))]) =
        [(bytes "timestamp", JVal.jNum (t : Rat))] from rfl, List.mem_singleton] at he
      obtain rfl := he
      exact entryClean (by decide) (CleanJ.jNum _ (FiniteDec_intCast t))
  · obtain rfl := mem_condSingleton he
    exact entryClean (by decide) (CleanJ.jStr _ htgt)
  · unfold mapEntryFast at he
    split_ifs at he with hemp
    · simp at he
    · rw [List.mem_singleton] at he
      obtain rfl := he
      exact entryClean (by decide) (cleanJ_mapEntries _ hcs)
  · obtain rfl := mem_condSingleton he
    exact entryClean (by decide) (CleanJ.jStr _ hevt)
  · obtain rfl := mem_condSingleton he
    exact entryClean (by decide) (CleanJ.jNum _ (FiniteDec_intCast aps.dismissalDate))
  · obtain rfl := mem_condSingleton he
    exact entryClean (by decide) (CleanJ.jStr _ haty)
  · unfold mapEntryFast at he
    split_ifs at he with hemp
    · simp at he
    · rw [List.mem_singleton] at he
      obtain rfl := he
      exact entryClean (by decide) (cleanJ_mapEntries _ hatt)

/-- The fast payload denotation is a clean JSON value. -/
theorem cleanJ_payloadEntries (p : Payload) (h : CleanPayload p) :
    CleanJ (.jObj (payloadEntriesFast p)) := by
  obtain ⟨haps, hnd, hks, hvs, hne⟩ := h
  unfold payloadEntriesFast
  refine CleanJ.jObj _ ?_ ?_ ?_
  · rw [List.map_cons, denoteEntries_fst]
    refine List.nodup_cons.mpr ⟨?_, hnd⟩
    intro hmem
    obtain ⟨e2, he2, heq⟩ := List.mem_map.mp hmem
    exact hne e2 he2 heq
  · intro e he
    rcases List.mem_cons.mp he with rfl | he2
    · exact (by decide : cleanStr (bytes "aps"))
    · rw [denoteEntries_eq_map] at he2
      obtain ⟨e2, he3, rfl⟩ := List.mem_map.mp he2
      exact hks e2 he3
  · intro e he
    rcases List.mem_cons.mp he with rfl | he2
    · refine CleanJ.jObj _ (apsEntriesFast_keys_nodup p.aps) ?_ ?_
      · exact fun x hx => (cleanJ_apsEntries p.aps haps x hx).1
      · exact fun x hx => (cleanJ_apsEntries p.aps haps x hx).2
    · rw [denoteEntries_eq_map] at he2
      obtain ⟨e2, he3, rfl⟩ := List.mem_map.mp he2
      exact cleanJ_denote e2.2 (hvs e2 he3)

/-! ### The reflective (encoding/json) encoder, modelled at the JSON-value
level -/

/-- Modelled from the spec: standard base64 (RFC 4648) alphabet, which
`encoding/json` uses to marshal `[]byte` values. -/
def b64char (n : Nat) : Nat :=
  (bytes "ABCDEFGHIJKLMNOPQRSTUVWXYZabcdefghijklmnopqrstuvwxyz0123456789+/").getD n 0

/-- Modelled from the spec: standard base64 encoding with padding. -/
def base64 : GoStr → GoStr
  | [] => []
  | [a] => [b64char (a / 4), b64char (a % 4 * 16), 61, 61]
  | [a, b] => [b64char (a / 4), b64char (a % 4 * 16 + b / 16), b64char (b % 16 * 4), 61]
  | a :: b :: c2 :: rest =>
    [b64char (a / 4), b64char (a % 4 * 16 + b / 16), b64char (b % 16 * 4 + c2 / 64),
      b64char (c2 % 64)] ++ base64 rest

mutual
/-- Modelled from the spec: the JSON value `encoding/json` produces for a
supported dynamic value.  It agrees with `denoteValue` except on byte slices,
which marshal as base64 strings.  Self-serializing values (whose spliced
output is outside this structural model) and the runtime types the supported
domains exclude map to `jNull`; no theorem applies this function to them. -/
def stdDenoteValue : AnyVal → JVal
  | .vString s => .jStr s
  | .vInt n => .jNum (n : Rat)
  | .vInt64 n => .jNum (n : Rat)
  | .vFloat q => .jNum q
  | .vBool b => .jBool b
  | .vNull => .jNull
  | .vBytes bs => .jStr (base64 bs)
  | .vEpochTime t => .jNum (t : Rat)
  | .vStrList xs => .jArr (xs.map JVal.jStr)
  | .vIntList xs => .jArr (xs.map (fun n : Int => JVal.jNum (n : Rat)))
  | .vInt64List xs => .jArr (xs.map (fun n : Int => JVal.jNum (n : Rat)))
  | .vFloatList xs => .jArr (xs.map JVal.jNum)
  | .vMarshaler _ => .jNull
  | .vMap entries => .jObj (stdDenoteEntries entries)
  | .vArr xs => .jArr (stdDenoteElems xs)
  | .vAlert _ => .jNull
  | .vSound _ => .jNull
  | .vOther => .jNull

def stdDenoteEntries : List (GoStr × AnyVal) → List (GoStr × JVal)
  | [] => []
  | (k, v) :: es => (k, stdDenoteValue v) :: stdDenoteEntries es

def stdDenoteElems : List AnyVal → List JVal
  | [] => []
  | v :: vs => stdDenoteValue v :: stdDenoteElems vs
end

theorem stdDenoteEntries_eq_map (es : List (GoStr × AnyVal)) :
    stdDenoteEntries es = es.map (fun e => (e.1, stdDenoteValue e.2)) := by
  induction es with
  | nil => rfl
  | cons e es ih =>
    cases e
    simp [stdDenoteEntries, ih]

theorem stdDenoteElems_eq_map (xs : List AnyVal) : stdDenoteElems xs = xs.map stdDenoteValue := by
  induction xs with
  | nil => rfl
  | cons v vs ih => simp [stdDenoteElems, ih]

/-- On clean values (no byte slices) the two denotations coincide. -/
theorem stdDenote_eq_denote (v : AnyVal) (hv : CleanVal v) :
    stdDenoteValue v = denoteValue v := by
  induction hv with
  | vMap es hnd hk hvs ih =>
    rw [show stdDenoteValue (.vMap es) = .jObj (stdDenoteEntries es) from rfl,
      show denoteValue (.vMap es) = .jObj (denoteEntries es) from rfl,
      stdDenoteEntries_eq_map, denoteEntries_eq_map]
    exact congrArg JVal.jObj (List.map_congr_left (fun e he => by rw [ih e he]))
  | vArr xs h ih =>
    rw [show stdDenoteValue (.vArr xs) = .jArr (stdDenoteElems xs) from rfl,
      show denoteValue (.vArr xs) = .jArr (denoteElems xs) from rfl,
      stdDenoteElems_eq_map, denoteElems_eq_map]
    exact congrArg JVal.jArr (List.map_congr_left (fun v2 hv2 => ih v2 hv2))
  | vString s h => rfl
  | vInt n => rfl
  | vInt64 n => rfl
  | vFloat q h => rfl
  | vBool b => rfl
  | vNull => rfl
  | vEpochTime t => rfl
  | vStrList xs h => rfl
  | vIntList xs => rfl
  | vInt64List xs => rfl
  | vFloatList xs h => rfl

theorem stdDenoteEntries_eq (es : List (GoStr × AnyVal)) (h : ∀ e ∈ es, CleanVal e.2) :
    stdDenoteEntries es = denoteEntries es := by
  rw [stdDenoteEntries_eq_map, denoteEntries_eq_map]
  exact List.map_congr_left (fun e he => by rw [stdDenote_eq_denote e.2 (h e he)])

/-- Modelled from the spec: the entries `encoding/json` emits for an `Alert`,
in struct tag declaration order (`alert.go`: action-loc-key is the fifth
field); `omitempty` omits empty strings and empty slices. -/
def alertEntriesStd (a : Alert) : List (GoStr × JVal) :=
  (if a.title ≠ [] then [(bytes "title", JVal.jStr a.title)] else []) ++
  (if a.subtitle ≠ [] then [(bytes "subtitle", JVal.jStr a.subtitle)] else []) ++
  (if a.body ≠ [] then [(bytes "body", JVal.jStr a.body)] else []) ++
  (if a.launchImage ≠ [] then [(bytes "launch-image", JVal.jStr a.launchImage)] else []) ++
  (if a.actionLocKey ≠ [] then [(bytes "action-loc-key", JVal.jStr a.actionLocKey)] else []) ++
  (if a.locKey ≠ [] then [(bytes "loc-key", JVal.jStr a.locKey)] else []) ++
  (if a.locArgs ≠ [] then [(bytes "loc-args", JVal.jArr (a.locArgs.map JVal.jStr))] else []) ++
  (if a.titleLocKey ≠ [] then [(bytes "title-loc-key", JVal.jStr a.titleLocKey)] else []) ++
  (if a.titleLocArgs ≠ [] then
    [(bytes "title-loc-args", JVal.jArr (a.titleLocArgs.map JVal.jStr))] else []) ++
  (if a.subtitleLocKey ≠ [] then [(bytes "subtitle-loc-key", JVal.jStr a.subtitleLocKey)]
    else []) ++
  (if a.subtitleLocArgs ≠ [] then
    [(bytes "subtitle-loc-args", JVal.jArr (a.subtitleLocArgs.map JVal.jStr))] else [])

/-- The four leading alert entries shared by both orders. -/
def alertEntriesPre (a : Alert) : List (GoStr × JVal) :=
  (if a.title ≠ [] then [(bytes "title", JVal.jStr a.title)] else []) ++
  (if a.subtitle ≠ [] then [(bytes "subtitle", JVal.jStr a.subtitle)] else []) ++
  (if a.body ≠ [] then [(bytes "body", JVal.jStr a.body)] else []) ++
  (if a.launchImage ≠ [] then [(bytes "launch-image", JVal.jStr a.launchImage)] else [])

/-- The six localization entries shared by both orders. -/
def alertEntriesMid (a : Alert) : List (GoStr × JVal) :=
  (if a.locKey ≠ [] then [(bytes "loc-key", JVal.jStr a.locKey)] else []) ++
  (if a.locArgs ≠ [] then [(bytes "loc-args", JVal.jArr (a.locArgs.map JVal.jStr))] else []) ++
  (if a.titleLocKey ≠ [] then [(bytes "title-loc-key", JVal.jStr a.titleLocKey)] else []) ++
  (if a.titleLocArgs ≠ [] then
    [(bytes "title-loc-args", JVal.jArr (a.titleLocArgs.map JVal.jStr))] else []) ++
  (if a.subtitleLocKey ≠ [] then [(bytes "subtitle-loc-key", JVal.jStr a.subtitleLocKey)]
    else []) ++
  (if a.subtitleLocArgs ≠ [] then
    [(bytes "subtitle-loc-args", JVal.jArr (a.subtitleLocArgs.map JVal.jStr))] else [])

def alertEntryAct (a : Alert) : List (GoStr × JVal) :=
  if a.actionLocKey ≠ [] then [(bytes "action-loc-key", JVal.jStr a.actionLocKey)] else []

theorem sortJ_alert_eq (a : Alert) :
    sortJ (.jObj (alertEntriesFast a)) = sortJ (.jObj (alertEntriesStd a)) := by
  apply sortJ_obj_perm
  · have hp : (alertEntriesFast a).Perm (alertEntriesStd a) := by
      have e1 : alertEntriesFast a =
          alertEntriesPre a ++ (alertEntriesMid a ++ alertEntryAct a) := by
        unfold alertEntriesFast alertEntriesPre alertEntriesMid alertEntryAct
        simp [List.append_assoc]
      have e2 : alertEntriesStd a =
          alertEntriesPre a ++ (alertEntryAct a ++ alertEntriesMid a) := by
        unfold alertEntriesStd alertEntriesPre alertEntriesMid alertEntryAct
        simp [List.append_assoc]
      rw [e1, e2]
      exact List.Perm.append_left _ List.perm_append_comm
    rw [sortJEntries_eq_map, sortJEntries_eq_map]
    exact hp.map _
  · exact alertEntriesFast_keys_nodup a

/-- Modelled from the spec: the entries `encoding/json` emits for a `Sound`,
in struct tag declaration order (`sound.go`: name, critical, volume). -/
def soundEntriesStd (s : Sound) : List (GoStr × JVal) :=
  (if s.name ≠ [] then [(bytes "name", JVal.jStr s.name)] else []) ++
  (if s.critical ≠ 0 then [(bytes "critical", JVal.jNum (s.critical : Rat))] else []) ++
  (if s.volume ≠ 0 then [(bytes "volume", JVal.jNum s.volume)] else [])

theorem sortJ_sound_eq (s : Sound) :
    sortJ (.jObj (soundEntriesFast s)) = sortJ (.jObj (soundEntriesStd s)) := by
  apply sortJ_obj_perm
  · have hp : (soundEntriesFast s).Perm (soundEntriesStd s) := by
      unfold soundEntriesFast soundEntriesStd
      exact List.Perm.append_right _ List.perm_append_comm
    rw [sortJEntries_eq_map, sortJEntries_eq_map]
    exact hp.map _
  · exact soundEntriesFast_keys_nodup s

/-- Modelled from the spec: an interface field marshals to its dynamic value,
omitted only when nil. -/
def flagEntryStd (key : String) (o : Option AnyVal) : List (GoStr × JVal) :=
  match o with
  | none => []
  | some v => [(bytes key, stdDenoteValue v)]

def alertEntryStd (aps : APS) : List (GoStr × JVal) :=
  match aps.alert with
  | none => []
  | some (.vAlert a) => [(bytes "alert", .jObj (alertEntriesStd a))]
  | some v => [(bytes "alert", stdDenoteValue v)]

def soundEntryStd (aps : APS) : List (GoStr × JVal) :=
  match aps.sound with
  | none => []
  | some (.vSound s) => [(bytes "sound", .jObj (soundEntriesStd s))]
  | some v => [(bytes "sound", stdDenoteValue v)]

def mapEntryStd (name : String) (entries : List (GoStr × AnyVal)) : List (GoStr × JVal) :=
  if entries.isEmpty then [] else [(bytes name, .jObj (stdDenoteEntries entries))]

/-- Modelled from the spec: the entries `encoding/json` emits for an `APS`
dictionary, in struct tag declaration order (`aps.go`, the same order the fast
marshaler emits); `omitempty` omits nil interfaces and pointers, empty strings
and maps, and zero int64s. -/
def apsEntriesStd (aps : APS) : List (GoStr × JVal) :=
  alertEntryStd aps ++ flagEntryStd "badge" aps.badge ++ soundEntryStd aps ++
  flagEntryStd "content-available" aps.contentAvailable ++
  flagEntryStd "mutable-content" aps.mutableContent ++
  (if aps.category ≠ [] then [(bytes "category", JVal.jStr aps.category)] else []) ++
  (if aps.threadID ≠ [] then [(bytes "thread-id", JVal.jStr aps.threadID)] else []) ++
  (if aps.interruptionLevel ≠ [] then
    [(bytes "interruption-level", JVal.jStr aps.interruptionLevel)] else []) ++
  flagEntryStd "relevance-score" aps.relevanceScore ++
  (match aps.staleDate with
    | none => []
    | some t => [(bytes "stale-date", JVal.jNum (t : Rat))]) ++
  (if aps.filterCriteria ≠ [] then [(bytes "filter-criteria", JVal.jStr aps.filterCriteria)]
    else []) ++
  (match aps.timestamp with
    | none => []
    | some t => [(bytes "timestamp", JVal.jNum (t : Rat))]) ++
  (if aps.targetContentID ≠ [] then
    [(bytes "target-content-id", JVal.jStr aps.targetContentID)] else []) ++
  mapEntryStd "content-state" aps.contentState ++
  (if aps.event ≠ [] then [(bytes "event", JVal.jStr aps.event)] else []) ++
  (if aps.dismissalDate ≠ 0 then
    [(bytes "dismissal-date", JVal.jNum (aps.dismissalDate : Rat))] else []) ++
  (if aps.attributesType ≠ [] then [(bytes "attributes-type", JVal.jStr aps.attributesType)]
    else []) ++
  mapEntryStd "attributes" aps.attributes

theorem sortJ_aps_eq (aps : APS) (h : CleanAPS aps) :
    sortJ (.jObj (apsEntriesFast aps)) = sortJ (.jObj (apsEntriesStd aps)) := by
  obtain ⟨ha, hb, hs, hca, hmc, hcat, hthr, hint, hrel, hfil, htgt, hcs, hevt, haty, hatt⟩ := h
  have h1 : sortJEntries (alertEntryFast aps) = sortJEntries (alertEntryStd aps) := by
    unfold alertEntryFast alertEntryStd
    rcases optCases aps.alert with hae | ⟨v, hae⟩
    · rw [hae]
    · rw [hae] at ha
      rw [hae]
      cases v
      case vString s2 => rfl
      case vAlert a2 =>
        show [(bytes "alert", sortJ (.jObj (alertEntriesFast a2)))] =
          [(bytes "alert", sortJ (.jObj (alertEntriesStd a2)))]
        rw [sortJ_alert_eq a2]
      all_goals exact ha.elim
  have h2 : sortJEntries (badgeEntryFast aps) = sortJEntries (flagEntryStd "badge" aps.badge) := by
    unfold badgeEntryFast flagEntryStd
    rcases optCases aps.badge with hae | ⟨v, hae⟩
    · rw [hae]
    · rw [hae] at hb
      rw [hae]
      cases v
      case vInt n => rfl
      all_goals exact hb.elim
  have h3 : sortJEntries (soundEntryFast aps) = sortJEntries (soundEntryStd aps) := by
    unfold soundEntryFast soundEntryStd
    rcases optCases aps.sound with hae | ⟨v, hae⟩
    · rw [hae]
    · rw [hae] at hs
      rw [hae]
      cases v
      case vString s2 => rfl
      case vSound s2 =>
        show [(bytes "sound", sortJ (.jObj (soundEntriesFast s2)))] =
          [(bytes "sound", sortJ (.jObj (soundEntriesStd s2)))]
        rw [sortJ_sound_eq s2]
      all_goals exact hs.elim
  have h4 : sortJEntries (if aps.contentAvailable.isSome then
      [(bytes "content-available", JVal.jNum 1)] else []) =
      sortJEntries (flagEntryStd "content-available" aps.contentAvailable) := by
    unfold flagEntryStd
    rcases optCases aps.contentAvailable with hae | ⟨v, hae⟩
    · rw [hae]
      rfl
    · rw [hae] at hca
      rw [hae]
      cases v
      case vInt n =>
        obtain rfl := hca
        show [(bytes "content-available", sortJ (JVal.jNum 1))] =
          [(bytes "content-available", sortJ (JVal.jNum (((1 : Int) : Rat))))]
        rw [Int.cast_one]
      all_goals exact hca.elim
  have h5 : sortJEntries (if aps.mutableContent.isSome then
      [(bytes "mutable-content", JVal.jNum 1)] else []) =
      sortJEntries (flagEntryStd "mutable-content" aps.mutableContent) := by
    unfold flagEntryStd
    rcases optCases aps.mutableContent with hae | ⟨v, hae⟩
    · rw [hae]
      rfl
    · rw [hae] at hmc
      rw [hae]
      cases v
      case vInt n =>
        obtain rfl := hmc
        show [(bytes "mutable-content", sortJ (JVal.jNum 1))] =
          [(bytes "mutable-content", sortJ (JVal.jNum (((1 : Int) : Rat))))]
        rw [Int.cast_one]
      all_goals exact hmc.elim
  have h9 : sortJEntries (relevanceEntryFast aps) =
      sortJEntries (flagEntryStd "relevance-score" aps.relevanceScore) := by
    unfold relevanceEntryFast flagEntryStd
    rcases optCases aps.relevanceScore with hae | ⟨v, hae⟩
    · rw [hae]
    · rw [hae] at hrel
      rw [hae]
      cases v
      case vFloat q => rfl
      all_goals exact hrel.elim
  have hmap : ∀ (name : String) (es : List (GoStr × AnyVal)), (∀ e ∈ es, CleanVal e.2) →
      sortJEntries (mapEntryFast name es) = sortJEntries (mapEntryStd name es) := by
    intro name es hv
    unfold mapEntryFast mapEntryStd
    split_ifs
    · rfl
    · rw [stdDenoteEntries_eq es hv]
  have heq : sortJEntries (apsEntriesFast aps) = sortJEntries (apsEntriesStd aps) := by
    unfold apsEntriesFast apsEntriesStd
    simp only [sortJEntries_append]
    rw [h1, h2, h3, h4, h5, h9, hmap "content-state" aps.contentState hcs.2.2,
      hmap "attributes" aps.attributes hatt.2.2]
  rw [show sortJ (.jObj (apsEntriesFast aps)) =
    .jObj (List.insertionSort keyLE (sortJEntries (apsEntriesFast aps))) from rfl,
    show sortJ (.jObj (apsEntriesStd aps)) =
    .jObj (List.insertionSort keyLE (sortJEntries (apsEntriesStd aps))) from rfl, heq]

/-- Modelled from the spec: the JSON value `encoding/json` produces for the
merged map `Payload.MarshalJSON` builds (the custom entries plus the `aps`
dictionary; `encoding/json` emits map keys in sorted order, and the claims
compare outputs only up to object key order, so the entry order here is
immaterial). -/
def payloadEntriesStd (p : Payload) : List (GoStr × JVal) :=
  stdDenoteEntries p.customData ++ [(bytes "aps", .jObj (apsEntriesStd p.aps))]

def stdDenotePayload (p : Payload) : JVal := .jObj (payloadEntriesStd p)

theorem sortJ_payload_eq (p : Payload) (h : CleanPayload p) :
    sortJ (.jObj (payloadEntriesFast p)) = sortJ (stdDenotePayload p) := by
  obtain ⟨haps, hnd, hks, hvs, hne⟩ := h
  unfold stdDenotePayload
  apply sortJ_obj_perm
  · unfold payloadEntriesFast payloadEntriesStd
    rw [show sortJEntries ((bytes "aps", JVal.jObj (apsEntriesFast p.aps)) ::
        denoteEntries p.customData) =
      (bytes "aps", sortJ (.jObj (apsEntriesFast p.aps))) ::
        sortJEntries (denoteEntries p.customData) from rfl]
    rw [sortJEntries_append, stdDenoteEntries_eq p.customData hvs]
    rw [show sortJEntries [(bytes "aps", JVal.jObj (apsEntriesStd p.aps))] =
      [(bytes "aps", sortJ (.jObj (apsEntriesStd p.aps)))] from rfl]
    rw [sortJ_aps_eq p.aps haps]
    exact (List.perm_append_singleton _ _).symm
  · unfold payloadEntriesFast
    rw [List.map_cons, denoteEntries_fst]
    refine List.nodup_cons.mpr ⟨?_, hnd⟩
    intro hmem
    obtain ⟨e2, he2, heq⟩ := List.mem_map.mp hmem
    exact hne e2 he2 heq

/-! ### Claim C1: fast encoder vs the reflective encoder -/

/-- The entries of a parsed JSON object (used to inspect concrete parses). -/
def objEntries : JVal → List (GoStr × JVal)
  | .jObj es => es
  | _ => []

/-- The bytes of a parsed JSON string (used to inspect concrete parses). -/
def strOfJ : JVal → GoStr
  | .jStr s => s
  | _ => []

/-- The payload bytes of a successful marshal. -/
def okBytes : Except EncErr GoStr → GoStr
  | .ok bs => bs
  | .error _ => []

/-- The documented supported dynamic shapes of the claim, byte slices
included; `FiniteDec` holds of every float64 value, so it is part of the
float64 shapes in the rational model.  Self-serializing values are left out:
their spliced output has no structural model here, and the claim is refuted
already inside this fragment. -/
inductive SupportedVal : AnyVal → Prop where
  | vString (s : GoStr) : SupportedVal (.vString s)
  | vInt (n : Int) : SupportedVal (.vInt n)
  | vInt64 (n : Int) : SupportedVal (.vInt64 n)
  | vFloat (q : Rat) : FiniteDec q → SupportedVal (.vFloat q)
  | vBool (b : Bool) : SupportedVal (.vBool b)
  | vNull : SupportedVal .vNull
  | vBytes (bs : GoStr) : SupportedVal (.vBytes bs)
  | vEpochTime (t : Int) : SupportedVal (.vEpochTime t)
  | vStrList (xs : List GoStr) : SupportedVal (.vStrList xs)
  | vIntList (xs : List Int) : SupportedVal (.vIntList xs)
  | vInt64List (xs : List Int) : SupportedVal (.vInt64List xs)
  | vFloatList (xs : List Rat) : (∀ q ∈ xs, FiniteDec q) → SupportedVal (.vFloatList xs)
  | vMap (es : List (GoStr × AnyVal)) : (∀ e ∈ es, SupportedVal e.2) →
      SupportedVal (.vMap es)
  | vArr (xs : List AnyVal) : (∀ v ∈ xs, SupportedVal v) → SupportedVal (.vArr xs)

def SupportedAlertVal : Option AnyVal → Prop
  | none => True
  | some (.vString _) => True
  | some (.vAlert _) => True
  | _ => False

def SupportedBadgeVal : Option AnyVal → Prop
  | none => True
  | some (.vInt _) => True
  | _ => False

def SupportedSoundVal : Option AnyVal → Prop
  | none => True
  | some (.vString _) => True
  | some (.vSound _) => True
  | _ => False

def SupportedFlagVal : Option AnyVal → Prop
  | none => True
  | some (.vInt _) => True
  | _ => False

def SupportedRelVal : Option AnyVal → Prop
  | none => True
  | some (.vFloat _) => True
  | _ => False

/-- A payload containing no unsupported dynamic value types (the claim's
domain). -/
def SupportedPayload (p : Payload) : Prop :=
  SupportedAlertVal p.aps.alert ∧ SupportedBadgeVal p.aps.badge ∧
  SupportedSoundVal p.aps.sound ∧ SupportedFlagVal p.aps.contentAvailable ∧
  SupportedFlagVal p.aps.mutableContent ∧ SupportedRelVal p.aps.relevanceScore ∧
  (∀ e ∈ p.aps.contentState, SupportedVal e.2) ∧
  (∀ e ∈ p.aps.attributes, SupportedVal e.2) ∧
  (∀ e ∈ p.customData, SupportedVal e.2)

/-- Claim C1 as stated: for every payload whose dynamic values have only the
documented supported shapes (byte slices included), the fast encoder succeeds
and its output, parsed back, is structurally equal — same key/value pairs at
every level, array order preserved, object key order immaterial — to the
reflective encoder's value. -/
def C1Claim : Prop :=
  ∀ p : Payload, SupportedPayload p →
    ∃ bs, p.MarshalJSONFast = .ok bs ∧
      ∃ ast, parseJson bs = some ast ∧ sortJ ast = sortJ (stdDenotePayload p)

/-- A supported payload on which the two encoders disagree: a byte-slice
custom value.  The fast encoder writes the raw bytes as a quoted string
(part_001: the `[]byte` arm of `EncodeValue` quotes the bytes directly), the
reflective encoder writes their base64 encoding, so `"hi"` parses back from
the fast output where the reflective value holds `"aGk="`. -/
def c1Payload : Payload :=
  { aps := { contentAvailable := some (.vInt 1) },
    customData := [(bytes "k", .vBytes (bytes "hi"))] }

set_option maxHeartbeats 4000000 in
/-- Claim C1, refuted: the byte-slice shape is in the claim's supported list,
but the fast encoder emits the raw bytes where `encoding/json` emits base64,
so the parsed outputs differ at the custom key. -/
theorem c1_counterexample : ¬ C1Claim := by
  intro hcl
  obtain ⟨bs, hbs, ast, hast, hsort⟩ := hcl c1Payload
    ⟨trivial, trivial, trivial, trivial, trivial, trivial,
      fun e he => absurd he (List.not_mem_nil e),
      fun e he => absurd he (List.not_mem_nil e),
      fun e he => by
        obtain rfl := List.mem_singleton.mp he
        exact SupportedVal.vBytes _⟩
  have hbs2 : bs = okBytes (Payload.MarshalJSONFast c1Payload) := by
    rw [hbs]
    rfl
  have key : Option.map (fun a => strOfJ ((lookupKey (bytes "k")
      (objEntries (sortJ a))).getD JVal.jNull)) (parseJson bs) =
      some (strOfJ ((lookupKey (bytes "k")
      (objEntries (sortJ (stdDenotePayload c1Payload)))).getD JVal.jNull)) := by
    rw [hast]
    rw [show Option.map (fun a => strOfJ ((lookupKey (bytes "k")
      (objEntries (sortJ a))).getD JVal.jNull)) (some ast) =
      some (strOfJ ((lookupKey (bytes "k") (objEntries (sortJ ast))).getD JVal.jNull)) from
      rfl]
    rw [hsort]
  rw [hbs2] at key
  rw [show Option.map (fun a => strOfJ ((lookupKey (bytes "k") (objEntries (sortJ a))).getD
      JVal.jNull)) (parseJson (okBytes (Payload.MarshalJSONFast c1Payload))) =
    some (bytes "hi") from by decide] at key
  rw [show strOfJ ((lookupKey (bytes "k")
      (objEntries (sortJ (stdDenotePayload c1Payload)))).getD JVal.jNull) =
    bytes "aGk=" from by decide] at key
  exact absurd key (by decide)

/-- C1 (amended): on clean payloads — supported shapes minus byte slices and
self-serializing values, printable-ASCII strings and keys, duplicate-free map
keys, no custom key `aps`, and content-available / mutable-content holding the
int 1 when present — the fast encoder succeeds and its output, parsed back, is
structurally equal (same key/value pairs at every nesting level, array order
preserved, object key order immaterial) to the reflective encoder's value. -/
theorem fast_std_equiv (p : Payload) (h : CleanPayload p) :
    ∃ bs, p.MarshalJSONFast = .ok bs ∧
      ∃ ast, parseJson bs = some ast ∧ sortJ ast = sortJ (stdDenotePayload p) :=
  ⟨_, payload_fast_marshal p h,
    ⟨_, parseJson_renderJ _ (cleanJ_payloadEntries p h), sortJ_payload_eq p h⟩⟩

/-- A concrete clean payload exercising the equivalence: an alert string, the
content-available flag, and one custom string entry. -/
def cleanPayloadW : Payload :=
  { aps := { alert := some (.vString (bytes "hello")),
             contentAvailable := some (.vInt 1) },
    customData := [(bytes "k", .vString (bytes "v"))] }

theorem fast_std_equiv_witness :
    CleanPayload cleanPayloadW ∧
    ∃ bs, cleanPayloadW.MarshalJSONFast = .ok bs ∧
      ∃ ast, parseJson bs = some ast ∧ sortJ ast = sortJ (stdDenotePayload cleanPayloadW) := by
  have hmapnil : CleanMap ([] : List (GoStr × AnyVal)) :=
    ⟨List.nodup_nil, fun e he => absurd he (List.not_mem_nil e),
      fun e he => absurd he (List.not_mem_nil e)⟩
  have h : CleanPayload cleanPayloadW := by
    refine ⟨⟨(by decide : cleanStr (bytes "hello")), trivial, trivial, rfl, trivial,
      (by decide : cleanStr []), (by decide : cleanStr []), (by decide : cleanStr []),
      trivial, (by decide : cleanStr []), (by decide : cleanStr []), hmapnil,
      (by decide : cleanStr []), (by decide : cleanStr []), hmapnil⟩,
      (by decide), ?_, ?_, ?_⟩
    · intro e he
      obtain rfl := List.mem_singleton.mp he
      exact (by decide : cleanStr (bytes "k"))
    · intro e he
      obtain rfl := List.mem_singleton.mp he
      exact CleanVal.vString _ (by decide)
    · intro e he
      obtain rfl := List.mem_singleton.mp he
      exact (by decide : ¬(bytes "k" = bytes "aps"))
  exact ⟨h, fast_std_equiv cleanPayloadW h⟩

/-! ### Claim C3: a single object, no duplicate keys at any level -/

def isObjB : JVal → Bool
  | .jObj _ => true
  | _ => false

mutual
/-- No object at any nesting level binds the same key twice. -/
def noDupKeysJ : JVal → Bool
  | .jNull => true
  | .jBool _ => true
  | .jNum _ => true
  | .jStr _ => true
  | .jArr xs => noDupKeysJList xs
  | .jObj es => decide ((es.map Prod.fst).Nodup) && noDupKeysJEntries es

def noDupKeysJList : List JVal → Bool
  | [] => true
  | v :: vs => noDupKeysJ v && noDupKeysJList vs

def noDupKeysJEntries : List (GoStr × JVal) → Bool
  | [] => true
  | (_, v) :: es => noDupKeysJ v && noDupKeysJEntries es
end

theorem noDupKeysJList_of (xs : List JVal) (h : ∀ v ∈ xs, noDupKeysJ v = true) :
    noDupKeysJList xs = true := by
  induction xs with
  | nil => rfl
  | cons v vs ih =>
    rw [show noDupKeysJList (v :: vs) = (noDupKeysJ v && noDupKeysJList vs) from rfl,
      h v (List.mem_cons_self _ _), ih (fun x hx => h x (List.mem_cons_of_mem _ hx))]
    rfl

theorem noDupKeysJEntries_of (es : List (GoStr × JVal))
    (h : ∀ e ∈ es, noDupKeysJ e.2 = true) : noDupKeysJEntries es = true := by
  induction es with
  | nil => rfl
  | cons e es ih =>
    obtain ⟨k, v⟩ := e
    rw [show noDupKeysJEntries ((k, v) :: es) = (noDupKeysJ v && noDupKeysJEntries es) from
      rfl, h (k, v) (List.mem_cons_self _ _),
      ih (fun x hx => h x (List.mem_cons_of_mem _ hx))]
    rfl

/-- Clean JSON values (whose objects carry duplicate-free keys by definition)
pass the duplicate-free-keys check at every level. -/
theorem cleanJ_noDup (v : JVal) (hv : CleanJ v) : noDupKeysJ v = true := by
  induction hv with
  | jNull => rfl
  | jBool b => rfl
  | jNum q h => rfl
  | jStr s h => rfl
  | jArr xs h ih => exact noDupKeysJList_of xs ih
  | jObj es hnd hks hvs ih =>
    rw [show noDupKeysJ (.jObj es) = (decide ((es.map Prod.fst).Nodup) &&
      noDupKeysJEntries es) from rfl, decide_eq_true hnd, noDupKeysJEntries_of es ih]
    rfl

/-- Claim C3 as stated: for every valid payload whose dynamic values have only
the supported shapes — the custom data an arbitrary string-keyed map — the
fast encoder's output is a single well-formed JSON object in which no object
at any nesting level contains the same key twice. -/
def C3Claim : Prop :=
  ∀ p : Payload, SupportedPayload p → p.aps.Validate = none →
    ∃ bs, p.MarshalJSONFast = .ok bs ∧
      ∃ ast, parseJson bs = some ast ∧ isObjB ast = true ∧ noDupKeysJ ast = true

/-- A valid payload whose arbitrary custom map binds the reserved key `aps`:
`Payload.MarshalJSONFast` emits its own `"aps"` entry unconditionally
(payload_marshal.go:21-60) and then the custom entries verbatim, so the output
object binds `aps` twice. -/
def c3Payload : Payload :=
  { aps := { contentAvailable := some (.vInt 1) },
    customData := [(bytes "aps", .vInt 1)] }

set_option maxHeartbeats 4000000 in
/-- Claim C3, refuted: a custom key `aps` duplicates the reserved top-level
key in the fast output. -/
theorem c3_counterexample : ¬ C3Claim := by
  intro hcl
  obtain ⟨bs, hbs, ast, hast, hobj, hnd⟩ := hcl c3Payload
    ⟨trivial, trivial, trivial, trivial, trivial, trivial,
      fun e he => absurd he (List.not_mem_nil e),
      fun e he => absurd he (List.not_mem_nil e),
      fun e he => by
        obtain rfl := List.mem_singleton.mp he
        exact SupportedVal.vInt _⟩
    rfl
  have hbs2 : bs = okBytes (Payload.MarshalJSONFast c3Payload) := by
    rw [hbs]
    rfl
  have key : Option.map noDupKeysJ (parseJson bs) = some true := by
    rw [hast]
    rw [show Option.map noDupKeysJ (some ast) = some (noDupKeysJ ast) from rfl, hnd]
  rw [hbs2] at key
  rw [show Option.map noDupKeysJ (parseJson (okBytes (Payload.MarshalJSONFast c3Payload))) =
    some false from by decide] at key
  exact absurd key (by decide)

/-- C3 (amended): on clean payloads — in particular, custom keys duplicate-free
and distinct from the reserved key `aps` — the fast encoder's output is a
single well-formed JSON object in which no object at any nesting level binds
the same key twice.  For an arbitrary custom map the invariant fails: a custom
key `aps` duplicates the reserved top-level key. -/
theorem fast_marshal_nodup (p : Payload) (h : CleanPayload p) :
    ∃ bs, p.MarshalJSONFast = .ok bs ∧
      ∃ ast, parseJson bs = some ast ∧ isObjB ast = true ∧ noDupKeysJ ast = true :=
  ⟨_, payload_fast_marshal p h,
    ⟨_, parseJson_renderJ _ (cleanJ_payloadEntries p h), rfl,
      cleanJ_noDup _ (cleanJ_payloadEntries p h)⟩⟩

/-- A concrete clean payload with a nested custom map, for the no-duplicate
invariant. -/
def c3PayloadW : Payload :=
  { aps := { sound := some (.vString (bytes "ding")),
             mutableContent := some (.vInt 1) },
    customData := [(bytes "user", .vMap [(bytes "id", .vInt 7)])] }

theorem fast_marshal_nodup_witness :
    CleanPayload c3PayloadW ∧
    ∃ bs, c3PayloadW.MarshalJSONFast = .ok bs ∧
      ∃ ast, parseJson bs = some ast ∧ isObjB ast = true ∧ noDupKeysJ ast = true := by
  have hmapnil : CleanMap ([] : List (GoStr × AnyVal)) :=
    ⟨List.nodup_nil, fun e he => absurd he (List.not_mem_nil e),
      fun e he => absurd he (List.not_mem_nil e)⟩
  have h : CleanPayload c3PayloadW := by
    refine ⟨⟨trivial, trivial, (by decide : cleanStr (bytes "ding")), trivial, rfl,
      (by decide : cleanStr []), (by decide : cleanStr []), (by decide : cleanStr []),
      trivial, (by decide : cleanStr []), (by decide : cleanStr []), hmapnil,
      (by decide : cleanStr []), (by decide : cleanStr []), hmapnil⟩,
      (by decide), ?_, ?_, ?_⟩
    · intro e he
      obtain rfl := List.mem_singleton.mp he
      exact (by decide : cleanStr (bytes "user"))
    · intro e he
      obtain rfl := List.mem_singleton.mp he
      refine CleanVal.vMap _ (by decide) ?_ ?_
      · intro e2 he2
        obtain rfl := List.mem_singleton.mp he2
        exact (by decide : cleanStr (bytes "id"))
      · intro e2 he2
        obtain rfl := List.mem_singleton.mp he2
        exact CleanVal.vInt _
    · intro e he
      obtain rfl := List.mem_singleton.mp he
      exact (by decide : ¬(bytes "user" = bytes "aps"))
  exact ⟨h, fast_marshal_nodup c3PayloadW h⟩

end Apns
